import Mathlib

/-! # MEGAcmd: listeners, petition dispatch, session pool, over-quota detector

A shallow embedding of the synchronous-bridge / petition-dispatch / transfer-aggregation layer
of MEGAcmd (`src/megacmd.cpp`, `src/listeners.cpp`, `src/megacmdexecuter.cpp`, `src/megacmd.h`).

Conventions of the embedding:

* global variables and object fields of the program are fields of a state record that is
  passed explicitly; a method is a function from the state before to the state after (and
  to the calls it makes to the outside, where a theorem needs them);
* a `MegaThread *` or `MegaApi *` pointer is a natural number (the identity of the object);
* a `MegaSemaphore` is its permit count; `wait()` on a count of zero blocks, which the step
  functions express by returning `none` (the step cannot happen in that state);
* C strings are `String`s; `strcmp(a, b) == 0` is `a = b` and
  `strncmp(a, b, strlen(b)) == 0` is "`b` is a prefix of `a`";
* a `std::map` is an association list with unique keys (`AList`), a `std::deque`, `std::queue`
  or `std::vector` is a list;
* the 32-bit `int` counter `currentclientID` wraps around (`wrapInt32`); byte counters
  (`long long`), `time_t` values and the counters `started` / `finished` are integers, the
  embedding describing the executions in which their arithmetic does not overflow;
* the `float` percentages of the listeners are exact rational numbers.
-/

namespace MegaCmd

/-! ## Worker thread registry and `delete_finished_threads` -/

/-- The identity of a `MegaThread` object (a `MegaThread *`). -/
abbrev ThreadId := Nat

/-- Inner loop of `delete_finished_threads` (iterator `it2`): walks `petitionThreads` and
erases every entry equal to `mt`, keeping the other entries in place. -/
def eraseThread (mt : ThreadId) : List ThreadId → List ThreadId
  | [] => []
  | t :: rest => if mt = t then eraseThread mt rest else t :: eraseThread mt rest

/-- The two lists of the worker thread registry, with the log of the handles on which
`mt->join(); delete mt;` has been executed (oldest first). -/
structure ThreadRegistry where
  petitionThreads : List ThreadId
  endedPetitionThreads : List ThreadId
  joined : List ThreadId
  deriving DecidableEq, Repr

/-- Outer loop of `delete_finished_threads` (iterator `it`): for the front handle `mt` of
`endedPetitionThreads`, erase it from `petitionThreads`, join and delete it, erase it from
`endedPetitionThreads`, and go on with the next one. -/
def deleteFinishedLoop : List ThreadId → List ThreadId → List ThreadId → ThreadRegistry
  | [], pts, js => { petitionThreads := pts, endedPetitionThreads := [], joined := js }
  | mt :: rest, pts, js => deleteFinishedLoop rest (eraseThread mt pts) (js ++ [mt])

/-- The function `delete_finished_threads()` on the registry. -/
def delete_finished_threads (r : ThreadRegistry) : ThreadRegistry :=
  deleteFinishedLoop r.endedPetitionThreads r.petitionThreads r.joined

/-! ## Petitions, workers and the server state -/

/-- The `enum prompttype` of `megacmd.h`. -/
inductive prompttype
  | COMMAND | LOGINPASSWORD | OLDPASSWORD | NEWPASSWORD | PASSWORDCONFIRM | AREYOUSURETODELETE
  deriving DecidableEq, Repr

/-- The fields of a `CmdPetition` the dispatcher touches. -/
structure CmdPetition where
  line : String
  clientID : Int
  petitionThread : Option ThreadId
  deriving DecidableEq, Repr

/-- Program point of a worker thread inside `doProcessLine`. -/
inductive WorkerPc
  | started    -- thread created; `process_line` has not returned yet
  | processed  -- `doExit = process_line(...)` executed; the permit is still held
  | released   -- `semaphoreClients.release()` executed
  | ended      -- handle appended to `endedPetitionThreads`; the thread returns
  deriving DecidableEq, Repr

/-- A worker thread created by the dispatcher for one petition. -/
structure Worker where
  thread : ThreadId
  inf : CmdPetition
  pc : WorkerPc
  deriving DecidableEq, Repr

/-- A registered state listener: the petition kept by `registerStateListener` and the state
lines passed to `informStateListener` for it, oldest first. -/
structure StateListener where
  inf : CmdPetition
  sent : List String
  deriving DecidableEq, Repr

/-- The global variables of `megacmd.cpp` used by the acceptance loop and the workers. -/
structure Server where
  semaphoreClients : Nat
  petitionThreads : List ThreadId
  endedPetitionThreads : List ThreadId
  joined : List ThreadId
  doExit : Bool
  currentclientID : Int
  dynamicprompt : String
  /-- the handle the next `new MegaThread()` returns; also the number of threads created -/
  nextThread : ThreadId
  /-- every worker thread created so far, with its program point -/
  workers : List Worker
  stateListeners : List StateListener
  /-- the petition for which the acceptance loop is inside `semaphoreClients.wait()` -/
  dispatching : Option CmdPetition
  /-- whether `megacmd()` has returned -/
  loopReturned : Bool
  deriving DecidableEq, Repr

/-- An `int` value after an arithmetic operation: reduced into `[-2^31, 2^31)`. -/
def wrapInt32 (x : Int) : Int := (x + 2147483648) % 4294967296 - 2147483648

/-- The macro `SSTR(x)`: the decimal text of an integer. -/
def SSTR (x : Int) : String := toString x

/-- The call `release()` on a `MegaSemaphore`: one more permit. -/
def semRelease (permits : Nat) : Nat := permits + 1

/-- The state `main` sets up before calling `megacmd()`: the loop
`for (int i = 0; i < 100; i++) semaphoreClients.release();` on a fresh semaphore, and the
initial values of the globals (`doExit = false`, `currentclientID = 1`). -/
def mainInit (dynamicprompt : String) : Server :=
  { semaphoreClients := Nat.iterate semRelease 100 0
    petitionThreads := []
    endedPetitionThreads := []
    joined := []
    doExit := false
    currentclientID := 1
    dynamicprompt := dynamicprompt
    nextThread := 0
    workers := []
    stateListeners := []
    dispatching := none
    loopReturned := false }

/-- The condition of the "state register petition" branch of `megacmd()`. -/
def isRegisterStateListener (line : String) : Bool :=
  "registerstatelistener".toList.isPrefixOf line.toList ||
    "Xregisterstatelistener".toList.isPrefixOf line.toList

/-- The return value of `process_line(l)` under prompt `p`: `true` (exit) only for
`q`, `quit`, `exit`, `exit `, `quit ` at the `COMMAND` prompt. -/
def process_line (p : prompttype) (l : String) : Bool :=
  match p with
  | .COMMAND => l = "q" || l = "quit" || l = "exit" || l = "exit " || l = "quit "
  | _ => false

/-- The line `doProcessLine` hands to `process_line`: a leading `X` (petition coming from the
interactive shell) is stripped. -/
def workerLine (line : String) : String :=
  match line.toList with
  | 'X' :: rest => String.mk rest
  | _ => line

/-- The function `delete_finished_threads()` on the server state. -/
def Server.reclaim (s : Server) : Server :=
  let r := delete_finished_threads
    { petitionThreads := s.petitionThreads
      endedPetitionThreads := s.endedPetitionThreads
      joined := s.joined }
  { s with petitionThreads := r.petitionThreads
           endedPetitionThreads := r.endedPetitionThreads
           joined := r.joined }

/-- The state line announcing a client id: `clientID:<id>` followed by the unit separator. -/
def clientIdLine (id : Int) : String := ("clientID:" ++ SSTR id).push (Char.ofNat 0x1F)

/-- The "state register petition" branch of `megacmd()`: `registerStateListener(inf)`, the
line `clientID:<currentclientID>` + `0x1F` sent to the petition, the id stored in the petition,
the counter incremented, then the line `prompt:<dynamicprompt>` + `0x1F` followed by the
platform-dependent `message:` parts (`extra`). -/
def registerBranch (s : Server) (inf : CmdPetition) (extra : String) : Server :=
  let s1 := clientIdLine s.currentclientID
  let inf1 := { inf with clientID := s.currentclientID }
  let s2 := (("prompt:" ++ s.dynamicprompt).push (Char.ofNat 0x1F)) ++ extra
  { s with currentclientID := wrapInt32 (s.currentclientID + 1)
           stateListeners := s.stateListeners ++ [{ inf := inf1, sent := [s1, s2] }] }

/-- The body of `if (cm->receivedPetition())` in `megacmd()` up to the point where a normal
petition starts waiting for a concurrency slot. `inf = none` is a null petition. -/
def megacmdPetition (s : Server) (inf : Option CmdPetition) (extra : String) : Server :=
  let s1 := s.reclaim
  match inf with
  | none => s1
  | some inf =>
    if inf.line = "ERROR" then s1
    else if isRegisterStateListener inf.line then registerBranch s1 inf extra
    else { s1 with dispatching := some inf }

/-- The "normal petition" branch of `megacmd()` from `semaphoreClients.wait()` on: blocked
(`none`) while no permit is available; otherwise one permit is taken, a new `MegaThread` is
appended to `petitionThreads`, stored in the petition and started on `doProcessLine`. -/
def megacmdDispatch (s : Server) (inf : CmdPetition) : Option Server :=
  if s.semaphoreClients = 0 then none
  else
    let petitionThread := s.nextThread
    some { s with semaphoreClients := s.semaphoreClients - 1
                  nextThread := s.nextThread + 1
                  petitionThreads := s.petitionThreads ++ [petitionThread]
                  workers := s.workers ++
                    [{ thread := petitionThread
                       inf := { inf with petitionThread := some petitionThread }
                       pc := .started }]
                  dispatching := none }

/-- Moves the worker of thread `t` from program point `pc` to `pc'`; `none` if there is no
such worker at `pc`. Returns the worker as it was, and the updated list. -/
def advanceWorker (t : ThreadId) (pc pc' : WorkerPc) : List Worker → Option (Worker × List Worker)
  | [] => none
  | w :: ws =>
    if w.thread = t then
      if w.pc = pc then some (w, { w with pc := pc' } :: ws) else none
    else
      match advanceWorker t pc pc' ws with
      | none => none
      | some (w', ws') => some (w', w :: ws')

/-- What can happen next in the system. -/
inductive Event
  /-- the call `waitForPetition()` returns and a petition (possibly null) has been received -/
  | petition (inf : Option CmdPetition) (extra : String)
  /-- the call `waitForPetition()` returns without a petition -/
  | wakeup
  /-- the acceptance loop gets past `semaphoreClients.wait()` and creates the worker -/
  | dispatch
  /-- worker `t` executes `doExit = process_line(inf->getLine())` under prompt `p` -/
  | workerProcess (t : ThreadId) (p : prompttype)
  /-- worker `t` executes `semaphoreClients.release()` -/
  | workerRelease (t : ThreadId)
  /-- worker `t` appends its handle to `endedPetitionThreads` and returns -/
  | workerEnd (t : ThreadId)
  /-- the handler `sigint_handler` runs (`loginInAtStartup` false) -/
  | sigint
  deriving DecidableEq, Repr

/-- One step of the system; `none` when the event cannot happen in state `s`. -/
def step (s : Server) : Event → Option Server
  | .petition inf extra =>
    if s.loopReturned || s.dispatching.isSome then none
    else if s.doExit then some { s with loopReturned := true }
    else some (megacmdPetition s inf extra)
  | .wakeup =>
    if s.loopReturned || s.dispatching.isSome then none
    else if s.doExit then some { s with loopReturned := true }
    else some s
  | .dispatch =>
    match s.dispatching with
    | none => none
    | some inf => megacmdDispatch s inf
  | .workerProcess t p =>
    match advanceWorker t .started .processed s.workers with
    | none => none
    | some (w, ws) => some { s with workers := ws, doExit := process_line p (workerLine w.inf.line) }
  | .workerRelease t =>
    match advanceWorker t .processed .released s.workers with
    | none => none
    | some (_, ws) => some { s with workers := ws, semaphoreClients := semRelease s.semaphoreClients }
  | .workerEnd t =>
    match advanceWorker t .released .ended s.workers with
    | none => none
    | some (_, ws) =>
      some { s with workers := ws, endedPetitionThreads := s.endedPetitionThreads ++ [t] }
  | .sigint => some { s with doExit := true }

/-- Runs a sequence of events; `none` if one of them cannot happen when its turn comes. -/
def run (s : Server) : List Event → Option Server
  | [] => some s
  | e :: es =>
    match step s e with
    | none => none
    | some s' => run s' es

/-- A worker holds a concurrency slot from its creation until `semaphoreClients.release()`. -/
def Worker.holdsSlot (w : Worker) : Bool :=
  w.pc = .started || w.pc = .processed

/-- Number of workers between the acquisition of their permit and its release. -/
def holding (s : Server) : Nat := (s.workers.filter Worker.holdsSlot).length

/-- Number of workers that have released their permit. -/
def releasedCount (s : Server) : Nat := (s.workers.filter (fun w => !w.holdsSlot)).length

/-- The permits of `semaphoreClients` and the workers holding a slot add up to 100. -/
def slotsInvariant (s : Server) : Prop := s.semaphoreClients + holding s = 100

/-- Invariant of the registration counter: it is one more than the number of registrations
made so far (as an `int`), and the registration at position `k` (counted from 0) got id
`k + 1` and the matching first state line, as long as `k + 1` is an `int`. -/
def clientIdInvariant (s : Server) : Prop :=
  s.currentclientID = wrapInt32 (1 + (s.stateListeners.length : Int)) ∧
  ∀ (k : Nat) (l : StateListener), s.stateListeners[k]? = some l →
    (k : Int) + 1 < 2147483648 →
      l.inf.clientID = (k : Int) + 1 ∧ l.sent.head? = some (clientIdLine ((k : Int) + 1))

/-! ## Concrete scenarios -/

/-- Two normal petitions (`ls`, `Xwhoami`) are dispatched, then the first worker runs
`process_line` and releases its slot. -/
def scenarioTwoPetitionsEvents : List Event :=
  [.petition (some ⟨"ls", -1, none⟩) "", .dispatch,
   .petition (some ⟨"Xwhoami", 1, none⟩) "", .dispatch,
   .workerProcess 0 .COMMAND, .workerRelease 0]

/-- The server after `scenarioTwoPetitionsEvents`. -/
def scenarioTwoPetitions : Server :=
  { semaphoreClients := 99
    petitionThreads := [0, 1]
    endedPetitionThreads := []
    joined := []
    doExit := false
    currentclientID := 1
    dynamicprompt := "MEGA CMD> "
    nextThread := 2
    workers :=
      [{ thread := 0, inf := { line := "ls", clientID := -1, petitionThread := some 0 },
         pc := .released },
       { thread := 1, inf := { line := "Xwhoami", clientID := 1, petitionThread := some 1 },
         pc := .started }]
    stateListeners := []
    dispatching := none
    loopReturned := false }

/-- Two state listeners register, with a normal petition in between. -/
def scenarioRegistrationsEvents : List Event :=
  [.petition (some ⟨"registerstatelistener", -1, none⟩) "",
   .petition (some ⟨"ls", -1, none⟩) "", .dispatch,
   .petition (some ⟨"Xregisterstatelistener", -1, none⟩) ""]

/-- The server after `scenarioRegistrationsEvents`. -/
def scenarioRegistrations : Server :=
  { semaphoreClients := 99
    petitionThreads := [0]
    endedPetitionThreads := []
    joined := []
    doExit := false
    currentclientID := 3
    dynamicprompt := "MEGA CMD> "
    nextThread := 1
    workers :=
      [{ thread := 0, inf := { line := "ls", clientID := -1, petitionThread := some 0 },
         pc := .started }]
    stateListeners :=
      [{ inf := { line := "registerstatelistener", clientID := 1, petitionThread := none },
         sent := ["clientID:1\x1f", "prompt:MEGA CMD> \x1f"] },
       { inf := { line := "Xregisterstatelistener", clientID := 2, petitionThread := none },
         sent := ["clientID:2\x1f", "prompt:MEGA CMD> \x1f"] }]
    dispatching := none
    loopReturned := false }

/-! ## Over-quota detector (`listeners.cpp`, `megacmdexecuter.cpp`) -/

/-- The parts of a `MegaError` the code reads: `getErrorCode()` and `getValue()`. -/
structure MegaError where
  errorCode : Int
  value : Int
  deriving DecidableEq, Repr

/-- The SDK constant `MegaError::API_OK`. -/
def API_OK : Int := 0

/-- The SDK constant `MegaError::API_EOVERQUOTA`. -/
def API_EOVERQUOTA : Int := -17

/-- The fields of `MegaCmdSandbox` (`sandboxCMD`) used by the over-quota logic; times are
`time_t` seconds. -/
structure MegaCmdSandbox where
  overquota : Bool
  timeOfOverquota : Int
  secondsOverQuota : Int
  lastQuerytemporalBandwith : Int
  temporalbandwidth : Int
  temporalbandwithinterval : Int
  istemporalbandwidthvalid : Bool
  deriving DecidableEq, Repr

/-- The accessor `MegaCmdSandbox::isOverquota()`. -/
def MegaCmdSandbox.isOverquota (sb : MegaCmdSandbox) : Bool := sb.overquota

/-- The setter `MegaCmdSandbox::setOverquota(value)`. -/
def MegaCmdSandbox.setOverquota (sb : MegaCmdSandbox) (value : Bool) : MegaCmdSandbox :=
  { sb with overquota := value }

/-- The callback `MegaCmdGlobalTransferListener::onTransferTemporaryError(api, transfer, e)`;
`now` is the value of `time(NULL)`, `e = none` a null error. The warning it logs the first
time is not part of the state. -/
def onTransferTemporaryError (sb : MegaCmdSandbox) (now : Int) (e : Option MegaError) :
    MegaCmdSandbox :=
  match e with
  | none => sb
  | some err =>
    if err.errorCode = API_EOVERQUOTA then
      { (sb.setOverquota true) with timeOfOverquota := now, secondsOverQuota := err.value }
    else sb

/-- The callback `MegaCmdGlobalListener::onAccountUpdate(api)`; `delay` is the value of
`api->getBandwidthOverquotaDelay()`. -/
def onAccountUpdate (sb : MegaCmdSandbox) (delay : Int) : MegaCmdSandbox :=
  let sb1 := if delay = 0 then sb.setOverquota false else sb
  { sb1 with temporalbandwidth := 0 }

/-- The function `MegaCmdExecuter::checkNoErrors(error, message)`: its return value and the
current exit code afterwards (`outCode` is the exit code before the call). -/
def checkNoErrors (error : Option MegaError) (outCode : Int) : Bool × Int :=
  match error with
  | none => (false, outCode)
  | some e => if e.errorCode = API_OK then (true, outCode) else (false, e.errorCode)

/-- What `megaCmdListener` holds once `getExtendedAccountDetails` has completed: the error
and the bandwidth figures of the `MegaAccountDetails`. -/
structure AccountDetailsReply where
  error : Option MegaError
  isTemporalBandwidthValid : Bool
  temporalBandwidth : Int
  temporalBandwidthInterval : Int
  deriving DecidableEq, Repr

/-- One call of `api->getExtendedAccountDetails` made by `downloadNode`: the time of the call
and the value `sandboxCMD->temporalbandwidth` had when the call was decided. -/
structure BandwidthQuery where
  ts : Int
  temporalbandwidthBefore : Int
  deriving DecidableEq, Repr

/-- The sandbox together with the log of bandwidth queries issued so far, oldest first. -/
structure QuotaState where
  sandbox : MegaCmdSandbox
  queries : List BandwidthQuery
  deriving DecidableEq, Repr

/-- The over-quota prologue of `MegaCmdExecuter::downloadNode`: `ts` is `time(NULL)`, `reply`
what the engine answers if the bandwidth query is made. Returns the new state and whether the
function goes on to start the transfer (`false`: "Transfer not started", return). -/
def downloadNode (q : QuotaState) (ignorequotawarn : Bool) (ts : Int)
    (reply : AccountDetailsReply) : QuotaState × Bool :=
  if q.sandbox.isOverquota && !ignorequotawarn then
    if q.sandbox.temporalbandwidth = 0 ∨ ts - q.sandbox.lastQuerytemporalBandwith > 60 then
      let sb1 := { q.sandbox with lastQuerytemporalBandwith := ts }
      let sb2 :=
        if (checkNoErrors reply.error 0).1 then
          let sb3 := { sb1 with istemporalbandwidthvalid := reply.isTemporalBandwidthValid }
          if reply.isTemporalBandwidthValid then
            { sb3 with temporalbandwidth := reply.temporalBandwidth
                       temporalbandwithinterval := reply.temporalBandwidthInterval }
          else sb3
        else sb1
      ({ sandbox := sb2
         queries := q.queries ++ [{ ts := ts, temporalbandwidthBefore := q.sandbox.temporalbandwidth }] },
       false)
    else (q, false)
  else (q, true)

/-- The events that touch the over-quota state. -/
inductive QuotaEvent
  /-- a call of `downloadNode` at time `ts` -/
  | download (ignorequotawarn : Bool) (ts : Int) (reply : AccountDetailsReply)
  /-- a temporary transfer error delivered at time `now` -/
  | temporaryError (now : Int) (e : Option MegaError)
  /-- an account update with the given over-quota delay -/
  | accountUpdate (delay : Int)
  deriving DecidableEq, Repr

/-- The effect of one event on the over-quota state. -/
def quotaStep (q : QuotaState) : QuotaEvent → QuotaState
  | .download ign ts reply => (downloadNode q ign ts reply).1
  | .temporaryError now e => { q with sandbox := onTransferTemporaryError q.sandbox now e }
  | .accountUpdate delay => { q with sandbox := onAccountUpdate q.sandbox delay }

/-- The effect of a sequence of events. -/
def quotaRun (q : QuotaState) (evs : List QuotaEvent) : QuotaState := evs.foldl quotaStep q

/-- The relation the code maintains between two consecutive bandwidth queries: the later one
was made with no bandwidth figure stored, or more than 60 seconds after the earlier one. -/
def querySpacing (a b : BandwidthQuery) : Prop :=
  b.temporalbandwidthBefore = 0 ∨ b.ts - a.ts > 60

/-- The last query of the log was made at the time stored in `lastQuerytemporalBandwith`, and
consecutive queries of the log are spaced as `querySpacing` says. -/
def queryLogInvariant (q : QuotaState) : Prop :=
  List.Chain' querySpacing q.queries ∧
  ∀ x ∈ q.queries.getLast?, q.sandbox.lastQuerytemporalBandwith = x.ts

/-- A sandbox that is over quota since time 1000 and holds no bandwidth figure yet. -/
def overquotaSandbox : MegaCmdSandbox :=
  { overquota := true
    timeOfOverquota := 1000
    secondsOverQuota := 3600
    lastQuerytemporalBandwith := 0
    temporalbandwidth := 0
    temporalbandwithinterval := 0
    istemporalbandwidthvalid := false }

/-- An answer of the engine without error and without a valid bandwidth figure. -/
def replyNoFigure : AccountDetailsReply :=
  { error := some ⟨0, 0⟩
    isTemporalBandwidthValid := false
    temporalBandwidth := 0
    temporalBandwidthInterval := 0 }

/-- An answer of the engine with a valid bandwidth figure of 5000 bytes in 6 hours. -/
def replyFigure : AccountDetailsReply :=
  { error := some ⟨0, 0⟩
    isTemporalBandwidthValid := true
    temporalBandwidth := 5000
    temporalBandwidthInterval := 6 }

/-! ## Secondary-session pool (`megacmd.cpp`) -/

/-- The identity of a folder-link `MegaApi` object (a `MegaApi *`). -/
abbrev ApiFolder := Nat

/-- The globals of the pool: the queue `apiFolders` (front of the queue = head of the list),
the vector `occupiedapiFolders` and the permit count of `semaphoreapiFolders`. -/
structure ApiFolderPool where
  apiFolders : List ApiFolder
  occupiedapiFolders : List ApiFolder
  semaphoreapiFolders : Nat
  deriving DecidableEq, Repr

/-- The loop `for (int i = 0; i < 5; i++)` of `main` from iteration `i` on, with `n`
iterations left: the `i`-th session is created, pushed to the queue, and one permit is
released. -/
def createApiFolders : Nat → Nat → ApiFolderPool → ApiFolderPool
  | 0, _, p => p
  | n + 1, i, p =>
    createApiFolders n (i + 1)
      { p with apiFolders := p.apiFolders ++ [i]
               semaphoreapiFolders := semRelease p.semaphoreapiFolders }

/-- The pool as `main` leaves it: 5 sessions in the queue, 5 permits. -/
def mainApiFolders : ApiFolderPool :=
  createApiFolders 5 0 { apiFolders := [], occupiedapiFolders := [], semaphoreapiFolders := 0 }

/-- The function `getFreeApiFolder()`: blocked (`none`) while the semaphore has no permit;
otherwise takes a permit, pops the front of the queue, appends it to the occupied list and
returns it. (`front()` of an empty queue has no defined result: `none` as well.) -/
def getFreeApiFolder (p : ApiFolderPool) : Option (ApiFolder × ApiFolderPool) :=
  if p.semaphoreapiFolders = 0 then none
  else
    match p.apiFolders with
    | [] => none
    | toret :: rest =>
      some (toret,
        { apiFolders := rest
          occupiedapiFolders := p.occupiedapiFolders ++ [toret]
          semaphoreapiFolders := p.semaphoreapiFolders - 1 })

/-- The function `freeApiFolder(apiFolder)`: erases every entry equal to `apiFolder` from the
occupied list (`std::remove` + `erase`), pushes it to the back of the queue and releases one
permit. -/
def freeApiFolder (p : ApiFolderPool) (apiFolder : ApiFolder) : ApiFolderPool :=
  { apiFolders := p.apiFolders ++ [apiFolder]
    occupiedapiFolders := p.occupiedapiFolders.filter (fun a => decide (a ≠ apiFolder))
    semaphoreapiFolders := semRelease p.semaphoreapiFolders }

/-- A completed call on the pool. -/
inductive PoolOp
  /-- a call of `getFreeApiFolder()` that has returned -/
  | acquire
  /-- a call of `freeApiFolder(s)` -/
  | release (s : ApiFolder)
  deriving DecidableEq, Repr

/-- One call on the pool. `none`: the call cannot complete in this state (an acquire with no
permit stays blocked) or is not one of the calls considered (a release of a session that is
not occupied). -/
def poolStep (p : ApiFolderPool) : PoolOp → Option ApiFolderPool
  | .acquire => (getFreeApiFolder p).map Prod.snd
  | .release s => if s ∈ p.occupiedapiFolders then some (freeApiFolder p s) else none

/-- A sequence of calls on the pool. -/
def poolRun (p : ApiFolderPool) : List PoolOp → Option ApiFolderPool
  | [] => some p
  | op :: ops =>
    match poolStep p op with
    | none => none
    | some p' => poolRun p' ops

/-- Conservation of the pool: free queue and occupied list together are the 5 sessions
created at startup, each once, and the permits count the free queue. -/
def poolInvariant (p : ApiFolderPool) : Prop :=
  (p.apiFolders ++ p.occupiedapiFolders).Perm (List.range 5) ∧
  p.semaphoreapiFolders = p.apiFolders.length

/-! ## Progress notifications and the transfer progress renderer
(`megacmd.cpp`, `listeners.cpp`)

The `float` percentage of the listeners is modelled by an exact rational number. -/

/-- The macro `PROGRESS_COMPLETE` of `megacmd.h`. -/
def PROGRESS_COMPLETE : Int := -2

/-- A call `cm->informStateListenerByClientId(line, clientID)`: the state line handed to the
communications manager for the listener registered under `clientID`. -/
structure StateNotification where
  line : String
  clientID : Int
  deriving DecidableEq, Repr

/-- The function `informProgressUpdate(transferred, total, clientID, title)`: the call it
makes. The default argument of `title` is the empty string. -/
def informProgressUpdate (transferred total : Int) (clientID : Int) (title : String) :
    StateNotification :=
  let s := "progress:" ++ SSTR transferred ++ ":" ++ SSTR total
  let s := if title.length ≠ 0 then s ++ ":" ++ title else s
  { line := s, clientID := clientID }

/-- The parts of a `MegaTransfer` the listeners read. -/
structure MegaTransfer where
  tag : Int
  transferredBytes : Int
  totalBytes : Int
  nodeHandle : Nat
  deriving DecidableEq, Repr

/-- The function `informTransferUpdate(transfer, clientID)`. -/
def informTransferUpdate (transfer : MegaTransfer) (clientID : Int) : StateNotification :=
  informProgressUpdate transfer.transferredBytes transfer.totalBytes clientID ""

/-- What a callback of a transfer listener does to the outside, in order. -/
inductive ListenerEffect
  /-- the call `listener->onTransferStart(api, transfer)` on the wrapped listener -/
  | forwardStart (transfer : Option MegaTransfer)
  /-- the call `listener->onTransferUpdate(api, transfer)` on the wrapped listener -/
  | forwardUpdate (transfer : Option MegaTransfer)
  /-- the call `listener->onTransferFinish(api, transfer, e)` on the wrapped listener -/
  | forwardFinish (transfer : Option MegaTransfer) (e : Option MegaError)
  /-- the call `listener->onTransferTemporaryError(api, transfer, e)` on the wrapped
  listener -/
  | forwardTemporaryError (transfer : Option MegaTransfer) (e : Option MegaError)
  /-- the bar written to `std::cout` for this percentage and these byte counters, ended by a
  newline (`finalNewline`) or by a carriage return -/
  | console (percentDownloaded : ℚ) (transferredBytes totalBytes : Int) (finalNewline : Bool)
  /-- a structured state notification -/
  | notify (n : StateNotification)
  deriving DecidableEq, Repr

/-- The structured notifications among the effects, in order. -/
def notifications : List ListenerEffect → List StateNotification
  | [] => []
  | .notify n :: rest => n :: notifications rest
  | _ :: rest => notifications rest

/-- The number of bars written to the console among the effects. -/
def consoleWrites : List ListenerEffect → Nat
  | [] => 0
  | .console _ _ _ _ :: rest => consoleWrites rest + 1
  | _ :: rest => consoleWrites rest

/-- The fields of a `MegaCmdTransferListener`; `hasListener` says whether the wrapped
`listener` pointer is non-null. -/
structure MegaCmdTransferListener where
  hasListener : Bool
  percentDownloaded : ℚ
  alreadyFinished : Bool
  clientID : Int
  deriving DecidableEq, Repr

/-- The constructor `MegaCmdTransferListener(megaApi, sandboxCMD, listener, clientID)`. -/
def MegaCmdTransferListener.new (hasListener : Bool) (clientID : Int) :
    MegaCmdTransferListener :=
  { hasListener := hasListener, percentDownloaded := 0, alreadyFinished := false,
    clientID := clientID }

/-- The method `MegaCmdTransferListener::doOnTransferFinish(api, transfer, e)`. -/
def MegaCmdTransferListener.doOnTransferFinish (l : MegaCmdTransferListener)
    (transfer : Option MegaTransfer) (e : Option MegaError) : List ListenerEffect :=
  let fwd := if l.hasListener then [ListenerEffect.forwardFinish transfer e] else []
  match transfer with
  | none => fwd
  | some t => fwd ++ [.notify (informProgressUpdate PROGRESS_COMPLETE t.totalBytes l.clientID "")]

/-- The percentage `MegaCmdTransferListener::onTransferUpdate` computes from the byte counters
of the transfer: 0 for a total of 0, else `transferred * 1.0 / total * 100.0`. -/
def transferPercent (t : MegaTransfer) : ℚ :=
  if t.totalBytes = 0 then 0 else (t.transferredBytes : ℚ) / (t.totalBytes : ℚ) * 100

/-- The method `MegaCmdTransferListener::onTransferUpdate(api, transfer)`: the listener
afterwards and the effects of the call. -/
def MegaCmdTransferListener.onTransferUpdate (l : MegaCmdTransferListener)
    (transfer : Option MegaTransfer) : MegaCmdTransferListener × List ListenerEffect :=
  let fwd := if l.hasListener then [ListenerEffect.forwardUpdate transfer] else []
  match transfer with
  | none => (l, fwd)
  | some t =>
    let oldpercent := l.percentDownloaded
    let l1 := { l with percentDownloaded := transferPercent t }
    if l1.alreadyFinished = true ∨ (l1.percentDownloaded = oldpercent ∧ oldpercent ≠ 0) then
      (l1, fwd)
    else
      let l2 := if l1.percentDownloaded < 0 then { l1 with percentDownloaded := 0 } else l1
      if t.totalBytes < 0 then (l2, fwd)
      else if (t.transferredBytes : ℚ) < (1 / 1000 : ℚ) * (t.totalBytes : ℚ) then (l2, fwd)
      else if l2.percentDownloaded = 100 ∧ l2.alreadyFinished = false then
        ({ l2 with alreadyFinished := true },
          fwd ++ [.console l2.percentDownloaded t.transferredBytes t.totalBytes true,
                  .notify (informTransferUpdate t l2.clientID)])
      else
        (l2,
          fwd ++ [.console l2.percentDownloaded t.transferredBytes t.totalBytes false,
                  .notify (informTransferUpdate t l2.clientID)])

/-- The conditions under which `MegaCmdTransferListener.onTransferUpdate`, the embedding
with exact ratios, returns before drawing the bar: a completion has been rendered, the
percentage is unchanged and non-zero, the total is negative, or less than a thousandth of the
total has been transferred. The code compares `float` values, so it returns early as well
when two different ratios round to the same `float`; the predicate is used in proofs only,
through consequences that do not depend on the rounding. -/
def redrawSuppressed (l : MegaCmdTransferListener) (t : MegaTransfer) : Prop :=
  l.alreadyFinished = true ∨
  (transferPercent t = l.percentDownloaded ∧ l.percentDownloaded ≠ 0) ∨
  t.totalBytes < 0 ∨
  (t.transferredBytes : ℚ) < (1 / 1000 : ℚ) * (t.totalBytes : ℚ)

/-! ## Multi-transfer aggregator (`listeners.cpp`)

Byte counters (`long long`) and the counters `started` and `finished` (`int`) are integers;
the embedding describes the executions in which their arithmetic does not overflow. -/

/-- A `std::map<int, long long>`: a finite map from transfer tags to byte counts. -/
abbrev TagMap := AList (fun _ : Int => Int)

/-- The sum of the values of a tag map (the loops of `getOngoingTransferredBytes` and
`getOngoingTotalBytes`). -/
def TagMap.total (m : TagMap) : Int := (m.entries.map (fun e => e.2)).sum

/-- The fields of a `MegaCmdMultiTransferListener`. -/
structure MegaCmdMultiTransferListener where
  percentDownloaded : ℚ
  alreadyFinished : Bool
  clientID : Int
  started : Int
  finished : Int
  totalbytes : Int
  transferredbytes : Int
  finalerror : Int
  ongoingtransferredbytes : TagMap
  ongoingtotalbytes : TagMap
  deriving DecidableEq

/-- The constructor `MegaCmdMultiTransferListener(megaApi, sandboxCMD, listener, clientID)`. -/
def MegaCmdMultiTransferListener.new (clientID : Int) : MegaCmdMultiTransferListener :=
  { percentDownloaded := 0
    alreadyFinished := false
    clientID := clientID
    started := 0
    finished := 0
    totalbytes := 0
    transferredbytes := 0
    finalerror := API_OK
    ongoingtransferredbytes := ∅
    ongoingtotalbytes := ∅ }

/-- The method `getFinalerror()`. -/
def MegaCmdMultiTransferListener.getFinalerror (l : MegaCmdMultiTransferListener) : Int :=
  l.finalerror

/-- The method `getOngoingTransferredBytes()`. -/
def MegaCmdMultiTransferListener.getOngoingTransferredBytes
    (l : MegaCmdMultiTransferListener) : Int :=
  TagMap.total l.ongoingtransferredbytes

/-- The method `getOngoingTotalBytes()`. -/
def MegaCmdMultiTransferListener.getOngoingTotalBytes
    (l : MegaCmdMultiTransferListener) : Int :=
  TagMap.total l.ongoingtotalbytes

/-- The method `onNewTransfer()`. -/
def MegaCmdMultiTransferListener.onNewTransfer (l : MegaCmdMultiTransferListener) :
    MegaCmdMultiTransferListener :=
  { l with started := l.started + 1 }

/-- The method `MegaCmdMultiTransferListener::doOnTransferFinish(api, transfer, e)`; `e` is
dereferenced unconditionally, so it is not null. -/
def MegaCmdMultiTransferListener.doOnTransferFinish (l : MegaCmdMultiTransferListener)
    (transfer : Option MegaTransfer) (e : MegaError) : MegaCmdMultiTransferListener :=
  let l0 := { l with finished := l.finished + 1
                     finalerror := if l.finalerror ≠ API_OK then l.finalerror else e.errorCode }
  match transfer with
  | none => l0
  | some t =>
    { l0 with ongoingtransferredbytes := l0.ongoingtransferredbytes.erase t.tag
              ongoingtotalbytes := l0.ongoingtotalbytes.erase t.tag
              transferredbytes := l0.transferredbytes + t.transferredBytes
              totalbytes := l0.totalbytes + t.totalBytes }

/-- The combined transferred bytes `transferredbytes + getOngoingTransferredBytes()`. -/
def MegaCmdMultiTransferListener.combinedTransferred (l : MegaCmdMultiTransferListener) : Int :=
  l.transferredbytes + l.getOngoingTransferredBytes

/-- The combined total bytes `totalbytes + getOngoingTotalBytes()`. -/
def MegaCmdMultiTransferListener.combinedTotal (l : MegaCmdMultiTransferListener) : Int :=
  l.totalbytes + l.getOngoingTotalBytes

/-- The percentage `onTransferUpdate` computes from the combined byte counts of a state:
0 for a combined total of 0, else `combinedTransferred * 1.0 / combinedTotal * 100.0`. -/
def MegaCmdMultiTransferListener.aggregatePercent (l : MegaCmdMultiTransferListener) : ℚ :=
  if l.combinedTotal = 0 then 0
  else (l.combinedTransferred : ℚ) / (l.combinedTotal : ℚ) * 100

/-- The result of a progress callback of the aggregator. -/
structure MultiOutcome where
  listener : MegaCmdMultiTransferListener
  effects : List ListenerEffect
  /-- whether `assert(percentDownloaded <= 100)` held, if the call reached it -/
  assertHeld : Bool

/-- The method `MegaCmdMultiTransferListener::onTransferUpdate(api, transfer)`. -/
def MegaCmdMultiTransferListener.onTransferUpdate (l : MegaCmdMultiTransferListener)
    (transfer : Option MegaTransfer) : MultiOutcome :=
  match transfer with
  | none => { listener := l, effects := [], assertHeld := true }
  | some t =>
    let l0 := { l with
      ongoingtransferredbytes := l.ongoingtransferredbytes.insert t.tag t.transferredBytes
      ongoingtotalbytes := l.ongoingtotalbytes.insert t.tag t.totalBytes }
    let oldpercent := l0.percentDownloaded
    let l1 := { l0 with percentDownloaded := l0.aggregatePercent }
    if l1.alreadyFinished = true ∨ (l1.percentDownloaded = oldpercent ∧ oldpercent ≠ 0) then
      { listener := l1, effects := [], assertHeld := true }
    else
      let l2 := if l1.percentDownloaded < 0 then { l1 with percentDownloaded := 0 } else l1
      let held := decide (l2.percentDownloaded ≤ 100)
      if t.totalBytes < 0 then { listener := l2, effects := [], assertHeld := held }
      else if (t.transferredBytes : ℚ) < (1 / 1000 : ℚ) * (t.totalBytes : ℚ) then
        { listener := l2, effects := [], assertHeld := held }
      else if l2.percentDownloaded = 100 ∧ l2.alreadyFinished = false then
        { listener := { l2 with alreadyFinished := true }
          effects :=
            [.console l2.percentDownloaded l2.combinedTransferred l2.combinedTotal true,
             .notify (informProgressUpdate l2.combinedTransferred l2.combinedTotal l2.clientID "")]
          assertHeld := held }
      else
        { listener := l2
          effects :=
            [.console l2.percentDownloaded l2.combinedTransferred l2.combinedTotal false,
             .notify (informProgressUpdate l2.combinedTransferred l2.combinedTotal l2.clientID "")]
          assertHeld := held }

/-- The method `MegaCmdMultiTransferListener::onTransferStart(api, transfer)`. -/
def MegaCmdMultiTransferListener.onTransferStart (l : MegaCmdMultiTransferListener)
    (transfer : Option MegaTransfer) : MultiOutcome :=
  match transfer with
  | none => { listener := l, effects := [], assertHeld := true }
  | some t =>
    let l0 := { l with alreadyFinished := false }
    let l1 := { l0 with
      percentDownloaded :=
        if l0.totalbytes = 0 then 0
        else (l0.combinedTransferred : ℚ) / (l0.totalbytes : ℚ) }
    l1.onTransferUpdate (some t)

/-- A callback delivered to the aggregator, or a call of `onNewTransfer`. -/
inductive MultiEvent
  /-- a call of `onNewTransfer()` -/
  | newTransfer
  /-- the callback `onTransferStart` -/
  | start (transfer : Option MegaTransfer)
  /-- the callback `onTransferUpdate` -/
  | update (transfer : Option MegaTransfer)
  /-- the completion of a member transfer, delivered to `doOnTransferFinish` -/
  | finish (transfer : Option MegaTransfer) (e : MegaError)
  deriving DecidableEq

/-- The aggregator after one event. -/
def multiStep (l : MegaCmdMultiTransferListener) : MultiEvent → MegaCmdMultiTransferListener
  | .newTransfer => l.onNewTransfer
  | .start t => (l.onTransferStart t).listener
  | .update t => (l.onTransferUpdate t).listener
  | .finish t e => l.doOnTransferFinish t e

/-- The aggregator after a sequence of events. -/
def multiRun (l : MegaCmdMultiTransferListener) (evs : List MultiEvent) :
    MegaCmdMultiTransferListener :=
  evs.foldl multiStep l

/-- The aggregate error the completions `es` (in order of delivery) lead to when the error so
far is `current`: the first code that is not `API_OK`. -/
def firstFailure (current : Int) (es : List MegaError) : Int :=
  if current ≠ API_OK then current
  else ((es.map (fun e => e.errorCode)).find? (fun c => decide (c ≠ API_OK))).getD API_OK

/-- The aggregator after three `onNewTransfer()` calls, the completion of transfer 1 at
100/100 bytes and a progress tick of transfer 2 at 100/200 bytes. -/
def scenarioAggregator : MegaCmdMultiTransferListener :=
  { percentDownloaded := 200 / 3
    alreadyFinished := false
    clientID := 7
    started := 3
    finished := 1
    totalbytes := 100
    transferredbytes := 100
    finalerror := 0
    ongoingtransferredbytes := (∅ : TagMap).insert 2 100
    ongoingtotalbytes := (∅ : TagMap).insert 2 200 }

/-- The events of the spec's three-transfer example up to the last tick: three `onNewTransfer()` calls, the
completion of transfer 1 at 100/100 bytes, a tick of transfer 2 at 100/200 bytes. -/
def scenarioAggregatorEvents : List MultiEvent :=
  [.newTransfer, .newTransfer, .newTransfer,
   .finish (some { tag := 1, transferredBytes := 100, totalBytes := 100, nodeHandle := 0 })
     { errorCode := 0, value := 0 },
   .update (some { tag := 2, transferredBytes := 100, totalBytes := 200, nodeHandle := 0 })]

/-! ### `waitMultiEnd` -/

/-- The state of a thread inside `waitMultiEnd()` together with the semaphore of the
listener: `i` is the loop variable, `permits` the completion signals released and not yet
consumed by `wait()`, `completions` the number of completions signalled so far, `waits` the
number of `wait()` calls that have returned. -/
structure MultiWait where
  started : Int
  i : Int
  permits : Nat
  completions : Nat
  waits : Nat
  returned : Bool
  deriving DecidableEq, Repr

/-- The call of `waitMultiEnd()` on a listener with `started = n`, no completion signalled. -/
def MultiWait.enter (n : Int) : MultiWait :=
  { started := n, i := 0, permits := 0, completions := 0, waits := 0, returned := false }

/-- What can happen while a thread is inside `waitMultiEnd()`. -/
inductive WaitEvent
  /-- a member transfer completes: the listener's semaphore is released once -/
  | completion
  /-- the waiting thread takes its next step: it evaluates `i < started` and either leaves
  the loop or calls `wait()` -/
  | loop
  deriving DecidableEq, Repr

/-- One step of `for (int i = 0; i < started; i++) wait();` or one completion. A `wait()` on
a semaphore without permits blocks (`none`); a thread that has returned takes no step. -/
def waitStep (w : MultiWait) : WaitEvent → Option MultiWait
  | .completion =>
    some { w with permits := semRelease w.permits, completions := w.completions + 1 }
  | .loop =>
    if w.returned then none
    else if w.i < w.started then
      if w.permits = 0 then none
      else some { w with permits := w.permits - 1, i := w.i + 1, waits := w.waits + 1 }
    else some { w with returned := true }

/-- A sequence of steps; `none` if one of them cannot happen. -/
def waitRun (w : MultiWait) : List WaitEvent → Option MultiWait
  | [] => some w
  | e :: es =>
    match waitStep w e with
    | none => none
    | some w' => waitRun w' es

/-- Invariant of `waitMultiEnd()`: every `wait()` that returned consumed one signal, and the
loop variable counts the waits and stays within `started`. -/
def waitInvariant (n : Nat) (w : MultiWait) : Prop :=
  w.started = (n : Int) ∧ w.i = (w.waits : Int) ∧ w.waits + w.permits = w.completions ∧
  w.waits ≤ n ∧ (w.returned = true → w.waits = n)

/-- The state in which `waitMultiEnd()` has returned after two waits and two completions. -/
def scenarioWaitReturned : MultiWait :=
  { started := 2, i := 2, permits := 0, completions := 2, waits := 2, returned := true }

/-! ### Well-behaved engine -/

/-- A callback reports `0 <= transferred <= total` for its transfer. -/
def wellBehavedTransfer (t : MegaTransfer) : Prop :=
  0 ≤ t.transferredBytes ∧ t.transferredBytes ≤ t.totalBytes

/-- Every callback of the event that carries a transfer reports `0 <= transferred <= total`. -/
def wellBehavedEvent : MultiEvent → Prop
  | .newTransfer => True
  | .start transfer => ∀ t, transfer = some t → wellBehavedTransfer t
  | .update transfer => ∀ t, transfer = some t → wellBehavedTransfer t
  | .finish transfer _ => ∀ t, transfer = some t → wellBehavedTransfer t

/-- The entries of the two in-flight maps pair up: the same tags in the same order, and for
each tag `0 <= transferred <= total`. -/
def pairedEntries (e1 e2 : List (Sigma fun _ : Int => Int)) : Prop :=
  List.Forall₂ (fun a b => a.1 = b.1 ∧ 0 ≤ a.2 ∧ a.2 ≤ b.2) e1 e2

/-- The byte counters of the aggregator are consistent: finished and in-flight counters all
satisfy `0 <= transferred <= total`. -/
def wellBehavedState (l : MegaCmdMultiTransferListener) : Prop :=
  0 ≤ l.transferredbytes ∧ l.transferredbytes ≤ l.totalbytes ∧
  pairedEntries l.ongoingtransferredbytes.entries l.ongoingtotalbytes.entries

/-- The stored percentage lies in `[0, 100]` and the byte counters are consistent. -/
def percentInvariant (l : MegaCmdMultiTransferListener) : Prop :=
  wellBehavedState l ∧ 0 ≤ l.percentDownloaded ∧ l.percentDownloaded ≤ 100

/-! ## Completed-transfer ledger (`listeners.cpp`) -/

/-- The constant `MegaCmdGlobalTransferListener::MAXCOMPLETEDTRANSFERSBUFFER`. -/
def MAXCOMPLETEDTRANSFERSBUFFER : Nat := 10000

/-- The ledger of a `MegaCmdGlobalTransferListener`: the deque `completedTransfers` (front of
the deque = head of the list) and the map `completedPathsByHandle`. -/
structure MegaCmdGlobalTransferListener where
  completedTransfers : List MegaTransfer
  completedPathsByHandle : AList (fun _ : Nat => String)

/-- The ledger of a freshly constructed listener. -/
def MegaCmdGlobalTransferListener.new : MegaCmdGlobalTransferListener :=
  { completedTransfers := [], completedPathsByHandle := ∅ }

/-- The callback `MegaCmdGlobalTransferListener::onTransferFinish(api, transfer, error)`.
`nodepath` is what the engine answers at that moment for the transfer's node: `none` if
`api->getNodeByHandle` returns null, else the result of `api->getNodePath`. -/
def MegaCmdGlobalTransferListener.onTransferFinish (g : MegaCmdGlobalTransferListener)
    (transfer : MegaTransfer) (nodepath : Option String) : MegaCmdGlobalTransferListener :=
  let completedTransfers := transfer :: g.completedTransfers
  let paths :=
    match nodepath with
    | some path => g.completedPathsByHandle.insert transfer.nodeHandle path
    | none => g.completedPathsByHandle
  if completedTransfers.length > MAXCOMPLETEDTRANSFERSBUFFER then
    match completedTransfers.getLast? with
    | some todelete =>
      { completedTransfers := completedTransfers.dropLast
        completedPathsByHandle := paths.erase todelete.nodeHandle }
    | none => { completedTransfers := completedTransfers, completedPathsByHandle := paths }
  else
    { completedTransfers := completedTransfers, completedPathsByHandle := paths }

/-- The ledger after a sequence of completions, each with the engine's answer for its node.
Only `onTransferFinish` runs here; `printTransfer` writes the path cache as well, and
`ledgerEvents` runs both. -/
def ledgerRun (g : MegaCmdGlobalTransferListener)
    (calls : List (MegaTransfer × Option String)) : MegaCmdGlobalTransferListener :=
  calls.foldl (fun g c => g.onTransferFinish c.1 c.2) g

/-- No stale path: every key of the path cache is the node handle of a snapshot that is still
in the ledger. -/
def noStalePath (g : MegaCmdGlobalTransferListener) : Prop :=
  ∀ h ∈ g.completedPathsByHandle.keys, ∃ x ∈ g.completedTransfers, x.nodeHandle = h

/-- A full ledger: 10,000 snapshots, the oldest a download of node 5 whose path was cached. -/
def fullLedger : MegaCmdGlobalTransferListener :=
  { completedTransfers :=
      List.replicate 9999
          { tag := 2, transferredBytes := 10, totalBytes := 10, nodeHandle := 9 } ++
        [{ tag := 1, transferredBytes := 10, totalBytes := 10, nodeHandle := 5 }]
    completedPathsByHandle := (∅ : AList (fun _ : Nat => String)).insert 5 "/docs/a.txt" }

/-! ## Session invalidation and the prompt (`listeners.cpp`, `megacmd.cpp`, `megacmd.h`) -/

/-- The SDK constant `MegaError::API_ESID`. -/
def API_ESID : Int := -15

/-- The exit code `MCMD_OK` of `megacmd.h`. -/
def MCMD_OK : Int := 0

/-- The array `prompts[]` of `megacmd.h`, indexed by `prompttype`. -/
def prompts : prompttype → String
  | .COMMAND => "MEGA CMD> "
  | .LOGINPASSWORD => "Password:"
  | .OLDPASSWORD => "Old Password:"
  | .NEWPASSWORD => "New Password:"
  | .PASSWORDCONFIRM => "Retype New Password:"
  | .AREYOUSURETODELETE => "Are you sure to delete? "

/-- The global `dynamicprompt` and the lines handed to `cm->informStateListeners`, which
pushes a line to every registered state listener (oldest first). -/
structure PromptState where
  dynamicprompt : String
  stateLines : List String
  deriving DecidableEq, Repr

/-- The function `changeprompt(newprompt)`. -/
def changeprompt (s : PromptState) (newprompt : String) : PromptState :=
  { dynamicprompt := newprompt
    stateLines := s.stateLines ++ ["prompt:" ++ newprompt] }

/-- The callback `MegaCmdMegaListener::onRequestFinish(api, request, e)`; `requestType` is
`request->getType()`, which the function does not read. -/
def MegaCmdMegaListener.onRequestFinish (s : PromptState) (_requestType : Int)
    (e : Option MegaError) : PromptState :=
  match e with
  | none => s
  | some err => if err.errorCode = API_ESID then changeprompt s (prompts .COMMAND) else s

/-! ## Waiting on a synchronous listener (`megacmdexecuter.cpp`) -/

/-- What the wrapped operation of a `SynchronousRequestListener` does while the caller waits:
`none` if it does not complete (within the bound of a timed wait, or ever), `some error` if it
completes and `getError()` then returns `error` (`none`: a null pointer). `wait()` returns
only for a completed operation; `trywait(timeout)` returns 0 for a completed operation and a
non-zero value (time-out) otherwise. -/
abbrev Completion := Option (Option MegaError)

/-- The value of `srl->trywait(timeout)`. -/
def trywait (c : Completion) : Int :=
  match c with
  | some _ => 0
  | none => -1

/-- The members of `MegaCmdExecuter` and of the calling thread that `actUponFetchNodes` and
`actUponCreateFolder` touch, with a record of what the call did: `cwd` (`none` is `UNDEF`),
the current exit code, whether `srl->getError()` was read, whether
`api->enableTransferResumption()` was called, and the handles passed to `updateprompt`. -/
structure ExecuterState where
  cwd : Option Nat
  outCode : Int
  errorInspected : Bool
  transferResumptionEnabled : Bool
  promptUpdates : List (Option Nat)
  deriving DecidableEq, Repr

/-- The function `MegaCmdExecuter::actUponFetchNodes(api, srl, timeout)`: `none` if it never
returns (blocking wait on an operation that does not complete), else its return value and
the state afterwards. `cwdResolves` says whether `api->getNodeByHandle(cwd)` finds a node,
`rootHandle` is the handle of the root node. -/
def actUponFetchNodes (st : ExecuterState) (c : Completion) (timeout : Int)
    (cwdResolves : Bool) (rootHandle : Nat) : Option (Bool × ExecuterState) :=
  let proceed (error : Option MegaError) : Bool × ExecuterState :=
    let r := checkNoErrors error st.outCode
    let st1 := { st with outCode := r.2, errorInspected := true }
    if r.1 then
      let cwdNode := st1.cwd.isSome && cwdResolves
      let cwd' := if st1.cwd.isNone || !cwdNode then some rootHandle else st1.cwd
      (true, { st1 with transferResumptionEnabled := true
                        cwd := cwd'
                        promptUpdates := st1.promptUpdates ++ [cwd'] })
    else (false, st1)
  if timeout = -1 then
    match c with
    | none => none
    | some error => some (proceed error)
  else
    if trywait c ≠ 0 then some (false, st)
    else
      match c with
      | none => some (false, st)
      | some error => some (proceed error)

/-- The function `MegaCmdExecuter::actUponCreateFolder(srl, timeout)`: `none` if it never
returns, else its return value (0 created, 1 timed out, 2 error) and the state afterwards. -/
def actUponCreateFolder (st : ExecuterState) (c : Completion) (timeout : Int) :
    Option (Int × ExecuterState) :=
  let proceed (error : Option MegaError) : Int × ExecuterState :=
    let r := checkNoErrors error st.outCode
    let st1 := { st with outCode := r.2, errorInspected := true }
    if r.1 then (0, st1) else (2, st1)
  if timeout = 0 then
    match c with
    | none => none
    | some error => some (proceed error)
  else
    if trywait c ≠ 0 then some (1, st)
    else
      match c with
      | none => some (1, st)
      | some error => some (proceed error)

/-! ## Delete confirmation (`megacmd.cpp`, `megacmdexecuter.cpp`) -/

/-- The parts of a `MegaNode` the confirmation code reads. -/
structure MegaNode where
  handle : Nat
  name : String
  deriving DecidableEq, Repr

/-- The state the delete confirmation works on: the vector `nodesToConfirmDelete`, the nodes
handed to `doDeleteNode` so far (oldest first), the global `prompt`, the console echo flag, and
the text written to the output stream (oldest first). -/
structure DeleteState where
  nodesToConfirmDelete : List MegaNode
  deleted : List MegaNode
  prompt : prompttype
  echo : Bool
  output : List String
  deriving DecidableEq, Repr

/-- The function `setprompt(p, arg)`. -/
def setprompt (st : DeleteState) (p : prompttype) (arg : String) : DeleteState :=
  if p = .COMMAND then { st with prompt := p, echo := true }
  else
    { st with prompt := p
              output := st.output ++ [if arg.length ≠ 0 then arg else prompts p]
              echo := false }

/-- The second half of `confirmDelete` and `discardDelete`: ask about the next pending node,
or go back to the `COMMAND` prompt when none is left. -/
def askNextOrCommand (st : DeleteState) : DeleteState :=
  match st.nodesToConfirmDelete with
  | front :: _ =>
    setprompt st .AREYOUSURETODELETE
      ("Are you sure to delete " ++ front.name ++ " ? (Yes/No/All/None): ")
  | [] => setprompt st .COMMAND ""

/-- The method `MegaCmdExecuter::confirmDelete()`. -/
def confirmDelete (st : DeleteState) : DeleteState :=
  let st1 :=
    match st.nodesToConfirmDelete with
    | nodeToConfirmDelete :: rest =>
      { st with nodesToConfirmDelete := rest, deleted := st.deleted ++ [nodeToConfirmDelete] }
    | [] => st
  askNextOrCommand st1

/-- The method `MegaCmdExecuter::discardDelete()`. -/
def discardDelete (st : DeleteState) : DeleteState :=
  let st1 :=
    match st.nodesToConfirmDelete with
    | _ :: rest => { st with nodesToConfirmDelete := rest }
    | [] => st
  askNextOrCommand st1

/-- The loop of `confirmDeleteAll`: every pending node, front first, goes to `doDeleteNode`. -/
def confirmDeleteLoop : List MegaNode → List MegaNode → List MegaNode
  | [], deleted => deleted
  | nodeToConfirmDelete :: rest, deleted => confirmDeleteLoop rest (deleted ++ [nodeToConfirmDelete])

/-- The method `MegaCmdExecuter::confirmDeleteAll()`. -/
def confirmDeleteAll (st : DeleteState) : DeleteState :=
  setprompt
    { st with nodesToConfirmDelete := []
              deleted := confirmDeleteLoop st.nodesToConfirmDelete st.deleted }
    .COMMAND ""

/-- The loop of `discardDeleteAll`: pending nodes are dropped until none is left. -/
def discardDeleteLoop : List MegaNode → List MegaNode
  | [] => []
  | _ :: rest => discardDeleteLoop rest

/-- The method `MegaCmdExecuter::discardDeleteAll()`. -/
def discardDeleteAll (st : DeleteState) : DeleteState :=
  setprompt { st with nodesToConfirmDelete := discardDeleteLoop st.nodesToConfirmDelete }
    .COMMAND ""

/-- The `case AREYOUSURETODELETE` of `process_line(l)`: the state afterwards. -/
def processDeleteAnswer (st : DeleteState) (l : String) : DeleteState :=
  if l = "yes" ∨ l = "YES" ∨ l = "y" ∨ l = "Y" then confirmDelete st
  else if l = "no" ∨ l = "NO" ∨ l = "n" ∨ l = "N" then discardDelete st
  else if l = "All" ∨ l = "ALL" ∨ l = "a" ∨ l = "A" ∨ l = "all" then confirmDeleteAll st
  else if l = "None" ∨ l = "NONE" ∨ l = "none" then discardDeleteAll st
  else { st with output := st.output ++ ["Please enter [y]es/[n]o/[a]ll/none: "] }

/-- Two folders are waiting for a confirmation. -/
def scenarioDelete : DeleteState :=
  { nodesToConfirmDelete := [{ handle := 11, name := "photos" }, { handle := 12, name := "docs" }]
    deleted := []
    prompt := .AREYOUSURETODELETE
    echo := false
    output := ["Are you sure to delete photos ? (Yes/No/All/None): "] }

/-! ## Pending operation -/

/-- Modelled from the spec: the completion side of the Synchronous Listener Adapter, whose
code (the `onRequestFinish` of the SDK base class of `MegaCmdListener`) is not in the
sources. A pending operation holds a result slot (error code and result payload) and a
binary completed signal; `transitions` counts how often the signal went from unset to set. -/
structure PendingOperation where
  completed : Bool
  error : Option Int
  result : Option Nat
  transitions : Nat
  deriving DecidableEq, Repr

/-- Modelled from the spec: a pending operation as created before the asynchronous call is
issued: signal unset, result slot empty. -/
def PendingOperation.issue : PendingOperation :=
  { completed := false, error := none, result := none, transitions := 0 }

/-- Modelled from the spec: the delivery of a completion with outcome (`error`, `result`).
The first one sets the signal and fills the result slot; "no operation may report more than
one outcome", so a completion delivered to a completed operation leaves it as it is. -/
def PendingOperation.complete (p : PendingOperation) (error : Int) (result : Nat) :
    PendingOperation :=
  if p.completed then p
  else { completed := true, error := some error, result := some result,
         transitions := p.transitions + 1 }

/-- Modelled from the spec: the deliveries of a sequence of completions, in order. -/
def PendingOperation.completeAll (p : PendingOperation) (outcomes : List (Int × Nat)) :
    PendingOperation :=
  outcomes.foldl (fun q o => q.complete o.1 o.2) p

/-- The method `MegaCmdListener::doOnRequestFinish(api, request, e)` as far as the state
notifications go: nothing for a null request or a request that is not a node fetch, the
completion notice `PROGRESS_COMPLETE` with title `Fetching nodes` for a node fetch.
`request` is `none` for a null pointer, else whether the type is `TYPE_FETCH_NODES` and the
total bytes. (The resumption of the configured syncs is left out.) -/
def MegaCmdListener.doOnRequestFinish (clientID : Int) (request : Option (Bool × Int)) :
    List StateNotification :=
  match request with
  | none => []
  | some (isFetchNodes, totalBytes) =>
    if isFetchNodes then
      [informProgressUpdate PROGRESS_COMPLETE totalBytes clientID "Fetching nodes"]
    else []

/-! ## Callback sequences of the transfer progress renderer -/

/-- The method `MegaCmdTransferListener::onTransferStart(api, transfer)`: the event is
forwarded to the wrapped listener, if any; the rest is logging. -/
def MegaCmdTransferListener.onTransferStart (l : MegaCmdTransferListener)
    (transfer : Option MegaTransfer) : List ListenerEffect :=
  if l.hasListener then [.forwardStart transfer] else []

/-- The method `MegaCmdTransferListener::onTransferTemporaryError(api, transfer, e)`. -/
def MegaCmdTransferListener.onTransferTemporaryError (l : MegaCmdTransferListener)
    (transfer : Option MegaTransfer) (e : Option MegaError) : List ListenerEffect :=
  if l.hasListener then [.forwardTemporaryError transfer e] else []

/-- A callback delivered to a `MegaCmdTransferListener`. -/
inductive TransferEvent
  /-- the callback `onTransferStart` -/
  | start (transfer : Option MegaTransfer)
  /-- the callback `onTransferUpdate` -/
  | update (transfer : Option MegaTransfer)
  /-- the completion, delivered to `doOnTransferFinish` -/
  | finish (transfer : Option MegaTransfer) (e : Option MegaError)
  /-- the callback `onTransferTemporaryError` -/
  | temporaryError (transfer : Option MegaTransfer) (e : Option MegaError)
  deriving DecidableEq

/-- The renderer after one callback, and the effects of the callback. -/
def transferStep (l : MegaCmdTransferListener) :
    TransferEvent → MegaCmdTransferListener × List ListenerEffect
  | .start t => (l, l.onTransferStart t)
  | .update t => l.onTransferUpdate t
  | .finish t e => (l, l.doOnTransferFinish t e)
  | .temporaryError t e => (l, l.onTransferTemporaryError t e)

/-- The renderer after a sequence of callbacks, and all their effects in order. -/
def transferRun (l : MegaCmdTransferListener) :
    List TransferEvent → MegaCmdTransferListener × List ListenerEffect
  | [] => (l, [])
  | ev :: evs =>
    let r := transferStep l ev
    let rs := transferRun r.1 evs
    (rs.1, r.2 ++ rs.2)

/-- Whether the effects contain a bar that was ended by a newline. -/
def finalLineWritten : List ListenerEffect → Bool
  | [] => false
  | .console _ _ _ finalNewline :: rest => finalNewline || finalLineWritten rest
  | _ :: rest => finalLineWritten rest

/-- As long as no completion has been rendered, the stored percentage is not negative. -/
def rendererInvariant (l : MegaCmdTransferListener) : Prop :=
  l.alreadyFinished = false → 0 ≤ l.percentDownloaded

/-! ### Last reported totals of the member transfers -/

/-- The tag and the total bytes a callback reports, if it carries a transfer. -/
def reportedTotal : MultiEvent → Option (Int × Int)
  | .newTransfer => none
  | .start transfer => transfer.map (fun t => (t.tag, t.totalBytes))
  | .update transfer => transfer.map (fun t => (t.tag, t.totalBytes))
  | .finish transfer _ => transfer.map (fun t => (t.tag, t.totalBytes))

/-- The map from each tag to the total bytes its latest callback reported, starting from the
map `m`. -/
def lastTotalsFrom (m : TagMap) (evs : List MultiEvent) : TagMap :=
  evs.foldl (fun acc ev =>
    match reportedTotal ev with
    | some (tag, total) => acc.insert tag total
    | none => acc) m

/-- The map from each tag to the total bytes reported by its latest callback in `evs`. -/
def lastTotals (evs : List MultiEvent) : TagMap :=
  lastTotalsFrom ∅ evs

/-- The total bytes reported for `tag` by its latest callback in `evs`, and `init` if no
callback of `evs` carries that tag. -/
def lastReportedFrom (init : Option Int) (tag : Int) (evs : List MultiEvent) : Option Int :=
  evs.foldl (fun acc ev =>
    match reportedTotal ev with
    | some (k, total) => if k = tag then some total else acc
    | none => acc) init

/-- Every tag finishes at most once and receives no start or update callback after its
finish; `fin` holds the tags that have finished already. -/
def finishesLast (fin : List Int) : List MultiEvent → Bool
  | [] => true
  | .newTransfer :: evs => finishesLast fin evs
  | .start none :: evs => finishesLast fin evs
  | .start (some t) :: evs => !(fin.contains t.tag) && finishesLast fin evs
  | .update none :: evs => finishesLast fin evs
  | .update (some t) :: evs => !(fin.contains t.tag) && finishesLast fin evs
  | .finish none _ :: evs => finishesLast fin evs
  | .finish (some t) _ :: evs => !(fin.contains t.tag) && finishesLast (t.tag :: fin) evs

/-- The combined total of the aggregator is the sum of the map `m`, and the in-flight map of
totals agrees with `m` on every tag that has not finished. -/
def totalsInvariant (l : MegaCmdMultiTransferListener) (m : TagMap) (fin : List Int) : Prop :=
  l.combinedTotal = TagMap.total m ∧
  ∀ tag : Int, tag ∉ fin → l.ongoingtotalbytes.lookup tag = m.lookup tag

/-- The events of two member transfers: transfer 1 starts, ticks and finishes at 100 bytes,
transfer 2 ticks at 50 of 200 bytes. -/
def scenarioTwoTransfers : List MultiEvent :=
  [.newTransfer, .newTransfer,
   .start (some { tag := 1, transferredBytes := 0, totalBytes := 100, nodeHandle := 0 }),
   .update (some { tag := 1, transferredBytes := 100, totalBytes := 100, nodeHandle := 0 }),
   .update (some { tag := 2, transferredBytes := 50, totalBytes := 200, nodeHandle := 0 }),
   .finish (some { tag := 1, transferredBytes := 100, totalBytes := 100, nodeHandle := 0 })
     { errorCode := 0, value := 0 }]

/-! ### Text of the progress bar -/

/-- The call `sprintf(buf + pos, "%s", s)`: the characters of `s` and a terminating NUL are
stored from index `pos` on; `none` if that writes outside the buffer. -/
def sprintfAt (buf : List Char) (pos : Nat) (s : List Char) : Option (List Char) :=
  if pos + s.length + 1 ≤ buf.length then
    some (buf.take pos ++ s ++ [Char.ofNat 0] ++ buf.drop (pos + s.length + 1))
  else none

/-- The store `buf[pos] = c`; `none` if `pos` is outside the buffer. -/
def storeAt (buf : List Char) (pos : Nat) (c : Char) : Option (List Char) :=
  if pos < buf.length then some (buf.set pos c) else none

/-- The stores of the loop `*ptr++ = '#'` for `count` iterations, `ptr` starting at index
`pos`. -/
def storeGlyphs (buf : List Char) (pos : Nat) : Nat → Option (List Char)
  | 0 => some buf
  | n + 1 => (storeAt buf pos '#').bind (fun b => storeGlyphs b (pos + 1) n)

/-- The conversion `%.2f` of a value that is not negative: the value rounded to hundredths,
with two decimals. -/
def formatFixed2 (x : ℚ) : String :=
  let hundredths := Int.floor (x * 100 + 1 / 2)
  let frac := hundredths % 100
  toString (hundredths / 100) ++ "." ++ (if frac < 10 then "0" else "") ++ toString frac

/-- The text `sprintf(aux, "||(%lld/%lld MB: %.2f %%) ", transferred / 1024 / 1024,
total / 1024 / 1024, percentDownloaded)` stores in `aux`. -/
def progressSuffix (percent : ℚ) (transferred total : Int) : String :=
  "||(" ++ toString ((transferred.tdiv 1024).tdiv 1024) ++ "/" ++
    toString ((total.tdiv 1024).tdiv 1024) ++ " MB: " ++ formatFixed2 percent ++ " %) "

/-- The number of iterations of
`for (int i = 0; i <= (cols - strlen("TRANSFERRING ||") - strlen(aux)) * 1.0 * percentDownloaded / 100.0; i++)`;
the difference is computed in `size_t`. -/
def glyphCount (cols auxLength : Nat) (percent : ℚ) : Nat :=
  let gap : Int := ((cols : Int) - 15 - (auxLength : Int)) % 2 ^ 64
  let bound : ℚ := (gap : ℚ) * percent / 100
  if bound < 0 then 0 else (Int.floor bound).toNat + 1

/-- The buffer `outputString` of `MegaCmdTransferListener::onTransferUpdate` when it is
written to `std::cout`, for the suffix `aux` and `count` iterations of the glyph loop: `cols`
dots and a NUL, the prefix, the dot that replaces the terminator of the prefix, the suffix at
`cols - strlen(aux)`, and the glyphs from index 15 on. `none` if a store falls outside the
buffer or `aux` does not fit `char aux[40]`. -/
def barLineWith (cols : Nat) (aux : List Char) (count : Nat) : Option (List Char) :=
  let buf0 := List.replicate cols '.' ++ [Char.ofNat 0]
  (sprintfAt buf0 0 "TRANSFERRING ||".toList).bind fun buf1 =>
  (storeAt buf1 15 '.').bind fun buf2 =>
  if 40 < aux.length + 1 then none
  else if cols < aux.length then none
  else (sprintfAt buf2 (cols - aux.length) aux).bind fun buf3 =>
    storeGlyphs buf3 15 count

/-- The buffer `outputString` written to `std::cout` for a terminal of `cols` columns, the
stored percentage and the byte counters of the transfer. -/
def barLine (cols : Nat) (percent : ℚ) (transferred total : Int) : Option (List Char) :=
  barLineWith cols (progressSuffix percent transferred total).toList
    (glyphCount cols (progressSuffix percent transferred total).length percent)

/-- The buffers written to `std::cout` for the bars among the effects, on a terminal of
`cols` columns. -/
def consoleLines (cols : Nat) : List ListenerEffect → List (Option (List Char))
  | [] => []
  | .console percent transferred total _ :: rest =>
    barLine cols percent transferred total :: consoleLines cols rest
  | _ :: rest => consoleLines cols rest

/-! ### The store of `onTransferStart` -/

/-- The aggregator at the moment `MegaCmdMultiTransferListener::onTransferStart` calls
`onTransferUpdate` for a non-null transfer: `alreadyFinished` is reset and
`percentDownloaded` holds 0 if `totalbytes` is 0, else
`(transferredbytes + getOngoingTransferredBytes()) * 1.0 / totalbytes * 1.0`. -/
def MegaCmdMultiTransferListener.onTransferStartStored (l : MegaCmdMultiTransferListener) :
    MegaCmdMultiTransferListener :=
  let l0 := { l with alreadyFinished := false }
  { l0 with
    percentDownloaded :=
      if l0.totalbytes = 0 then 0
      else (l0.combinedTransferred : ℚ) / (l0.totalbytes : ℚ) }

/-- The events of a run in which every callback reports `0 <= transferred <= total`: three
`onNewTransfer()` calls, the completion of transfer 1 at 1 of 1 byte, a tick of transfer 2
at 1000 of 1000 bytes. -/
def scenarioStartAfterFinish : List MultiEvent :=
  [.newTransfer, .newTransfer, .newTransfer,
   .finish (some { tag := 1, transferredBytes := 1, totalBytes := 1, nodeHandle := 0 })
     { errorCode := 0, value := 0 },
   .update (some { tag := 2, transferredBytes := 1000, totalBytes := 1000, nodeHandle := 0 })]

/-! ### The path cache and `printTransfer` (`megacmdexecuter.cpp`) -/

/-- The ledger after `MegaCmdExecuter::printTransfer(transfer, PATHSIZE, printstate)`:
for a download whose node `api->getNodeByHandle` does not resolve (`nodeResolves = false`)
the source column is `completedPathsByHandle[transfer->getNodeHandle()]`, and `operator[]`
of `std::map` inserts the key with an empty string if the map does not hold it. For a
resolved node and for an upload the map is not touched. -/
def MegaCmdGlobalTransferListener.printTransfer (g : MegaCmdGlobalTransferListener)
    (transfer : MegaTransfer) (isDownload nodeResolves : Bool) :
    MegaCmdGlobalTransferListener :=
  if isDownload then
    if nodeResolves then g
    else
      match g.completedPathsByHandle.lookup transfer.nodeHandle with
      | some _ => g
      | none =>
        { g with completedPathsByHandle := g.completedPathsByHandle.insert transfer.nodeHandle "" }
  else g

/-- A call that reads or writes the ledger. -/
inductive LedgerEvent
  /-- the callback `onTransferFinish` with the engine's answer for the node -/
  | finish (transfer : MegaTransfer) (nodepath : Option String)
  /-- a call of `printTransfer` by the command `transfers` -/
  | print (transfer : MegaTransfer) (isDownload nodeResolves : Bool)

/-- The ledger after one call. -/
def ledgerStep (g : MegaCmdGlobalTransferListener) : LedgerEvent → MegaCmdGlobalTransferListener
  | .finish transfer nodepath => g.onTransferFinish transfer nodepath
  | .print transfer isDownload nodeResolves => g.printTransfer transfer isDownload nodeResolves

/-- The ledger after a sequence of calls. -/
def ledgerEvents (g : MegaCmdGlobalTransferListener) (evs : List LedgerEvent) :
    MegaCmdGlobalTransferListener :=
  evs.foldl ledgerStep g

/-- The command `transfers` prints an active download of node 7, which the engine does not
resolve; then a download of node 3 finishes and its path is looked up. -/
def scenarioPrintThenFinish : List LedgerEvent :=
  [.print { tag := 1, transferredBytes := 5, totalBytes := 10, nodeHandle := 7 } true false,
   .finish { tag := 2, transferredBytes := 10, totalBytes := 10, nodeHandle := 3 }
     (some "/docs/a.txt")]

/-! ## Theorems -/

/-! ### Worker thread registry -/

lemma eraseThread_eq_filter (mt : ThreadId) (pts : List ThreadId) :
    eraseThread mt pts = pts.filter (fun t => decide (t ≠ mt)) := by
  induction pts with
  | nil => rfl
  | cons t rest ih =>
    by_cases h : mt = t
    · subst h
      simp [eraseThread, ih]
    · have h' : t ≠ mt := fun e => h e.symm
      simp [eraseThread, ih, h, h']

lemma deleteFinishedLoop_eq (ended pts js : List ThreadId) :
    deleteFinishedLoop ended pts js =
      { petitionThreads := pts.filter (fun t => decide (t ∉ ended))
        endedPetitionThreads := []
        joined := js ++ ended } := by
  induction ended generalizing pts js with
  | nil => simp [deleteFinishedLoop]
  | cons mt rest ih =>
    simp only [deleteFinishedLoop, ih, eraseThread_eq_filter, List.filter_filter,
      List.append_assoc, List.singleton_append]
    congr 1
    apply List.filter_congr
    intro t _
    simp only [List.mem_cons, not_or, Bool.decide_and, Bool.and_comm]

/-- C12: the reclamation pass `delete_finished_threads()` empties `endedPetitionThreads`,
leaves in `petitionThreads` exactly its previous elements that were not in
`endedPetitionThreads`, in their previous order, and executes `join(); delete` once for each
entry of the finished-not-yet-joined list (the join log grows by exactly that list). -/
theorem C12_delete_finished_threads_reclaims (r : ThreadRegistry) :
    (delete_finished_threads r).endedPetitionThreads = [] ∧
    (delete_finished_threads r).petitionThreads =
      r.petitionThreads.filter (fun t => decide (t ∉ r.endedPetitionThreads)) ∧
    (delete_finished_threads r).joined = r.joined ++ r.endedPetitionThreads := by
  simp [delete_finished_threads, deleteFinishedLoop_eq]

/-! ### Bounded concurrency -/

lemma advanceWorker_counts (t : ThreadId) (pc pc' : WorkerPc) (ws ws' : List Worker)
    (w : Worker) (h : advanceWorker t pc pc' ws = some (w, ws')) :
    ws'.length = ws.length ∧
    (ws'.filter Worker.holdsSlot).length + (if Worker.holdsSlot ⟨0, w.inf, pc⟩ then 1 else 0) =
      (ws.filter Worker.holdsSlot).length + (if Worker.holdsSlot ⟨0, w.inf, pc'⟩ then 1 else 0) := by
  induction ws generalizing ws' w with
  | nil => simp [advanceWorker] at h
  | cons x xs ih =>
    unfold advanceWorker at h
    by_cases hx : x.thread = t
    · by_cases hp : x.pc = pc
      · simp only [hx, hp, if_true, Option.some.injEq, Prod.mk.injEq] at h
        obtain ⟨rfl, rfl⟩ := h
        refine ⟨by simp, ?_⟩
        simp only [List.filter_cons, Worker.holdsSlot, hp]
        split <;> split <;> simp
      · simp [hx, hp] at h
    · simp only [hx, if_false] at h
      cases hrec : advanceWorker t pc pc' xs with
      | none => simp [hrec] at h
      | some r =>
        obtain ⟨w', ws''⟩ := r
        simp only [hrec, Option.some.injEq, Prod.mk.injEq] at h
        obtain ⟨rfl, rfl⟩ := h
        obtain ⟨h1, h2⟩ := ih ws'' w' hrec
        refine ⟨by simp [h1], ?_⟩
        simp only [List.filter_cons]
        cases hxs : x.holdsSlot <;> simp <;> omega

lemma filter_holds_partition (ws : List Worker) :
    (ws.filter Worker.holdsSlot).length + (ws.filter (fun w => !w.holdsSlot)).length =
      ws.length := by
  induction ws with
  | nil => rfl
  | cons x xs ih =>
    simp only [List.filter_cons]
    cases hx : x.holdsSlot <;> simp <;> omega

lemma slotsInvariant_mainInit (dp : String) : slotsInvariant (mainInit dp) := by
  simp [slotsInvariant, mainInit, holding, semRelease, Nat.iterate]

lemma holding_reclaim (s : Server) : holding s.reclaim = holding s := rfl

lemma semaphoreClients_reclaim (s : Server) :
    s.reclaim.semaphoreClients = s.semaphoreClients := rfl

lemma slotsInvariant_step (s s' : Server) (e : Event) (h : step s e = some s')
    (hinv : slotsInvariant s) : slotsInvariant s' := by
  unfold slotsInvariant at *
  cases e with
  | petition inf extra =>
    simp only [step] at h
    split at h
    · simp at h
    · split at h
      · simp only [Option.some.injEq] at h
        subst h
        exact hinv
      · simp only [Option.some.injEq] at h
        subst h
        have hr := holding_reclaim s
        have hs := semaphoreClients_reclaim s
        unfold megacmdPetition
        cases inf with
        | none => simpa [holding] using hinv
        | some inf =>
          simp only
          split
          · simpa [holding] using hinv
          · split
            · simpa [holding, registerBranch] using hinv
            · simpa [holding] using hinv
  | wakeup =>
    simp only [step] at h
    split at h
    · simp at h
    · split at h <;>
      · simp only [Option.some.injEq] at h
        subst h
        exact hinv
  | dispatch =>
    simp only [step] at h
    cases hd : s.dispatching with
    | none => simp [hd] at h
    | some inf =>
      simp only [hd, megacmdDispatch] at h
      split at h
      · simp at h
      · simp only [Option.some.injEq] at h
        subst h
        simp only [holding, List.filter_append, List.length_append] at hinv ⊢
        simp [Worker.holdsSlot]
        omega
  | workerProcess t p =>
    simp only [step] at h
    cases ha : advanceWorker t .started .processed s.workers with
    | none => simp [ha] at h
    | some r =>
      obtain ⟨w, ws⟩ := r
      simp only [ha, Option.some.injEq] at h
      subst h
      have := (advanceWorker_counts _ _ _ _ _ _ ha).2
      simp [Worker.holdsSlot] at this
      simp only [holding] at hinv ⊢
      omega
  | workerRelease t =>
    simp only [step] at h
    cases ha : advanceWorker t .processed .released s.workers with
    | none => simp [ha] at h
    | some r =>
      obtain ⟨w, ws⟩ := r
      simp only [ha, Option.some.injEq] at h
      subst h
      have := (advanceWorker_counts _ _ _ _ _ _ ha).2
      simp [Worker.holdsSlot] at this
      simp only [holding, semRelease] at hinv ⊢
      omega
  | workerEnd t =>
    simp only [step] at h
    cases ha : advanceWorker t .released .ended s.workers with
    | none => simp [ha] at h
    | some r =>
      obtain ⟨w, ws⟩ := r
      simp only [ha, Option.some.injEq] at h
      subst h
      have := (advanceWorker_counts _ _ _ _ _ _ ha).2
      simp [Worker.holdsSlot] at this
      simp only [holding] at hinv ⊢
      omega
  | sigint =>
    simp only [step, Option.some.injEq] at h
    subst h
    exact hinv

lemma run_invariant (P : Server → Prop)
    (hstep : ∀ s s' e, step s e = some s' → P s → P s')
    (evs : List Event) (s s' : Server) (h : run s evs = some s') (hs : P s) : P s' := by
  induction evs generalizing s with
  | nil =>
    simp only [run, Option.some.injEq] at h
    exact h ▸ hs
  | cons e es ih =>
    simp only [run] at h
    cases he : step s e with
    | none => simp [he] at h
    | some s1 =>
      simp only [he] at h
      exact ih s1 h (hstep s s1 e he hs)

/-- C11: in every state reachable from the start-up state (100 permits released into
`semaphoreClients`), where the acceptance loop takes one permit before creating each worker and
each worker releases one permit when it finishes, the permits and the workers between
acquisition and release add up to 100; hence at most 100 workers hold a slot, the number of
workers created never exceeds the number of released slots by more than 100 (the 101st and
later petitions are dispatched only after a release), and while 100 workers hold a slot the
dispatch step cannot happen. -/
theorem C11_at_most_100_workers_hold_a_slot (dp : String) (evs : List Event) (s : Server)
    (h : run (mainInit dp) evs = some s) :
    s.semaphoreClients + holding s = 100 ∧
    holding s ≤ 100 ∧
    s.workers.length ≤ releasedCount s + 100 ∧
    (holding s = 100 → step s Event.dispatch = none) := by
  have hinv : slotsInvariant s :=
    run_invariant slotsInvariant slotsInvariant_step evs _ s h (slotsInvariant_mainInit dp)
  unfold slotsInvariant at hinv
  have hpart := filter_holds_partition s.workers
  refine ⟨hinv, by omega, ?_, ?_⟩
  · simp only [holding, releasedCount] at *
    omega
  · intro h100
    have h0 : s.semaphoreClients = 0 := by omega
    simp only [step]
    cases s.dispatching with
    | none => rfl
    | some inf => simp [megacmdDispatch, h0]

set_option maxRecDepth 8000 in
/-- C11 (witness): after two normal petitions have been dispatched and the first worker has
released its slot, 99 permits are left and one worker holds a slot. -/
theorem C11_at_most_100_workers_witness :
    run (mainInit "MEGA CMD> ") scenarioTwoPetitionsEvents = some scenarioTwoPetitions ∧
    (scenarioTwoPetitions.semaphoreClients + holding scenarioTwoPetitions = 100 ∧
      holding scenarioTwoPetitions ≤ 100 ∧
      scenarioTwoPetitions.workers.length ≤ releasedCount scenarioTwoPetitions + 100 ∧
      (holding scenarioTwoPetitions = 100 → step scenarioTwoPetitions Event.dispatch = none)) :=
  ⟨by decide,
    C11_at_most_100_workers_hold_a_slot "MEGA CMD> " scenarioTwoPetitionsEvents
      scenarioTwoPetitions (by decide)⟩

/-! ### The exit flag -/

set_option maxRecDepth 8000 in
/-- C13 (evaluation of the code): SIGINT arrives while worker 0 is still executing `ls`; the
flag `doExit` is then `true`. When the worker reaches `doExit = process_line(...)`, whose
value for `ls` is `false`, the flag is `false` again, so the acceptance loop does not return
at its next wake-up: it accepts a further petition and creates a second worker. -/
theorem C13_doExit_cleared_by_finishing_worker :
    (run (mainInit "MEGA CMD> ")
        [.petition (some ⟨"ls", -1, none⟩) "", .dispatch, .sigint]).map
      (fun s => s.doExit) = some true ∧
    (run (mainInit "MEGA CMD> ")
        [.petition (some ⟨"ls", -1, none⟩) "", .dispatch, .sigint,
         .workerProcess 0 .COMMAND]).map
      (fun s => s.doExit) = some false ∧
    (run (mainInit "MEGA CMD> ")
        [.petition (some ⟨"ls", -1, none⟩) "", .dispatch, .sigint,
         .workerProcess 0 .COMMAND, .wakeup,
         .petition (some ⟨"whoami", -1, none⟩) "", .dispatch]).map
      (fun s => (s.loopReturned, s.workers.length)) = some (false, 2) := by
  decide

/-! ### State-listener registration -/

/-- C14: handling a petition whose line is not `ERROR`. If the line begins with
`registerstatelistener` or `Xregisterstatelistener`, no permit of `semaphoreClients` is taken,
no worker thread is created, the loop does not enter the slot wait, and `petitionThreads` is
what the reclamation pass left (nothing is added). Otherwise the petition enters the slot
wait, which blocks while there is no permit and, once a permit is there, takes exactly one
permit and creates exactly one worker thread, appended to `petitionThreads`. -/
theorem C14_registration_bypasses_worker_path (s : Server) (inf : CmdPetition)
    (extra : String) (hline : inf.line ≠ "ERROR") :
    if isRegisterStateListener inf.line then
      (megacmdPetition s (some inf) extra).semaphoreClients = s.semaphoreClients ∧
      (megacmdPetition s (some inf) extra).workers = s.workers ∧
      (megacmdPetition s (some inf) extra).nextThread = s.nextThread ∧
      (megacmdPetition s (some inf) extra).dispatching = s.dispatching ∧
      (megacmdPetition s (some inf) extra).petitionThreads =
        s.petitionThreads.filter (fun t => decide (t ∉ s.endedPetitionThreads))
    else
      (megacmdPetition s (some inf) extra).dispatching = some inf ∧
      (megacmdPetition s (some inf) extra).semaphoreClients = s.semaphoreClients ∧
      (megacmdPetition s (some inf) extra).workers = s.workers ∧
      (s.semaphoreClients = 0 →
        megacmdDispatch (megacmdPetition s (some inf) extra) inf = none) ∧
      (0 < s.semaphoreClients →
        ∃ s2, megacmdDispatch (megacmdPetition s (some inf) extra) inf = some s2 ∧
          s2.semaphoreClients + 1 = s.semaphoreClients ∧
          s2.nextThread = s.nextThread + 1 ∧
          s2.workers = s.workers ++
            [{ thread := s.nextThread
               inf := { inf with petitionThread := some s.nextThread }
               pc := .started }] ∧
          s2.petitionThreads =
            s.petitionThreads.filter (fun t => decide (t ∉ s.endedPetitionThreads)) ++
              [s.nextThread] ∧
          s2.dispatching = none) := by
  have hpt : s.reclaim.petitionThreads =
      s.petitionThreads.filter (fun t => decide (t ∉ s.endedPetitionThreads)) := by
    simp [Server.reclaim, delete_finished_threads, deleteFinishedLoop_eq]
  by_cases hreg : isRegisterStateListener inf.line = true
  · have hs1 : megacmdPetition s (some inf) extra = registerBranch s.reclaim inf extra := by
      simp [megacmdPetition, hline, hreg]
    rw [if_pos hreg, hs1]
    exact ⟨rfl, rfl, rfl, rfl, hpt⟩
  · have hreg' : isRegisterStateListener inf.line = false := by simpa using hreg
    have hs1 : megacmdPetition s (some inf) extra =
        { s.reclaim with dispatching := some inf } := by
      simp [megacmdPetition, hline, hreg']
    rw [if_neg hreg, hs1]
    refine ⟨rfl, rfl, rfl, ?_, ?_⟩
    · intro h0
      have : s.reclaim.semaphoreClients = 0 := h0
      simp [megacmdDispatch, this]
    · intro hpos
      have hne : ¬ s.reclaim.semaphoreClients = 0 := by
        have : s.reclaim.semaphoreClients = s.semaphoreClients := rfl
        omega
      simp only [megacmdDispatch]
      rw [if_neg (by exact hne)]
      refine ⟨_, rfl, ?_, rfl, rfl, ?_, rfl⟩
      · show s.semaphoreClients - 1 + 1 = s.semaphoreClients
        omega
      · show s.reclaim.petitionThreads ++ [s.nextThread] = _
        rw [hpt]

set_option maxRecDepth 8000 in
/-- C14 (witness): on the server of `scenarioTwoPetitions` (99 permits, threads 0 and 1), a
registration petition leaves permits and workers as they are, and the normal petition `ls`
takes one permit and gets the new thread 2. -/
theorem C14_registration_bypasses_worker_path_witness :
    ((megacmdPetition scenarioTwoPetitions
        (some ⟨"Xregisterstatelistener", -1, none⟩) "").semaphoreClients = 99 ∧
     (megacmdPetition scenarioTwoPetitions
        (some ⟨"Xregisterstatelistener", -1, none⟩) "").workers = scenarioTwoPetitions.workers ∧
     (megacmdPetition scenarioTwoPetitions
        (some ⟨"Xregisterstatelistener", -1, none⟩) "").petitionThreads = [0, 1]) ∧
    (∃ s2, megacmdDispatch (megacmdPetition scenarioTwoPetitions (some ⟨"ls", -1, none⟩) "")
        ⟨"ls", -1, none⟩ = some s2 ∧
      s2.semaphoreClients + 1 = 99 ∧ s2.nextThread = 3 ∧ s2.petitionThreads = [0, 1, 2]) := by
  have hreg := C14_registration_bypasses_worker_path scenarioTwoPetitions
    ⟨"Xregisterstatelistener", -1, none⟩ "" (by decide)
  have hls := C14_registration_bypasses_worker_path scenarioTwoPetitions
    ⟨"ls", -1, none⟩ "" (by decide)
  rw [if_pos (by decide)] at hreg
  rw [if_neg (by decide)] at hls
  obtain ⟨s2, h1, h2, h3, _, h5, _⟩ := hls.2.2.2.2 (by decide)
  exact ⟨⟨hreg.1, hreg.2.1, hreg.2.2.2.2⟩, s2, h1, h2, h3, h5⟩

lemma wrapInt32_succ (x : Int) : wrapInt32 (wrapInt32 x + 1) = wrapInt32 (x + 1) := by
  unfold wrapInt32
  omega

lemma wrapInt32_of_range (x : Int) (h0 : -2147483648 ≤ x) (h1 : x < 2147483648) :
    wrapInt32 x = x := by
  unfold wrapInt32
  omega

lemma step_stateListeners (s s' : Server) (e : Event) (h : step s e = some s') :
    (s'.stateListeners = s.stateListeners ∧ s'.currentclientID = s.currentclientID) ∨
    (∃ (inf : CmdPetition) (extra : String),
      s'.stateListeners = s.stateListeners ++
        [{ inf := { inf with clientID := s.currentclientID }
           sent := [clientIdLine s.currentclientID,
                    (("prompt:" ++ s.dynamicprompt).push (Char.ofNat 0x1F)) ++ extra] }] ∧
      s'.currentclientID = wrapInt32 (s.currentclientID + 1)) := by
  cases e with
  | petition inf extra =>
    simp only [step] at h
    split at h
    · simp at h
    · split at h
      · simp only [Option.some.injEq] at h
        subst h
        exact Or.inl ⟨rfl, rfl⟩
      · simp only [Option.some.injEq] at h
        subst h
        unfold megacmdPetition
        cases inf with
        | none => exact Or.inl ⟨rfl, rfl⟩
        | some inf =>
          simp only
          split
          · exact Or.inl ⟨rfl, rfl⟩
          · split
            · exact Or.inr ⟨inf, extra, rfl, rfl⟩
            · exact Or.inl ⟨rfl, rfl⟩
  | wakeup =>
    simp only [step] at h
    split at h
    · simp at h
    · split at h <;>
      · simp only [Option.some.injEq] at h
        subst h
        exact Or.inl ⟨rfl, rfl⟩
  | dispatch =>
    simp only [step] at h
    cases hd : s.dispatching with
    | none => simp [hd] at h
    | some inf =>
      simp only [hd, megacmdDispatch] at h
      split at h
      · simp at h
      · simp only [Option.some.injEq] at h
        subst h
        exact Or.inl ⟨rfl, rfl⟩
  | workerProcess t p =>
    simp only [step] at h
    cases ha : advanceWorker t .started .processed s.workers with
    | none => simp [ha] at h
    | some r =>
      simp only [ha, Option.some.injEq] at h
      subst h
      exact Or.inl ⟨rfl, rfl⟩
  | workerRelease t =>
    simp only [step] at h
    cases ha : advanceWorker t .processed .released s.workers with
    | none => simp [ha] at h
    | some r =>
      simp only [ha, Option.some.injEq] at h
      subst h
      exact Or.inl ⟨rfl, rfl⟩
  | workerEnd t =>
    simp only [step] at h
    cases ha : advanceWorker t .released .ended s.workers with
    | none => simp [ha] at h
    | some r =>
      simp only [ha, Option.some.injEq] at h
      subst h
      exact Or.inl ⟨rfl, rfl⟩
  | sigint =>
    simp only [step, Option.some.injEq] at h
    subst h
    exact Or.inl ⟨rfl, rfl⟩

lemma clientIdInvariant_mainInit (dp : String) : clientIdInvariant (mainInit dp) := by
  refine ⟨by simp [mainInit, wrapInt32], ?_⟩
  intro k l hk
  simp [mainInit] at hk

lemma clientIdInvariant_step (s s' : Server) (e : Event) (h : step s e = some s')
    (hinv : clientIdInvariant s) : clientIdInvariant s' := by
  rcases step_stateListeners s s' e h with ⟨hl, hc⟩ | ⟨inf, extra, hl, hc⟩
  · unfold clientIdInvariant at *
    rw [hl, hc]
    exact hinv
  · obtain ⟨hcur, hall⟩ := hinv
    refine ⟨?_, ?_⟩
    · rw [hc, hl, hcur, wrapInt32_succ]
      congr 1
      simp only [List.length_append, List.length_singleton]
      push_cast
      ring
    · intro k l hk hb
      rw [hl] at hk
      by_cases hlt : k < s.stateListeners.length
      · rw [List.getElem?_append_left hlt] at hk
        exact hall k l hk hb
      · have hkeq : k = s.stateListeners.length := by
          by_contra hne
          have hgt : s.stateListeners.length + 1 ≤ k := by omega
          have : (s.stateListeners ++
              [({ inf := { inf with clientID := s.currentclientID }
                  sent := [clientIdLine s.currentclientID,
                    (("prompt:" ++ s.dynamicprompt).push (Char.ofNat 0x1F)) ++ extra] } :
                StateListener)])[k]? = none := by
            apply List.getElem?_eq_none
            simp only [List.length_append, List.length_singleton]
            exact hgt
          rw [this] at hk
          cases hk
        subst hkeq
        have hcv : s.currentclientID = (s.stateListeners.length : Int) + 1 := by
          rw [hcur, wrapInt32_of_range] <;> omega
        simp only [List.getElem?_concat_length, Option.some.injEq] at hk
        subst hk
        simp only [List.head?_cons, hcv]
        exact ⟨trivial, trivial⟩

/-- C15: in every state reachable from the start-up state, the registration at position `k`
of the registration order (the `(k+1)`-th registration, `k + 1` within the range of `int`)
stored client id `k + 1` in its petition and was first sent the state line
`clientID:<k+1>` terminated by the unit separator `0x1F`; so every other registration has a
different id. -/
theorem C15_client_ids_assigned_in_sequence (dp : String) (evs : List Event) (s : Server)
    (h : run (mainInit dp) evs = some s) (k : Nat) (l : StateListener)
    (hk : s.stateListeners[k]? = some l) (hbound : (k : Int) + 1 < 2147483648) :
    l.inf.clientID = (k : Int) + 1 ∧
    l.sent.head? = some (("clientID:" ++ SSTR ((k : Int) + 1)).push (Char.ofNat 0x1F)) ∧
    ∀ (j : Nat) (l' : StateListener), s.stateListeners[j]? = some l' →
      (j : Int) + 1 < 2147483648 → j ≠ k → l'.inf.clientID ≠ l.inf.clientID := by
  have hinv : clientIdInvariant s :=
    run_invariant clientIdInvariant clientIdInvariant_step evs _ s h
      (clientIdInvariant_mainInit dp)
  obtain ⟨h1, h2⟩ := hinv.2 k l hk hbound
  refine ⟨h1, h2, ?_⟩
  intro j l' hj hjb hne
  rw [(hinv.2 j l' hj hjb).1, h1]
  intro heq
  apply hne
  omega

set_option maxRecDepth 8000 in
/-- C15 (witness): after two registrations with a normal petition in between, the second
registration holds id 2 and was first sent `clientID:2` + `0x1F`, and the first registration
holds a different id. -/
theorem C15_client_ids_assigned_in_sequence_witness :
    run (mainInit "MEGA CMD> ") scenarioRegistrationsEvents = some scenarioRegistrations ∧
    scenarioRegistrations.stateListeners[1]? =
      some { inf := { line := "Xregisterstatelistener", clientID := 2, petitionThread := none },
             sent := ["clientID:2\x1f", "prompt:MEGA CMD> \x1f"] } ∧
    (2 : Int) = ((1 : Nat) : Int) + 1 ∧
    (∀ (j : Nat) (l' : StateListener), scenarioRegistrations.stateListeners[j]? = some l' →
      (j : Int) + 1 < 2147483648 → j ≠ 1 → l'.inf.clientID ≠ 2) := by
  have h := C15_client_ids_assigned_in_sequence "MEGA CMD> " scenarioRegistrationsEvents
    scenarioRegistrations (by decide) 1
    { inf := { line := "Xregisterstatelistener", clientID := 2, petitionThread := none },
      sent := ["clientID:2\x1f", "prompt:MEGA CMD> \x1f"] } (by decide) (by decide)
  exact ⟨by decide, by decide, h.1, h.2.2⟩

/-! ### Over-quota detector -/

/-- C16: `onTransferTemporaryError` with an error whose code is `API_EOVERQUOTA` sets the
over-quota flag, stores the current time in `timeOfOverquota` and the error's value in
`secondsOverQuota`, and changes nothing else; with a null error or any other error code the
whole sandbox (flag, timestamp and cooldown included) is unchanged. -/
theorem C16_overquota_recorded_on_temporary_error (sb : MegaCmdSandbox) (now : Int) :
    (∀ err : MegaError, err.errorCode = API_EOVERQUOTA →
      (onTransferTemporaryError sb now (some err)).isOverquota = true ∧
      (onTransferTemporaryError sb now (some err)).timeOfOverquota = now ∧
      (onTransferTemporaryError sb now (some err)).secondsOverQuota = err.value ∧
      onTransferTemporaryError sb now (some err) =
        { sb with overquota := true, timeOfOverquota := now, secondsOverQuota := err.value }) ∧
    (∀ err : MegaError, err.errorCode ≠ API_EOVERQUOTA →
      onTransferTemporaryError sb now (some err) = sb) ∧
    onTransferTemporaryError sb now none = sb := by
  refine ⟨?_, ?_, rfl⟩
  · intro err h
    simp [onTransferTemporaryError, h, MegaCmdSandbox.setOverquota, MegaCmdSandbox.isOverquota]
  · intro err h
    simp [onTransferTemporaryError, h]

/-- C17 (counterexample): the sandbox is over quota and holds no bandwidth figure. Two calls
of `downloadNode` at times 1000 and 1001, the engine answering the first without a valid
figure, both issue the bandwidth query; and so do two calls at times 1000 and 1001 with an
account update between them, although the first query brought a valid figure: consecutive
queries one second apart. -/
theorem C17_queries_one_second_apart :
    (quotaRun { sandbox := overquotaSandbox, queries := [] }
        [.download false 1000 replyNoFigure, .download false 1001 replyNoFigure]).queries
      = [{ ts := 1000, temporalbandwidthBefore := 0 },
         { ts := 1001, temporalbandwidthBefore := 0 }] ∧
    (quotaRun { sandbox := overquotaSandbox, queries := [] }
        [.download false 1000 replyFigure, .accountUpdate 3600,
         .download false 1001 replyFigure]).queries
      = [{ ts := 1000, temporalbandwidthBefore := 0 },
         { ts := 1001, temporalbandwidthBefore := 0 }] := by
  decide

lemma downloadNode_queries (q : QuotaState) (ign : Bool) (ts : Int)
    (reply : AccountDetailsReply) :
    ((downloadNode q ign ts reply).1.queries = q.queries ∧
      (downloadNode q ign ts reply).1.sandbox.lastQuerytemporalBandwith =
        q.sandbox.lastQuerytemporalBandwith) ∨
    ((downloadNode q ign ts reply).1.queries =
        q.queries ++ [{ ts := ts, temporalbandwidthBefore := q.sandbox.temporalbandwidth }] ∧
      (downloadNode q ign ts reply).1.sandbox.lastQuerytemporalBandwith = ts ∧
      (q.sandbox.temporalbandwidth = 0 ∨ ts - q.sandbox.lastQuerytemporalBandwith > 60)) := by
  unfold downloadNode
  split
  · split
    · rename_i hq
      right
      refine ⟨rfl, ?_, hq⟩
      simp only
      split
      · split <;> rfl
      · rfl
    · left
      exact ⟨rfl, rfl⟩
  · left
    exact ⟨rfl, rfl⟩

lemma queryLogInvariant_step (q : QuotaState) (e : QuotaEvent) (h : queryLogInvariant q) :
    queryLogInvariant (quotaStep q e) := by
  cases e with
  | download ign ts reply =>
    simp only [quotaStep]
    rcases downloadNode_queries q ign ts reply with ⟨hq, hl⟩ | ⟨hq, hl, hcond⟩
    · unfold queryLogInvariant
      rw [hq, hl]
      exact h
    · unfold queryLogInvariant
      rw [hq, hl]
      refine ⟨?_, ?_⟩
      · rw [List.chain'_append]
        refine ⟨h.1, List.chain'_singleton _, ?_⟩
        intro x hx y hy
        simp only [List.head?_cons, Option.mem_def, Option.some.injEq] at hy
        subst hy
        have := h.2 x hx
        unfold querySpacing
        simp only
        rw [← this]
        exact hcond
      · intro x hx
        simp only [List.getLast?_append, List.getLast?_singleton, Option.or,
          Option.mem_def, Option.some.injEq] at hx
        subst hx
        rfl
  | temporaryError now e =>
    simp only [quotaStep]
    unfold queryLogInvariant
    have : (onTransferTemporaryError q.sandbox now e).lastQuerytemporalBandwith =
        q.sandbox.lastQuerytemporalBandwith := by
      unfold onTransferTemporaryError
      cases e with
      | none => rfl
      | some err =>
        simp only
        split <;> rfl
    simp only [this]
    exact h
  | accountUpdate delay =>
    simp only [quotaStep]
    unfold queryLogInvariant
    have : (onAccountUpdate q.sandbox delay).lastQuerytemporalBandwith =
        q.sandbox.lastQuerytemporalBandwith := by
      unfold onAccountUpdate
      simp only
      split <;> rfl
    simp only [this]
    exact h

lemma queryLogInvariant_run (evs : List QuotaEvent) (q : QuotaState)
    (h : queryLogInvariant q) : queryLogInvariant (quotaRun q evs) := by
  induction evs generalizing q with
  | nil => exact h
  | cons e es ih => exact ih (quotaStep q e) (queryLogInvariant_step q e h)

/-- C17 (amended): a call of `downloadNode` made while the over-quota flag is set and
`ignorequotawarn` is false issues the bandwidth query exactly when no bandwidth figure is
stored (`temporalbandwidth` is 0) or more than 60 seconds have passed since
`lastQuerytemporalBandwith`; and over every sequence of `downloadNode` calls, temporary
errors and account updates started with an empty query log, any two consecutive queries are
more than 60 seconds apart unless the later one was made with no bandwidth figure stored. -/
theorem C17_bandwidth_query_rate_limit (sb : MegaCmdSandbox) (evs : List QuotaEvent) :
    List.Chain' querySpacing (quotaRun { sandbox := sb, queries := [] } evs).queries ∧
    ∀ (q : QuotaState) (ts : Int) (reply : AccountDetailsReply),
      q.sandbox.isOverquota = true →
        ((downloadNode q false ts reply).1.queries =
            q.queries ++ [{ ts := ts, temporalbandwidthBefore := q.sandbox.temporalbandwidth }]
          ↔ (q.sandbox.temporalbandwidth = 0 ∨
              ts - q.sandbox.lastQuerytemporalBandwith > 60)) := by
  refine ⟨(queryLogInvariant_run evs _ ⟨List.chain'_nil, by simp⟩).1, ?_⟩
  intro q ts reply hover
  constructor
  · intro hq
    rcases downloadNode_queries q false ts reply with ⟨hq', _⟩ | ⟨_, _, hcond⟩
    · rw [hq'] at hq
      simp at hq
    · exact hcond
  · intro hcond
    simp [downloadNode, hover, hcond]

/-! ### Secondary-session pool -/

lemma poolInvariant_main : poolInvariant mainApiFolders := by
  refine ⟨?_, ?_⟩ <;> decide

lemma poolInvariant_nodup (p : ApiFolderPool) (h : poolInvariant p) :
    (p.apiFolders ++ p.occupiedapiFolders).Nodup :=
  (List.Perm.nodup_iff h.1).mpr (List.nodup_range 5)

lemma occupied_filter_eq_erase (p : ApiFolderPool) (h : poolInvariant p) (s : ApiFolder) :
    p.occupiedapiFolders.filter (fun a => decide (a ≠ s)) = p.occupiedapiFolders.erase s := by
  have hnd : p.occupiedapiFolders.Nodup := (List.nodup_append.mp (poolInvariant_nodup p h)).2.1
  rw [List.Nodup.erase_eq_filter hnd]
  apply List.filter_congr
  intro a _
  by_cases hs : a = s <;> simp [hs]

lemma poolInvariant_step (p p' : ApiFolderPool) (op : PoolOp) (h : poolStep p op = some p')
    (hinv : poolInvariant p) : poolInvariant p' := by
  cases op with
  | acquire =>
    simp only [poolStep, getFreeApiFolder] at h
    split at h
    · simp at h
    · rename_i hsem
      cases hq : p.apiFolders with
      | nil => simp [hq] at h
      | cons x rest =>
        simp only [hq, Option.map_some', Option.some.injEq] at h
        subst h
        obtain ⟨hperm, hlen⟩ := hinv
        rw [hq] at hperm hlen
        refine ⟨?_, ?_⟩
        · simp only
          refine List.Perm.trans ?_ hperm
          rw [← List.append_assoc]
          refine List.Perm.trans List.perm_append_comm ?_
          simp
        · simp only [List.length_cons] at hlen ⊢
          omega
  | release s =>
    simp only [poolStep] at h
    split at h
    · rename_i hmem
      simp only [Option.some.injEq] at h
      subst h
      have herase := occupied_filter_eq_erase p hinv s
      obtain ⟨hperm, hlen⟩ := hinv
      refine ⟨?_, ?_⟩
      · simp only [freeApiFolder, herase]
        refine List.Perm.trans ?_ hperm
        rw [List.append_assoc]
        apply List.Perm.append_left
        simp only [List.singleton_append]
        exact (List.perm_cons_erase hmem).symm
      · simp [freeApiFolder, semRelease, hlen]
    · simp at h

lemma poolRun_invariant (ops : List PoolOp) (p p' : ApiFolderPool)
    (h : poolRun p ops = some p') (hinv : poolInvariant p) : poolInvariant p' := by
  induction ops generalizing p with
  | nil =>
    simp only [poolRun, Option.some.injEq] at h
    exact h ▸ hinv
  | cons op ops ih =>
    simp only [poolRun] at h
    cases hs : poolStep p op with
    | none => simp [hs] at h
    | some p1 =>
      simp only [hs] at h
      exact ih p1 h (poolInvariant_step p p1 op hs hinv)

/-- C18: after every sequence of completed `getFreeApiFolder()` calls and
`freeApiFolder(s)` calls that each return a currently occupied session, the free queue and the
occupied list together hold exactly the 5 sessions created at startup, each once, they are
disjoint, and the permits of the semaphore equal the length of the free queue; in such a
state an acquire moves the front of the free queue to the end of the occupied list (and does
not block while the queue is non-empty), and a release of an occupied session removes it from
the occupied list and puts it at the tail of the free queue. -/
theorem C18_session_pool_conservation (ops : List PoolOp) (p : ApiFolderPool)
    (h : poolRun mainApiFolders ops = some p) :
    (p.apiFolders ++ p.occupiedapiFolders).Perm (List.range 5) ∧
    p.apiFolders.Disjoint p.occupiedapiFolders ∧
    p.semaphoreapiFolders = p.apiFolders.length ∧
    (∀ (x : ApiFolder) (rest : List ApiFolder), p.apiFolders = x :: rest →
      getFreeApiFolder p = some (x,
        { apiFolders := rest
          occupiedapiFolders := p.occupiedapiFolders ++ [x]
          semaphoreapiFolders := p.semaphoreapiFolders - 1 })) ∧
    (∀ s ∈ p.occupiedapiFolders,
      freeApiFolder p s =
        { apiFolders := p.apiFolders ++ [s]
          occupiedapiFolders := p.occupiedapiFolders.erase s
          semaphoreapiFolders := p.semaphoreapiFolders + 1 }) := by
  have hinv := poolRun_invariant ops _ p h poolInvariant_main
  have hnd := poolInvariant_nodup p hinv
  refine ⟨hinv.1, (List.nodup_append.mp hnd).2.2, hinv.2, ?_, ?_⟩
  · intro x rest hq
    have hsem : p.semaphoreapiFolders ≠ 0 := by
      rw [hinv.2, hq]
      simp
    simp [getFreeApiFolder, hsem, hq]
  · intro s _
    simp only [freeApiFolder, occupied_filter_eq_erase p hinv s, semRelease]

/-- C18 (witness): two acquires, the release of session 0 and another acquire leave sessions
3, 4, 0 free and 1, 2 occupied, with 3 permits. -/
theorem C18_session_pool_conservation_witness :
    poolRun mainApiFolders [.acquire, .acquire, .release 0, .acquire] =
      some { apiFolders := [3, 4, 0], occupiedapiFolders := [1, 2], semaphoreapiFolders := 3 } ∧
    ([3, 4, 0] ++ [1, 2] : List ApiFolder).Perm (List.range 5) :=
  ⟨by decide,
   (C18_session_pool_conservation [.acquire, .acquire, .release 0, .acquire]
      { apiFolders := [3, 4, 0], occupiedapiFolders := [1, 2], semaphoreapiFolders := 3 }
      (by decide)).1⟩

/-! ### Progress notifications -/

lemma string_length_eq_zero_iff (t : String) : t.length = 0 ↔ t = "" := by
  cases t with
  | mk data =>
    constructor
    · intro h
      have hd : data = [] := List.length_eq_zero.mp h
      subst hd
      rfl
    · intro h
      have hd : data = [] := congrArg String.data h
      subst hd
      rfl

/-- C19: for all `transferred`, `total`, `clientID` and `title`, `informProgressUpdate` hands
to the listener with that `clientID` exactly the line `progress:<transferred>:<total>`,
followed by `:<title>` if and only if the title is non-empty; and the finish callback of a
single transfer announces it with the sentinel `PROGRESS_COMPLETE` = -2 as `transferred` and
the transfer's total bytes as `total`. -/
theorem C19_progress_line_format (transferred total clientID : Int) (title : String)
    (l : MegaCmdTransferListener) (t : MegaTransfer) (e : Option MegaError) :
    (informProgressUpdate transferred total clientID title).clientID = clientID ∧
    (title = "" → (informProgressUpdate transferred total clientID title).line =
      "progress:" ++ SSTR transferred ++ ":" ++ SSTR total) ∧
    (title ≠ "" → (informProgressUpdate transferred total clientID title).line =
      "progress:" ++ SSTR transferred ++ ":" ++ SSTR total ++ ":" ++ title) ∧
    PROGRESS_COMPLETE = -2 ∧
    notifications (l.doOnTransferFinish (some t) e) =
      [{ line := "progress:-2:" ++ SSTR t.totalBytes, clientID := l.clientID }] := by
  refine ⟨rfl, ?_, ?_, rfl, ?_⟩
  · intro h
    subst h
    rfl
  · intro h
    have hlen : title.length ≠ 0 := fun h0 => h ((string_length_eq_zero_iff title).mp h0)
    simp only [informProgressUpdate, hlen, ne_eq, not_false_eq_true, if_true]
  · have hline : (informProgressUpdate PROGRESS_COMPLETE t.totalBytes l.clientID "") =
        { line := "progress:-2:" ++ SSTR t.totalBytes, clientID := l.clientID } := rfl
    unfold MegaCmdTransferListener.doOnTransferFinish
    simp only [hline]
    cases l.hasListener <;> rfl

/-! ### Transfer progress renderer -/

/-- C20 (counterexample): on the first progress callback of a transfer, reporting 0 of 1000
bytes, a freshly constructed renderer emits no structured notification; and once it has
rendered the completion of a transfer (1000 of 1000 bytes), a further callback with the same
counters emits none either. -/
theorem C20_suppressed_callback_emits_no_notification :
    notifications ((MegaCmdTransferListener.new false 7).onTransferUpdate
      (some { tag := 1, transferredBytes := 0, totalBytes := 1000, nodeHandle := 0 })).2 = [] ∧
    notifications
      ((((MegaCmdTransferListener.new false 7).onTransferUpdate
          (some { tag := 1, transferredBytes := 1000, totalBytes := 1000, nodeHandle := 0 })).1
        ).onTransferUpdate
          (some { tag := 1, transferredBytes := 1000, totalBytes := 1000, nodeHandle := 0 })).2
      = [] := by
  constructor
  · norm_num [MegaCmdTransferListener.onTransferUpdate, MegaCmdTransferListener.new,
      transferPercent, notifications]
  · norm_num [MegaCmdTransferListener.onTransferUpdate, MegaCmdTransferListener.new,
      transferPercent, notifications]

lemma notifications_append (a b : List ListenerEffect) :
    notifications (a ++ b) = notifications a ++ notifications b := by
  induction a with
  | nil => rfl
  | cons x xs ih => cases x <;> simp [notifications, ih]

lemma consoleWrites_append (a b : List ListenerEffect) :
    consoleWrites (a ++ b) = consoleWrites a + consoleWrites b := by
  induction a with
  | nil => simp [consoleWrites]
  | cons x xs ih =>
    cases x <;> simp [consoleWrites, ih]
    omega

lemma onTransferUpdate_notifications (l : MegaCmdTransferListener) (t : MegaTransfer) :
    (redrawSuppressed l t →
      consoleWrites (l.onTransferUpdate (some t)).2 = 0 ∧
      notifications (l.onTransferUpdate (some t)).2 = []) ∧
    (¬ redrawSuppressed l t →
      consoleWrites (l.onTransferUpdate (some t)).2 = 1 ∧
      notifications (l.onTransferUpdate (some t)).2 =
        [{ line := "progress:" ++ SSTR t.transferredBytes ++ ":" ++ SSTR t.totalBytes
           clientID := l.clientID }]) := by
  have hfwd : ∀ b : Bool,
      notifications (if b = true then [ListenerEffect.forwardUpdate (some t)] else []) = [] ∧
      consoleWrites (if b = true then [ListenerEffect.forwardUpdate (some t)] else []) = 0 := by
    intro b
    cases b <;> exact ⟨rfl, rfl⟩
  have hinf : informTransferUpdate t l.clientID =
      { line := "progress:" ++ SSTR t.transferredBytes ++ ":" ++ SSTR t.totalBytes
        clientID := l.clientID } := rfl
  constructor
  · intro hs
    unfold MegaCmdTransferListener.onTransferUpdate
    simp only
    split
    · exact ⟨(hfwd _).2, (hfwd _).1⟩
    · rename_i h1
      split
      · exact ⟨(hfwd _).2, (hfwd _).1⟩
      · rename_i h2
        split
        · exact ⟨(hfwd _).2, (hfwd _).1⟩
        · rename_i h3
          exfalso
          rcases hs with hs | hs | hs | hs
          · exact h1 (Or.inl hs)
          · exact h1 (Or.inr hs)
          · exact h2 hs
          · exact h3 hs
  · intro hs
    have h1 : ¬ (l.alreadyFinished = true ∨
        (transferPercent t = l.percentDownloaded ∧ l.percentDownloaded ≠ 0)) := by
      intro h
      rcases h with h | h
      · exact hs (Or.inl h)
      · exact hs (Or.inr (Or.inl h))
    have h2 : ¬ t.totalBytes < 0 := fun h => hs (Or.inr (Or.inr (Or.inl h)))
    have h3 : ¬ (t.transferredBytes : ℚ) < (1 / 1000 : ℚ) * (t.totalBytes : ℚ) :=
      fun h => hs (Or.inr (Or.inr (Or.inr h)))
    unfold MegaCmdTransferListener.onTransferUpdate
    simp only [h1, h2, h3, if_false]
    repeat' split
    all_goals
      simp only [notifications_append, consoleWrites_append, (hfwd _).1, (hfwd _).2]
      simp [notifications, consoleWrites, hinf]

/-- C20 (amended): on a progress callback with a non-null transfer the renderer writes at
most one bar; on a callback on which it writes the bar it emits the structured progress
notification, carrying the raw transferred and total bytes and the client id, exactly once;
on a callback on which it writes no bar it emits none. It writes no bar, and so emits no
notification, once a completion has been rendered and when the total is negative; a renderer
that has rendered nothing yet (stored percentage 0) and receives a callback whose transferred
bytes equal a positive total writes the bar and emits the notification. -/
theorem C20_notification_follows_the_bar (l : MegaCmdTransferListener) (t : MegaTransfer) :
    (consoleWrites (l.onTransferUpdate (some t)).2 = 0 ∨
      consoleWrites (l.onTransferUpdate (some t)).2 = 1) ∧
    (consoleWrites (l.onTransferUpdate (some t)).2 = 1 →
      notifications (l.onTransferUpdate (some t)).2 =
        [{ line := "progress:" ++ SSTR t.transferredBytes ++ ":" ++ SSTR t.totalBytes
           clientID := l.clientID }]) ∧
    (consoleWrites (l.onTransferUpdate (some t)).2 = 0 →
      notifications (l.onTransferUpdate (some t)).2 = []) ∧
    (l.alreadyFinished = true →
      consoleWrites (l.onTransferUpdate (some t)).2 = 0 ∧
      notifications (l.onTransferUpdate (some t)).2 = []) ∧
    (t.totalBytes < 0 →
      consoleWrites (l.onTransferUpdate (some t)).2 = 0 ∧
      notifications (l.onTransferUpdate (some t)).2 = []) ∧
    (l.alreadyFinished = false → l.percentDownloaded = 0 → 0 < t.totalBytes →
      t.transferredBytes = t.totalBytes →
      consoleWrites (l.onTransferUpdate (some t)).2 = 1 ∧
      notifications (l.onTransferUpdate (some t)).2 =
        [{ line := "progress:" ++ SSTR t.transferredBytes ++ ":" ++ SSTR t.totalBytes
           clientID := l.clientID }]) := by
  obtain ⟨hsup, hdraw⟩ := onTransferUpdate_notifications l t
  refine ⟨?_, ?_, ?_, ?_, ?_, ?_⟩
  · by_cases hs : redrawSuppressed l t
    · exact Or.inl (hsup hs).1
    · exact Or.inr (hdraw hs).1
  · intro h1
    by_cases hs : redrawSuppressed l t
    · rw [(hsup hs).1] at h1
      cases h1
    · exact (hdraw hs).2
  · intro h0
    by_cases hs : redrawSuppressed l t
    · exact (hsup hs).2
    · rw [(hdraw hs).1] at h0
      cases h0
  · intro hfin
    exact hsup (Or.inl hfin)
  · intro hneg
    exact hsup (Or.inr (Or.inr (Or.inl hneg)))
  · intro hfin hzero hpos heq
    apply hdraw
    rintro (h | h | h | h)
    · rw [hfin] at h
      cases h
    · exact h.2 hzero
    · omega
    · rw [heq] at h
      have hq : (0 : ℚ) < (t.totalBytes : ℚ) := by exact_mod_cast hpos
      linarith

/-! ### Multi-transfer aggregator -/

lemma firstFailure_cons (current : Int) (e : MegaError) (es : List MegaError) :
    firstFailure (if current ≠ API_OK then current else e.errorCode) es =
      firstFailure current (e :: es) := by
  unfold firstFailure
  by_cases hc : current = API_OK
  · by_cases he : e.errorCode = API_OK
    · simp [hc, he]
    · simp [hc, he]
  · simp [hc]

/-- C1: for every sequence of member-transfer completions delivered to `doOnTransferFinish`
(each with its transfer, possibly null, and its error), `getFinalerror()` afterwards is the
error so far if that is already a failure, and otherwise the code of the first completion
whose code is not `API_OK`, or `API_OK` if there is none. In particular, starting from the
constructor, outcomes `[OK, a, OK, b]` with `a` a failure give `a`, and a failure, once
recorded, is kept by every later completion. -/
theorem C1_first_failure_wins (l : MegaCmdMultiTransferListener)
    (cs : List (Option MegaTransfer × MegaError)) (a b : Int) (clientID : Int) :
    (cs.foldl (fun s c => s.doOnTransferFinish c.1 c.2) l).getFinalerror =
      firstFailure l.finalerror (cs.map Prod.snd) ∧
    (a ≠ API_OK →
      ((MegaCmdMultiTransferListener.new clientID).doOnTransferFinish none ⟨API_OK, 0⟩
        |>.doOnTransferFinish none ⟨a, 0⟩
        |>.doOnTransferFinish none ⟨API_OK, 0⟩
        |>.doOnTransferFinish none ⟨b, 0⟩).getFinalerror = a) ∧
    (l.finalerror ≠ API_OK →
      (cs.foldl (fun s c => s.doOnTransferFinish c.1 c.2) l).getFinalerror = l.finalerror) := by
  have hfinish : ∀ (s : MegaCmdMultiTransferListener) (t : Option MegaTransfer) (e : MegaError),
      (s.doOnTransferFinish t e).finalerror =
        if s.finalerror ≠ API_OK then s.finalerror else e.errorCode := by
    intro s t e
    cases t <;> rfl
  have hmain : ∀ (cs : List (Option MegaTransfer × MegaError)) (s : MegaCmdMultiTransferListener),
      (cs.foldl (fun s c => s.doOnTransferFinish c.1 c.2) s).finalerror =
        firstFailure s.finalerror (cs.map Prod.snd) := by
    intro cs
    induction cs with
    | nil =>
      intro s
      by_cases hs : s.finalerror = API_OK <;> simp [firstFailure, hs]
    | cons c cs ih =>
      intro s
      simp only [List.foldl_cons, List.map_cons]
      rw [ih, hfinish, firstFailure_cons]
  refine ⟨hmain cs l, ?_, ?_⟩
  · intro ha
    simp only [MegaCmdMultiTransferListener.getFinalerror, hfinish,
      MegaCmdMultiTransferListener.new]
    simp [ha]
  · intro hl
    show (cs.foldl (fun s c => s.doOnTransferFinish c.1 c.2) l).finalerror = l.finalerror
    rw [hmain]
    simp [firstFailure, hl]

lemma entries_total_kerase (k : Int) (es : List (Sigma fun _ : Int => Int)) :
    ((List.kerase k es).map (fun e => e.2)).sum + (List.dlookup k es).getD 0 =
      (es.map (fun e => e.2)).sum := by
  induction es with
  | nil => simp
  | cons x xs ih =>
    by_cases h : k = x.1
    · rw [List.kerase_cons_eq h]
      obtain ⟨x1, x2⟩ := x
      simp only at h
      subst h
      simp [List.dlookup_cons_eq]
      omega
    · rw [List.kerase_cons_ne h, List.dlookup_cons_ne _ _ h]
      simp only [List.map_cons, List.sum_cons]
      omega

lemma TagMap.total_erase (m : TagMap) (k : Int) :
    TagMap.total (m.erase k) + (m.lookup k).getD 0 = TagMap.total m :=
  entries_total_kerase k m.entries

lemma TagMap.total_insert (m : TagMap) (k v : Int) :
    TagMap.total (m.insert k v) = v + TagMap.total (m.erase k) := by
  simp [TagMap.total, AList.insert_entries, AList.erase]

/-- C4: for every aggregator state and every non-null finishing transfer `t`,
`doOnTransferFinish` removes `t`'s tag from both in-flight maps, adds `t`'s transferred and
total bytes to the finished running totals, increments `finished` by exactly one, and leaves
`started` and the in-flight entries of every other tag unchanged. -/
theorem C4_finish_moves_bytes_to_finished_totals (l : MegaCmdMultiTransferListener)
    (t : MegaTransfer) (e : MegaError) :
    (l.doOnTransferFinish (some t) e).ongoingtransferredbytes.lookup t.tag = none ∧
    (l.doOnTransferFinish (some t) e).ongoingtotalbytes.lookup t.tag = none ∧
    (l.doOnTransferFinish (some t) e).transferredbytes =
      l.transferredbytes + t.transferredBytes ∧
    (l.doOnTransferFinish (some t) e).totalbytes = l.totalbytes + t.totalBytes ∧
    (l.doOnTransferFinish (some t) e).finished = l.finished + 1 ∧
    (l.doOnTransferFinish (some t) e).started = l.started ∧
    ∀ tag : Int, tag ≠ t.tag →
      (l.doOnTransferFinish (some t) e).ongoingtransferredbytes.lookup tag =
        l.ongoingtransferredbytes.lookup tag ∧
      (l.doOnTransferFinish (some t) e).ongoingtotalbytes.lookup tag =
        l.ongoingtotalbytes.lookup tag := by
  refine ⟨AList.lookup_erase _ _, AList.lookup_erase _ _, rfl, rfl, rfl, rfl, ?_⟩
  intro tag h
  exact ⟨AList.lookup_erase_ne h, AList.lookup_erase_ne h⟩

lemma onTransferUpdate_listener (l : MegaCmdMultiTransferListener) (t : MegaTransfer) :
    (l.onTransferUpdate (some t)).listener.ongoingtransferredbytes =
      l.ongoingtransferredbytes.insert t.tag t.transferredBytes ∧
    (l.onTransferUpdate (some t)).listener.ongoingtotalbytes =
      l.ongoingtotalbytes.insert t.tag t.totalBytes ∧
    (l.onTransferUpdate (some t)).listener.transferredbytes = l.transferredbytes ∧
    (l.onTransferUpdate (some t)).listener.totalbytes = l.totalbytes ∧
    (l.onTransferUpdate (some t)).listener.started = l.started ∧
    (l.onTransferUpdate (some t)).listener.finished = l.finished ∧
    (l.onTransferUpdate (some t)).listener.finalerror = l.finalerror ∧
    ((l.onTransferUpdate (some t)).listener.percentDownloaded =
        (l.onTransferUpdate (some t)).listener.aggregatePercent ∨
      ((l.onTransferUpdate (some t)).listener.aggregatePercent < 0 ∧
        (l.onTransferUpdate (some t)).listener.percentDownloaded = 0)) := by
  unfold MegaCmdMultiTransferListener.onTransferUpdate
  simp only
  repeat' split
  all_goals
    refine ⟨rfl, rfl, rfl, rfl, rfl, rfl, rfl, ?_⟩
    first
      | exact Or.inl rfl
      | exact Or.inr ⟨by assumption, rfl⟩

lemma aggregatePercent_nonneg (l : MegaCmdMultiTransferListener)
    (hnum : 0 ≤ l.combinedTransferred) (hden : 0 ≤ l.combinedTotal) :
    0 ≤ l.aggregatePercent := by
  unfold MegaCmdMultiTransferListener.aggregatePercent
  split
  · exact le_refl 0
  · have h1 : (0 : ℚ) ≤ (l.combinedTransferred : ℚ) := by exact_mod_cast hnum
    have h2 : (0 : ℚ) ≤ (l.combinedTotal : ℚ) := by exact_mod_cast hden
    positivity

lemma onTransferUpdate_percent (l : MegaCmdMultiTransferListener) (t : MegaTransfer)
    (hnum : 0 ≤ l.transferredbytes +
      TagMap.total (l.ongoingtransferredbytes.insert t.tag t.transferredBytes))
    (hden : 0 ≤ l.totalbytes + TagMap.total (l.ongoingtotalbytes.insert t.tag t.totalBytes)) :
    (l.onTransferUpdate (some t)).listener.percentDownloaded =
      if l.totalbytes + TagMap.total (l.ongoingtotalbytes.insert t.tag t.totalBytes) = 0 then 0
      else
        ((l.transferredbytes +
            TagMap.total (l.ongoingtransferredbytes.insert t.tag t.transferredBytes) : Int) : ℚ) /
          ((l.totalbytes +
            TagMap.total (l.ongoingtotalbytes.insert t.tag t.totalBytes) : Int) : ℚ) * 100 := by
  obtain ⟨h1, h2, h3, h4, _, _, _, h8⟩ := onTransferUpdate_listener l t
  have hagg : (l.onTransferUpdate (some t)).listener.aggregatePercent =
      if l.totalbytes + TagMap.total (l.ongoingtotalbytes.insert t.tag t.totalBytes) = 0 then 0
      else
        ((l.transferredbytes +
            TagMap.total (l.ongoingtransferredbytes.insert t.tag t.transferredBytes) : Int) : ℚ) /
          ((l.totalbytes +
            TagMap.total (l.ongoingtotalbytes.insert t.tag t.totalBytes) : Int) : ℚ) * 100 := by
    simp only [MegaCmdMultiTransferListener.aggregatePercent,
      MegaCmdMultiTransferListener.combinedTotal, MegaCmdMultiTransferListener.combinedTransferred,
      MegaCmdMultiTransferListener.getOngoingTotalBytes,
      MegaCmdMultiTransferListener.getOngoingTransferredBytes, h1, h2, h3, h4]
  have hnn : 0 ≤ (l.onTransferUpdate (some t)).listener.aggregatePercent := by
    apply aggregatePercent_nonneg
    · simp only [MegaCmdMultiTransferListener.combinedTransferred,
        MegaCmdMultiTransferListener.getOngoingTransferredBytes, h1, h3]
      exact hnum
    · simp only [MegaCmdMultiTransferListener.combinedTotal,
        MegaCmdMultiTransferListener.getOngoingTotalBytes, h2, h4]
      exact hden
  rcases h8 with h | ⟨hneg, _⟩
  · rw [h, hagg]
  · exact absurd hneg (not_lt.mpr hnn)

/-- C3 (counterexample): on a fresh aggregator a tick reporting 10 transferred bytes and a
total of -1 leaves the combined total at -1, which is not 0, and the formula
`(finished transferred + in-flight transferred) / (finished total + in-flight total) * 100`
at -1000, while `onTransferUpdate` stores 0. -/
theorem C3_negative_percentage_stored_as_zero :
    ((MegaCmdMultiTransferListener.new 7).onTransferUpdate
      (some { tag := 1, transferredBytes := 10, totalBytes := -1, nodeHandle := 0 })
      ).listener.percentDownloaded = 0 ∧
    (MegaCmdMultiTransferListener.new 7).totalbytes +
      TagMap.total ((MegaCmdMultiTransferListener.new 7).ongoingtotalbytes.insert 1 (-1)) = -1 ∧
    (((MegaCmdMultiTransferListener.new 7).transferredbytes +
        TagMap.total ((MegaCmdMultiTransferListener.new 7).ongoingtransferredbytes.insert 1 10)
          : Int) : ℚ) /
      (((MegaCmdMultiTransferListener.new 7).totalbytes +
        TagMap.total ((MegaCmdMultiTransferListener.new 7).ongoingtotalbytes.insert 1 (-1))
          : Int) : ℚ) * 100 = -1000 := by
  have e2 : TagMap.total (AList.insert 1 10 (∅ : TagMap)) = 10 := by decide
  have e3 : TagMap.total (AList.insert 1 (-1) (∅ : TagMap)) = -1 := by decide
  refine ⟨?_, ?_, ?_⟩
  · simp only [MegaCmdMultiTransferListener.new,
      MegaCmdMultiTransferListener.onTransferUpdate,
      MegaCmdMultiTransferListener.aggregatePercent,
      MegaCmdMultiTransferListener.combinedTotal,
      MegaCmdMultiTransferListener.combinedTransferred,
      MegaCmdMultiTransferListener.getOngoingTotalBytes,
      MegaCmdMultiTransferListener.getOngoingTransferredBytes, e2, e3]
    norm_num
  · simp only [MegaCmdMultiTransferListener.new, e3]
    norm_num
  · simp only [MegaCmdMultiTransferListener.new, e2, e3]
    norm_num

/-- C3 (amended): on every progress tick of a member transfer `t` after which the combined
transferred bytes and the combined total bytes are not negative,
the in-flight maps afterwards bind `t`'s tag to the counters just reported and every other tag
to what it was bound to before, and the percentage stored by `onTransferUpdate` is
`(finished transferred + in-flight transferred) / (finished total + in-flight total) * 100`
over those maps, and 0 when that denominator is 0. -/
theorem C3_aggregate_percentage_formula (l : MegaCmdMultiTransferListener) (t : MegaTransfer)
    (hnum : 0 ≤ l.transferredbytes +
      TagMap.total (l.ongoingtransferredbytes.insert t.tag t.transferredBytes))
    (hden : 0 ≤ l.totalbytes + TagMap.total (l.ongoingtotalbytes.insert t.tag t.totalBytes)) :
    (l.onTransferUpdate (some t)).listener.ongoingtransferredbytes.lookup t.tag =
      some t.transferredBytes ∧
    (l.onTransferUpdate (some t)).listener.ongoingtotalbytes.lookup t.tag =
      some t.totalBytes ∧
    (∀ tag : Int, tag ≠ t.tag →
      (l.onTransferUpdate (some t)).listener.ongoingtransferredbytes.lookup tag =
        l.ongoingtransferredbytes.lookup tag ∧
      (l.onTransferUpdate (some t)).listener.ongoingtotalbytes.lookup tag =
        l.ongoingtotalbytes.lookup tag) ∧
    (l.onTransferUpdate (some t)).listener.percentDownloaded =
      if l.totalbytes + TagMap.total (l.ongoingtotalbytes.insert t.tag t.totalBytes) = 0 then 0
      else
        ((l.transferredbytes +
            TagMap.total (l.ongoingtransferredbytes.insert t.tag t.transferredBytes) : Int) : ℚ) /
          ((l.totalbytes +
            TagMap.total (l.ongoingtotalbytes.insert t.tag t.totalBytes) : Int) : ℚ) * 100 := by
  obtain ⟨h1, h2, _⟩ := onTransferUpdate_listener l t
  refine ⟨?_, ?_, ?_, onTransferUpdate_percent l t hnum hden⟩
  · rw [h1]
    exact AList.lookup_insert _
  · rw [h2]
    exact AList.lookup_insert _
  · intro tag htag
    rw [h1, h2]
    exact ⟨AList.lookup_insert_ne htag, AList.lookup_insert_ne htag⟩

/-- C3 (witness): three `onNewTransfer()` calls, transfer 1 finished at 100/100, transfer 2 at
100/200; the tick of transfer 3 at 150/300 stores 350/600 of 100, that is 58.33 percent. -/
theorem C3_aggregate_percentage_formula_witness :
    multiRun (MegaCmdMultiTransferListener.new 7) scenarioAggregatorEvents =
      scenarioAggregator ∧
    (scenarioAggregator.onTransferUpdate
      (some { tag := 3, transferredBytes := 150, totalBytes := 300, nodeHandle := 0 })
      ).listener.percentDownloaded = 175 / 3 := by
  constructor
  · have e1 : (AList.erase 1 (∅ : TagMap)) = ∅ := rfl
    have e2 : TagMap.total (AList.insert 2 100 (∅ : TagMap)) = 100 := by decide
    have e3 : TagMap.total (AList.insert 2 200 (∅ : TagMap)) = 200 := by decide
    simp only [multiRun, scenarioAggregatorEvents, List.foldl, multiStep,
      MegaCmdMultiTransferListener.new,
      MegaCmdMultiTransferListener.onNewTransfer, MegaCmdMultiTransferListener.doOnTransferFinish,
      MegaCmdMultiTransferListener.onTransferUpdate,
      MegaCmdMultiTransferListener.aggregatePercent,
      MegaCmdMultiTransferListener.combinedTotal,
      MegaCmdMultiTransferListener.combinedTransferred,
      MegaCmdMultiTransferListener.getOngoingTotalBytes,
      MegaCmdMultiTransferListener.getOngoingTransferredBytes, API_OK, e1, e2, e3]
    norm_num [scenarioAggregator]
  · have h := (C3_aggregate_percentage_formula scenarioAggregator
      { tag := 3, transferredBytes := 150, totalBytes := 300, nodeHandle := 0 }
      (by decide) (by decide)).2.2.2
    have hn : scenarioAggregator.transferredbytes +
        TagMap.total (scenarioAggregator.ongoingtransferredbytes.insert 3 150) = 350 := by
      decide
    have hd : scenarioAggregator.totalbytes +
        TagMap.total (scenarioAggregator.ongoingtotalbytes.insert 3 300) = 600 := by decide
    rw [h]
    simp only [hn, hd]
    norm_num

/-! ### `waitMultiEnd` -/

lemma waitInvariant_step (n : Nat) (w w' : MultiWait) (e : WaitEvent)
    (h : waitStep w e = some w') (hinv : waitInvariant n w) : waitInvariant n w' := by
  obtain ⟨h1, h2, h3, h4, h5⟩ := hinv
  cases e with
  | completion =>
    simp only [waitStep, Option.some.injEq] at h
    subst h
    refine ⟨h1, h2, ?_, h4, h5⟩
    simp only [semRelease]
    omega
  | loop =>
    simp only [waitStep] at h
    split at h
    · simp at h
    · rename_i hret
      split at h
      · rename_i hlt
        split at h
        · simp at h
        · rename_i hperm
          simp only [Option.some.injEq] at h
          subst h
          refine ⟨h1, ?_, ?_, ?_, ?_⟩
          · simp only
            push_cast
            omega
          · simp only
            omega
          · simp only
            omega
          · intro hr
            exact absurd hr hret
      · rename_i hge
        simp only [Option.some.injEq] at h
        subst h
        refine ⟨h1, h2, h3, h4, ?_⟩
        intro _
        show w.waits = n
        omega

lemma waitRun_invariant (n : Nat) (evs : List WaitEvent) (w w' : MultiWait)
    (h : waitRun w evs = some w') (hinv : waitInvariant n w) : waitInvariant n w' := by
  induction evs generalizing w with
  | nil =>
    simp only [waitRun, Option.some.injEq] at h
    exact h ▸ hinv
  | cons e es ih =>
    simp only [waitRun] at h
    cases hs : waitStep w e with
    | none => simp [hs] at h
    | some w1 =>
      simp only [hs] at h
      exact ih w1 h (waitInvariant_step n w w1 e hs hinv)

lemma waitRun_append (w : MultiWait) (a b : List WaitEvent) :
    waitRun w (a ++ b) = (waitRun w a).bind (fun w' => waitRun w' b) := by
  induction a generalizing w with
  | nil => rfl
  | cons e es ih =>
    simp only [List.cons_append, waitRun]
    cases waitStep w e with
    | none => rfl
    | some w1 => exact ih w1

lemma waitRun_completions (k : Nat) (w : MultiWait) :
    waitRun w (List.replicate k WaitEvent.completion) =
      some { w with permits := w.permits + k, completions := w.completions + k } := by
  induction k generalizing w with
  | zero => rfl
  | succ k ih =>
    simp only [List.replicate_succ, waitRun, waitStep, ih, semRelease]
    congr 2 <;> omega

lemma waitRun_loops (k : Nat) (w : MultiWait) (hret : w.returned = false)
    (hperm : k ≤ w.permits) (hi : w.i + (k : Int) ≤ w.started) :
    waitRun w (List.replicate k WaitEvent.loop) =
      some { w with permits := w.permits - k, i := w.i + k, waits := w.waits + k } := by
  induction k generalizing w with
  | zero => simp [waitRun]
  | succ k ih =>
    have hlt : w.i < w.started := by push_cast at hi; omega
    have hp : ¬ w.permits = 0 := by omega
    simp only [List.replicate_succ, waitRun, waitStep, hret, Bool.false_eq_true, if_false,
      hlt, if_true, hp]
    refine (ih _ rfl ?_ ?_).trans ?_
    · show k ≤ w.permits - 1
      omega
    · show w.i + 1 + (k : Int) ≤ w.started
      push_cast at hi
      omega
    · simp only [Option.some.injEq, hret]
      congr 1
      · push_cast
        omega
      · omega
      · omega

/-- C5: a thread enters `waitMultiEnd()` with `started = n`, no completion signalled yet and
no concurrent `onNewTransfer`. In every state it can reach, each `wait()` that has returned
has consumed one completion signal; when `waitMultiEnd()` has returned it has performed
exactly `n` waits, so at least `n` completions had been signalled; with `n = 0` its first
step returns; and if `n` completions are signalled, `n` waits followed by the loop exit make
it return. -/
theorem C5_waitMultiEnd_waits_for_every_started_transfer (n : Nat) (evs : List WaitEvent)
    (w : MultiWait) (h : waitRun (MultiWait.enter n) evs = some w) :
    w.waits + w.permits = w.completions ∧
    (w.returned = true → w.waits = n ∧ n ≤ w.completions) ∧
    waitStep (MultiWait.enter 0) WaitEvent.loop =
      some { MultiWait.enter 0 with returned := true } ∧
    waitRun (MultiWait.enter n)
        (List.replicate n WaitEvent.completion ++ List.replicate n WaitEvent.loop ++
          [WaitEvent.loop]) =
      some { started := n, i := n, permits := 0, completions := n, waits := n,
             returned := true } := by
  have hinit : waitInvariant n (MultiWait.enter n) := by
    refine ⟨rfl, rfl, rfl, Nat.zero_le _, ?_⟩
    intro hr
    simp [MultiWait.enter] at hr
  obtain ⟨_, _, h3, _, h5⟩ := waitRun_invariant n evs _ w h hinit
  refine ⟨h3, ?_, rfl, ?_⟩
  · intro hr
    have := h5 hr
    exact ⟨this, by omega⟩
  · rw [List.append_assoc, waitRun_append, waitRun_completions]
    simp only [Option.bind_eq_bind, Option.some_bind, MultiWait.enter, Nat.zero_add]
    rw [waitRun_append, waitRun_loops n _ rfl (le_refl _) (by simp)]
    simp [waitRun, waitStep]

/-- C5 (witness): with two transfers started, two completions and the three loop steps lead
to the return of `waitMultiEnd()` after exactly two waits, both completions signalled. -/
theorem C5_waitMultiEnd_witness :
    waitRun (MultiWait.enter 2)
        [.completion, .loop, .completion, .loop, .loop] = some scenarioWaitReturned ∧
    scenarioWaitReturned.returned = true ∧
    (scenarioWaitReturned.waits = 2 ∧ 2 ≤ scenarioWaitReturned.completions) :=
  ⟨by decide, rfl,
   (C5_waitMultiEnd_waits_for_every_started_transfer 2
      [.completion, .loop, .completion, .loop, .loop] scenarioWaitReturned
      (by decide)).2.1 rfl⟩

/-! ### Bounds of the aggregate percentage -/

lemma pairedEntries_kerase (k : Int) (e1 e2 : List (Sigma fun _ : Int => Int))
    (h : pairedEntries e1 e2) : pairedEntries (List.kerase k e1) (List.kerase k e2) := by
  unfold pairedEntries at *
  induction h with
  | nil => exact List.Forall₂.nil
  | @cons a b l1 l2 hab _ ih =>
    by_cases hk : k = a.1
    · have hk' : k = b.1 := hk.trans hab.1
      rw [List.kerase_cons_eq hk, List.kerase_cons_eq hk']
      assumption
    · have hk' : k ≠ b.1 := fun e => hk (e.trans hab.1.symm)
      rw [List.kerase_cons_ne hk, List.kerase_cons_ne hk']
      exact List.Forall₂.cons hab ih

lemma pairedEntries_sum (e1 e2 : List (Sigma fun _ : Int => Int)) (h : pairedEntries e1 e2) :
    0 ≤ (e1.map (fun e => e.2)).sum ∧
      (e1.map (fun e => e.2)).sum ≤ (e2.map (fun e => e.2)).sum := by
  unfold pairedEntries at h
  induction h with
  | nil => simp
  | cons hab _ ih =>
    simp only [List.map_cons, List.sum_cons]
    obtain ⟨_, h0, h1⟩ := hab
    omega

lemma wellBehavedState_combined (l : MegaCmdMultiTransferListener) (h : wellBehavedState l) :
    0 ≤ l.combinedTransferred ∧ l.combinedTransferred ≤ l.combinedTotal := by
  obtain ⟨h0, h1, hp⟩ := h
  have hs := pairedEntries_sum _ _ hp
  simp only [MegaCmdMultiTransferListener.combinedTransferred,
    MegaCmdMultiTransferListener.combinedTotal,
    MegaCmdMultiTransferListener.getOngoingTransferredBytes,
    MegaCmdMultiTransferListener.getOngoingTotalBytes, TagMap.total]
  omega

lemma aggregatePercent_bounds (l : MegaCmdMultiTransferListener) (h : wellBehavedState l) :
    0 ≤ l.aggregatePercent ∧ l.aggregatePercent ≤ 100 := by
  obtain ⟨hn, hle⟩ := wellBehavedState_combined l h
  refine ⟨aggregatePercent_nonneg l hn (le_trans hn hle), ?_⟩
  unfold MegaCmdMultiTransferListener.aggregatePercent
  split
  · norm_num
  · rename_i hne
    have hpos : (0 : ℚ) < (l.combinedTotal : ℚ) := by
      have : 0 < l.combinedTotal := by omega
      exact_mod_cast this
    have hle' : (l.combinedTransferred : ℚ) ≤ (l.combinedTotal : ℚ) := by exact_mod_cast hle
    rw [div_mul_eq_mul_div, div_le_iff₀ hpos]
    linarith

lemma wellBehavedState_update (l : MegaCmdMultiTransferListener) (t : MegaTransfer)
    (h : wellBehavedState l) (ht : wellBehavedTransfer t) :
    wellBehavedState (l.onTransferUpdate (some t)).listener := by
  obtain ⟨h1, h2, h3, h4, _⟩ := onTransferUpdate_listener l t
  obtain ⟨a, b, c⟩ := h
  refine ⟨h3 ▸ a, by rw [h3, h4]; exact b, ?_⟩
  rw [h1, h2, AList.insert_entries, AList.insert_entries]
  exact List.Forall₂.cons ⟨rfl, ht.1, ht.2⟩ (pairedEntries_kerase _ _ _ c)

lemma wellBehavedState_finish (l : MegaCmdMultiTransferListener) (transfer : Option MegaTransfer)
    (e : MegaError) (h : wellBehavedState l)
    (ht : ∀ t, transfer = some t → wellBehavedTransfer t) :
    wellBehavedState (l.doOnTransferFinish transfer e) := by
  obtain ⟨a, b, c⟩ := h
  cases transfer with
  | none => exact ⟨a, b, c⟩
  | some t =>
    obtain ⟨t0, t1⟩ := ht t rfl
    refine ⟨?_, ?_, ?_⟩
    · show 0 ≤ l.transferredbytes + t.transferredBytes
      omega
    · show l.transferredbytes + t.transferredBytes ≤ l.totalbytes + t.totalBytes
      omega
    · exact pairedEntries_kerase _ _ _ c

lemma percentInvariant_update (l : MegaCmdMultiTransferListener) (t : MegaTransfer)
    (h : wellBehavedState l) (ht : wellBehavedTransfer t) :
    percentInvariant (l.onTransferUpdate (some t)).listener := by
  have hw := wellBehavedState_update l t h ht
  have hb := aggregatePercent_bounds _ hw
  refine ⟨hw, ?_⟩
  rcases (onTransferUpdate_listener l t).2.2.2.2.2.2.2 with hp | ⟨_, hp⟩
  · rw [hp]
    exact hb
  · rw [hp]
    norm_num

lemma percentInvariant_step (l : MegaCmdMultiTransferListener) (ev : MultiEvent)
    (h : percentInvariant l) (hev : wellBehavedEvent ev) : percentInvariant (multiStep l ev) := by
  cases ev with
  | newTransfer => exact h
  | start transfer =>
    cases transfer with
    | none => exact h
    | some t =>
      exact percentInvariant_update _ t h.1 (hev t rfl)
  | update transfer =>
    cases transfer with
    | none => exact h
    | some t => exact percentInvariant_update l t h.1 (hev t rfl)
  | finish transfer e =>
    refine ⟨wellBehavedState_finish l transfer e h.1 hev, ?_⟩
    cases transfer <;> exact h.2

lemma percentInvariant_run (evs : List MultiEvent) (l : MegaCmdMultiTransferListener)
    (h : percentInvariant l) (hev : ∀ ev ∈ evs, wellBehavedEvent ev) :
    percentInvariant (multiRun l evs) := by
  induction evs generalizing l with
  | nil => exact h
  | cons ev evs ih =>
    exact ih (multiStep l ev)
      (percentInvariant_step l ev h (hev ev (List.mem_cons_self _ _)))
      (fun e he => hev e (List.mem_cons_of_mem _ he))

/-- C2: a single progress tick reporting 200 transferred bytes of a total of 100 makes the
aggregator store a percentage of 200, and the assertion `percentDownloaded <= 100` of
`onTransferUpdate` fails on that tick. In a run in which every callback reports
`0 <= transferred <= total` (transfer 1 finished at 1 of 1 byte, transfer 2 in flight at 1000
of 1000 bytes), `onTransferStart` stores 1001 in `percentDownloaded` before it calls
`onTransferUpdate`. In such runs the value left by each callback lies in `[0, 100]`. -/
theorem C2_percentage_above_100 :
    (multiRun (MegaCmdMultiTransferListener.new 7)
      [.update (some { tag := 1, transferredBytes := 200, totalBytes := 100, nodeHandle := 0 })]
      ).percentDownloaded = 200 ∧
    ((MegaCmdMultiTransferListener.new 7).onTransferUpdate
      (some { tag := 1, transferredBytes := 200, totalBytes := 100, nodeHandle := 0 })
      ).assertHeld = false ∧
    (∀ ev ∈ scenarioStartAfterFinish, wellBehavedEvent ev) ∧
    (∀ t : MegaTransfer,
      (multiRun (MegaCmdMultiTransferListener.new 7) scenarioStartAfterFinish).onTransferStart
          (some t) =
        (multiRun (MegaCmdMultiTransferListener.new 7) scenarioStartAfterFinish
          ).onTransferStartStored.onTransferUpdate (some t)) ∧
    (multiRun (MegaCmdMultiTransferListener.new 7) scenarioStartAfterFinish
      ).onTransferStartStored.percentDownloaded = 1001 ∧
    (∀ (clientID : Int) (evs : List MultiEvent), (∀ ev ∈ evs, wellBehavedEvent ev) →
      0 ≤ (multiRun (MegaCmdMultiTransferListener.new clientID) evs).percentDownloaded ∧
      (multiRun (MegaCmdMultiTransferListener.new clientID) evs).percentDownloaded ≤ 100) := by
  have e2 : TagMap.total (AList.insert 1 200 (∅ : TagMap)) = 200 := by decide
  have e3 : TagMap.total (AList.insert 1 100 (∅ : TagMap)) = 100 := by decide
  refine ⟨?_, ?_, ?_, fun _ => rfl, ?_, ?_⟩
  · simp only [multiRun, List.foldl, multiStep, MegaCmdMultiTransferListener.new,
      MegaCmdMultiTransferListener.onTransferUpdate,
      MegaCmdMultiTransferListener.aggregatePercent,
      MegaCmdMultiTransferListener.combinedTotal,
      MegaCmdMultiTransferListener.combinedTransferred,
      MegaCmdMultiTransferListener.getOngoingTotalBytes,
      MegaCmdMultiTransferListener.getOngoingTransferredBytes, e2, e3]
    norm_num
  · simp only [MegaCmdMultiTransferListener.new,
      MegaCmdMultiTransferListener.onTransferUpdate,
      MegaCmdMultiTransferListener.aggregatePercent,
      MegaCmdMultiTransferListener.combinedTotal,
      MegaCmdMultiTransferListener.combinedTransferred,
      MegaCmdMultiTransferListener.getOngoingTotalBytes,
      MegaCmdMultiTransferListener.getOngoingTransferredBytes, e2, e3]
    norm_num
  · intro ev hev
    simp only [scenarioStartAfterFinish, List.mem_cons, List.mem_singleton,
      List.not_mem_nil, or_false] at hev
    rcases hev with h | h | h | h | h <;> subst h
    · trivial
    · trivial
    · trivial
    · intro t ht
      cases ht
      exact ⟨by decide, by decide⟩
    · intro t ht
      cases ht
      exact ⟨by decide, by decide⟩
  · obtain ⟨h1, _, h3, h4, _⟩ := onTransferUpdate_listener
      (multiRun (MegaCmdMultiTransferListener.new 7)
        [.newTransfer, .newTransfer, .newTransfer,
         .finish (some { tag := 1, transferredBytes := 1, totalBytes := 1, nodeHandle := 0 })
           { errorCode := 0, value := 0 }])
      { tag := 2, transferredBytes := 1000, totalBytes := 1000, nodeHandle := 0 }
    have hrun : multiRun (MegaCmdMultiTransferListener.new 7) scenarioStartAfterFinish =
        ((multiRun (MegaCmdMultiTransferListener.new 7)
          [.newTransfer, .newTransfer, .newTransfer,
           .finish (some { tag := 1, transferredBytes := 1, totalBytes := 1, nodeHandle := 0 })
             { errorCode := 0, value := 0 }]).onTransferUpdate
          (some { tag := 2, transferredBytes := 1000, totalBytes := 1000, nodeHandle := 0 })
          ).listener := rfl
    have ht : (multiRun (MegaCmdMultiTransferListener.new 7)
        scenarioStartAfterFinish).totalbytes = 1 := by
      rw [hrun, h4]
      rfl
    have hn : (multiRun (MegaCmdMultiTransferListener.new 7)
        scenarioStartAfterFinish).combinedTransferred = 1001 := by
      simp only [MegaCmdMultiTransferListener.combinedTransferred,
        MegaCmdMultiTransferListener.getOngoingTransferredBytes]
      rw [hrun, h1, h3]
      rfl
    show (if (multiRun (MegaCmdMultiTransferListener.new 7)
          scenarioStartAfterFinish).totalbytes = 0 then (0 : ℚ)
        else (((multiRun (MegaCmdMultiTransferListener.new 7)
          scenarioStartAfterFinish).combinedTransferred : Int) : ℚ) /
          (((multiRun (MegaCmdMultiTransferListener.new 7)
            scenarioStartAfterFinish).totalbytes : Int) : ℚ)) = 1001
    rw [ht, hn]
    norm_num
  · intro clientID evs hev
    have hinit : percentInvariant (MegaCmdMultiTransferListener.new clientID) := by
      refine ⟨⟨le_refl _, le_refl _, List.Forall₂.nil⟩, ?_, ?_⟩ <;>
        simp [MegaCmdMultiTransferListener.new]
    exact (percentInvariant_run evs _ hinit hev).2

/-! ### Monotonicity of the aggregate percentage -/

/-- C6 (counterexample): transfer 1 ticks at 50 of 100 bytes and the aggregate percentage is
50; then transfer 2 delivers its first tick, 0 of 100 bytes, and the aggregate percentage is
25, although no transfer's transferred-bytes counter has decreased. -/
theorem C6_new_member_lowers_percentage :
    (multiRun (MegaCmdMultiTransferListener.new 7)
      [.update (some { tag := 1, transferredBytes := 50, totalBytes := 100, nodeHandle := 0 })]
      ).percentDownloaded = 50 ∧
    (multiRun (MegaCmdMultiTransferListener.new 7)
      [.update (some { tag := 1, transferredBytes := 50, totalBytes := 100, nodeHandle := 0 }),
       .update (some { tag := 2, transferredBytes := 0, totalBytes := 100, nodeHandle := 0 })]
      ).percentDownloaded = 25 := by
  have hA := onTransferUpdate_percent (MegaCmdMultiTransferListener.new 7)
    { tag := 1, transferredBytes := 50, totalBytes := 100, nodeHandle := 0 }
    (by decide) (by decide)
  have n1 : (MegaCmdMultiTransferListener.new 7).transferredbytes +
      TagMap.total ((MegaCmdMultiTransferListener.new 7).ongoingtransferredbytes.insert 1 50)
        = 50 := by decide
  have d1 : (MegaCmdMultiTransferListener.new 7).totalbytes +
      TagMap.total ((MegaCmdMultiTransferListener.new 7).ongoingtotalbytes.insert 1 100)
        = 100 := by decide
  simp only [n1, d1] at hA
  obtain ⟨h1, h2, h3, h4, _⟩ := onTransferUpdate_listener (MegaCmdMultiTransferListener.new 7)
    { tag := 1, transferredBytes := 50, totalBytes := 100, nodeHandle := 0 }
  have n2 : ((MegaCmdMultiTransferListener.new 7).onTransferUpdate
        (some { tag := 1, transferredBytes := 50, totalBytes := 100, nodeHandle := 0 })
        ).listener.transferredbytes +
      TagMap.total (((MegaCmdMultiTransferListener.new 7).onTransferUpdate
        (some { tag := 1, transferredBytes := 50, totalBytes := 100, nodeHandle := 0 })
        ).listener.ongoingtransferredbytes.insert 2 0) = 50 := by
    rw [h1, h3]
    decide
  have d2 : ((MegaCmdMultiTransferListener.new 7).onTransferUpdate
        (some { tag := 1, transferredBytes := 50, totalBytes := 100, nodeHandle := 0 })
        ).listener.totalbytes +
      TagMap.total (((MegaCmdMultiTransferListener.new 7).onTransferUpdate
        (some { tag := 1, transferredBytes := 50, totalBytes := 100, nodeHandle := 0 })
        ).listener.ongoingtotalbytes.insert 2 100) = 200 := by
    rw [h2, h4]
    decide
  have hB := onTransferUpdate_percent
    ((MegaCmdMultiTransferListener.new 7).onTransferUpdate
      (some { tag := 1, transferredBytes := 50, totalBytes := 100, nodeHandle := 0 })).listener
    { tag := 2, transferredBytes := 0, totalBytes := 100, nodeHandle := 0 }
    (by simp only [n2]; decide) (by simp only [d2]; decide)
  simp only [n2, d2] at hB
  constructor
  · show ((MegaCmdMultiTransferListener.new 7).onTransferUpdate _).listener.percentDownloaded
      = 50
    rw [hA]
    norm_num
  · show (((MegaCmdMultiTransferListener.new 7).onTransferUpdate _).listener.onTransferUpdate
      _).listener.percentDownloaded = 25
    rw [hB]
    norm_num

lemma combined_after_update (l : MegaCmdMultiTransferListener) (t : MegaTransfer) :
    (l.onTransferUpdate (some t)).listener.combinedTransferred +
        (l.ongoingtransferredbytes.lookup t.tag).getD 0 =
      l.combinedTransferred + t.transferredBytes ∧
    (l.onTransferUpdate (some t)).listener.combinedTotal +
        (l.ongoingtotalbytes.lookup t.tag).getD 0 =
      l.combinedTotal + t.totalBytes := by
  obtain ⟨h1, h2, h3, h4, _⟩ := onTransferUpdate_listener l t
  have ha := TagMap.total_erase l.ongoingtransferredbytes t.tag
  have hb := TagMap.total_erase l.ongoingtotalbytes t.tag
  simp only [MegaCmdMultiTransferListener.combinedTransferred,
    MegaCmdMultiTransferListener.combinedTotal,
    MegaCmdMultiTransferListener.getOngoingTransferredBytes,
    MegaCmdMultiTransferListener.getOngoingTotalBytes, h1, h2, h3, h4, TagMap.total_insert]
  constructor <;> omega

/-- C6 (amended): let the stored percentage be the one computed from the current counters
(combined transferred bytes not negative, combined total positive). If the next progress tick
is of a transfer that is already in flight, reports the same total bytes as before and
transferred bytes not below those it reported before, then the aggregate percentage stored
by that tick is not below the previous one. -/
theorem C6_percentage_monotone_for_inflight_member (l : MegaCmdMultiTransferListener)
    (t : MegaTransfer) (old : Int)
    (hstored : l.percentDownloaded = l.aggregatePercent)
    (hnum : 0 ≤ l.combinedTransferred) (hden : 0 < l.combinedTotal)
    (htot : l.ongoingtotalbytes.lookup t.tag = some t.totalBytes)
    (htr : l.ongoingtransferredbytes.lookup t.tag = some old)
    (hle : old ≤ t.transferredBytes) :
    l.percentDownloaded ≤ (l.onTransferUpdate (some t)).listener.percentDownloaded := by
  obtain ⟨hc1, hc2⟩ := combined_after_update l t
  rw [htr] at hc1
  rw [htot] at hc2
  simp only [Option.getD_some] at hc1 hc2
  have hden' : (l.onTransferUpdate (some t)).listener.combinedTotal = l.combinedTotal := by
    omega
  have hnum' : l.combinedTransferred ≤
      (l.onTransferUpdate (some t)).listener.combinedTransferred := by omega
  have hposq : (0 : ℚ) < (l.combinedTotal : ℚ) := by exact_mod_cast hden
  have hagg : l.aggregatePercent ≤ (l.onTransferUpdate (some t)).listener.aggregatePercent := by
    unfold MegaCmdMultiTransferListener.aggregatePercent
    rw [hden']
    have hne : ¬ l.combinedTotal = 0 := by omega
    simp only [hne, if_false]
    have hq : (l.combinedTransferred : ℚ) ≤
        ((l.onTransferUpdate (some t)).listener.combinedTransferred : ℚ) := by
      exact_mod_cast hnum'
    have := div_le_div_of_nonneg_right hq (le_of_lt hposq)
    linarith
  have hnn : 0 ≤ l.aggregatePercent := aggregatePercent_nonneg l hnum (le_of_lt hden)
  rw [hstored]
  rcases (onTransferUpdate_listener l t).2.2.2.2.2.2.2 with hp | ⟨hneg, _⟩
  · rw [hp]
    exact hagg
  · exact absurd (lt_of_le_of_lt (le_trans hnn hagg) hneg) (lt_irrefl _)

/-- C6 (witness): in the example of three transfers (stored percentage 200/3), transfer 2
moves from 100 to 150 of its 200 bytes and the stored percentage does not decrease. -/
theorem C6_percentage_monotone_witness :
    scenarioAggregator.percentDownloaded ≤
      (scenarioAggregator.onTransferUpdate
        (some { tag := 2, transferredBytes := 150, totalBytes := 200, nodeHandle := 0 })
        ).listener.percentDownloaded := by
  have e1 : scenarioAggregator.combinedTransferred = 200 := by decide
  have e2 : scenarioAggregator.combinedTotal = 300 := by decide
  exact C6_percentage_monotone_for_inflight_member scenarioAggregator
    { tag := 2, transferredBytes := 150, totalBytes := 200, nodeHandle := 0 } 100
    (by
      simp only [MegaCmdMultiTransferListener.aggregatePercent, e1, e2]
      norm_num [scenarioAggregator])
    (by decide) (by decide) (by decide) (by decide) (by decide)

/-! ### Completed-transfer ledger -/

lemma onTransferFinish_completedTransfers (g : MegaCmdGlobalTransferListener)
    (transfer : MegaTransfer) (nodepath : Option String) :
    (g.onTransferFinish transfer nodepath).completedTransfers =
      if g.completedTransfers.length + 1 > MAXCOMPLETEDTRANSFERSBUFFER then
        (transfer :: g.completedTransfers).dropLast
      else transfer :: g.completedTransfers := by
  unfold MegaCmdGlobalTransferListener.onTransferFinish
  simp only [List.length_cons]
  split
  · cases hl : (transfer :: g.completedTransfers).getLast? with
    | none => simp at hl
    | some x => rfl
  · rfl

lemma ledger_take_step (M : Nat) (hM : 0 < M) (t : MegaTransfer) (R : List MegaTransfer) :
    (if (R.take M).length + 1 > M then (t :: R.take M).dropLast else t :: R.take M) =
      (t :: R).take M := by
  obtain ⟨m, rfl⟩ : ∃ m, M = m + 1 := ⟨M - 1, by omega⟩
  rw [List.take_succ_cons]
  split
  · rename_i h
    rw [List.length_take] at h
    have hR : m + 1 ≤ R.length := by omega
    rw [List.dropLast_eq_take, List.length_cons, List.length_take,
      Nat.min_eq_left hR]
    have hm : m + 1 + 1 - 1 = m + 1 := by omega
    rw [hm, List.take_succ_cons, List.take_take]
    simp
  · rename_i h
    rw [List.length_take] at h
    have hR : R.length ≤ m := by omega
    rw [List.take_of_length_le (by omega), List.take_of_length_le hR]

lemma ledgerRun_completedTransfers (calls : List (MegaTransfer × Option String))
    (g : MegaCmdGlobalTransferListener) (R : List MegaTransfer)
    (hg : g.completedTransfers = R.take MAXCOMPLETEDTRANSFERSBUFFER) :
    (ledgerRun g calls).completedTransfers =
      ((calls.map Prod.fst).reverse ++ R).take MAXCOMPLETEDTRANSFERSBUFFER := by
  induction calls generalizing g R with
  | nil => simpa [ledgerRun] using hg
  | cons c cs ih =>
    have hstep : (g.onTransferFinish c.1 c.2).completedTransfers =
        (c.1 :: R).take MAXCOMPLETEDTRANSFERSBUFFER := by
      rw [onTransferFinish_completedTransfers, hg]
      exact ledger_take_step MAXCOMPLETEDTRANSFERSBUFFER (by decide) c.1 R
    have := ih (g.onTransferFinish c.1 c.2) (c.1 :: R) hstep
    simp only [ledgerRun, List.foldl_cons, List.map_cons, List.reverse_cons,
      List.append_assoc, List.singleton_append] at this ⊢
    exact this

/-- C7: starting from the empty ledger, after every call of `onTransferFinish` the ledger
holds `min n 10000` snapshots, where `n` is the number of calls so far: never more than
`MAXCOMPLETEDTRANSFERSBUFFER` = 10,000, and exactly one more per call until 10,000 is
reached. -/
theorem C7_ledger_size_bounded (calls : List (MegaTransfer × Option String)) :
    MAXCOMPLETEDTRANSFERSBUFFER = 10000 ∧
    (ledgerRun MegaCmdGlobalTransferListener.new calls).completedTransfers.length =
      min calls.length 10000 ∧
    (ledgerRun MegaCmdGlobalTransferListener.new calls).completedTransfers.length ≤ 10000 := by
  have h := ledgerRun_completedTransfers calls MegaCmdGlobalTransferListener.new [] rfl
  have hlen : (ledgerRun MegaCmdGlobalTransferListener.new calls).completedTransfers.length =
      min calls.length 10000 := by
    rw [h]
    simp [MAXCOMPLETEDTRANSFERSBUFFER, Nat.min_comm]
  exact ⟨rfl, hlen, by rw [hlen]; exact Nat.min_le_right _ _⟩

/-- C8: starting from the empty ledger, after any sequence of `n` completions the ledger
holds the last `min n 10000` finished transfers in reverse order of completion, the newest at
index 0; in particular after 10,001 completions it holds exactly the 10,000 that followed the
very first one, which is no longer in it, and the newest is at the front. -/
theorem C8_ledger_most_recent_first (calls : List (MegaTransfer × Option String)) :
    (ledgerRun MegaCmdGlobalTransferListener.new calls).completedTransfers =
      ((calls.map Prod.fst).reverse).take 10000 ∧
    (∀ (first : MegaTransfer × Option String) (rest : List (MegaTransfer × Option String)),
      calls = first :: rest → rest.length = 10000 →
        (ledgerRun MegaCmdGlobalTransferListener.new calls).completedTransfers =
          (rest.map Prod.fst).reverse ∧
        (ledgerRun MegaCmdGlobalTransferListener.new calls).completedTransfers.length = 10000 ∧
        (ledgerRun MegaCmdGlobalTransferListener.new calls).completedTransfers.head? =
          (rest.map Prod.fst).getLast?) := by
  have h := ledgerRun_completedTransfers calls MegaCmdGlobalTransferListener.new [] rfl
  simp only [List.append_nil, MAXCOMPLETEDTRANSFERSBUFFER] at h
  refine ⟨h, ?_⟩
  intro first rest hc hlen
  subst hc
  have hrest : ((rest.map Prod.fst).reverse).length = 10000 := by simp [hlen]
  have heq : (ledgerRun MegaCmdGlobalTransferListener.new (first :: rest)).completedTransfers =
      (rest.map Prod.fst).reverse := by
    rw [h, List.map_cons, List.reverse_cons, List.take_append_of_le_length (by omega),
      List.take_of_length_le (by omega)]
  refine ⟨heq, by rw [heq, hrest], ?_⟩
  rw [heq, List.head?_reverse]

/-- C9 (evaluation of the code): the ledger is full and its oldest snapshot is a download of
node 5, whose path is cached. Node 5 is downloaded again, the engine resolves it to
`/docs/a.txt` at completion time, and `onTransferFinish` inserts the path and then, evicting
the oldest snapshot, erases the cache entry of node 5 again: afterwards the new snapshot is
at the front of the ledger and the path cache has no entry for its node handle. -/
theorem C9_path_of_new_transfer_erased_by_eviction :
    (fullLedger.onTransferFinish
        { tag := 3, transferredBytes := 10, totalBytes := 10, nodeHandle := 5 }
        (some "/docs/a.txt")).completedTransfers.head? =
      some { tag := 3, transferredBytes := 10, totalBytes := 10, nodeHandle := 5 } ∧
    (fullLedger.onTransferFinish
        { tag := 3, transferredBytes := 10, totalBytes := 10, nodeHandle := 5 }
        (some "/docs/a.txt")).completedPathsByHandle.lookup 5 = none := by
  have hlen : fullLedger.completedTransfers.length = 10000 := by
    simp only [fullLedger, List.length_append, List.length_replicate, List.length_singleton]
  have hlast : ∀ t : MegaTransfer, (t :: fullLedger.completedTransfers).getLast? =
      some { tag := 1, transferredBytes := 10, totalBytes := 10, nodeHandle := 5 } := by
    intro t
    have : t :: fullLedger.completedTransfers =
        (t :: List.replicate 9999
          { tag := 2, transferredBytes := 10, totalBytes := 10, nodeHandle := 9 }) ++
        [{ tag := 1, transferredBytes := 10, totalBytes := 10, nodeHandle := 5 }] := rfl
    rw [this, List.getLast?_concat]
  constructor
  · rw [onTransferFinish_completedTransfers, hlen]
    have : (10000 : Nat) + 1 > MAXCOMPLETEDTRANSFERSBUFFER := by decide
    rw [if_pos this]
    have hne : fullLedger.completedTransfers ≠ [] := by
      intro h0
      rw [h0] at hlen
      simp at hlen
    rw [List.dropLast_cons_of_ne_nil hne]
    rfl
  · unfold MegaCmdGlobalTransferListener.onTransferFinish
    simp only [List.length_cons, hlen, hlast]
    have : (10000 : Nat) + 1 > MAXCOMPLETEDTRANSFERSBUFFER := by decide
    rw [if_pos this]
    exact AList.lookup_erase _ _

lemma noStalePath_step (g : MegaCmdGlobalTransferListener) (transfer : MegaTransfer)
    (nodepath : Option String) (h : noStalePath g) :
    noStalePath (g.onTransferFinish transfer nodepath) := by
  have hpaths : ∀ k ∈ (match nodepath with
        | some path => g.completedPathsByHandle.insert transfer.nodeHandle path
        | none => g.completedPathsByHandle).keys,
      ∃ x ∈ transfer :: g.completedTransfers, x.nodeHandle = k := by
    intro k hk
    cases nodepath with
    | none =>
      obtain ⟨x, hx, hxk⟩ := h k hk
      exact ⟨x, List.mem_cons_of_mem _ hx, hxk⟩
    | some path =>
      simp only at hk
      rw [← AList.mem_keys, AList.mem_insert] at hk
      rcases hk with rfl | hk
      · exact ⟨transfer, List.mem_cons_self _ _, rfl⟩
      · obtain ⟨x, hx, hxk⟩ := h k (AList.mem_keys.mp hk)
        exact ⟨x, List.mem_cons_of_mem _ hx, hxk⟩
  unfold MegaCmdGlobalTransferListener.onTransferFinish
  simp only
  split
  · cases hl : (transfer :: g.completedTransfers).getLast? with
    | none => simp at hl
    | some todelete =>
      simp only
      intro k hk
      rw [← AList.mem_keys, AList.mem_erase] at hk
      obtain ⟨hne, hk⟩ := hk
      obtain ⟨x, hx, hxk⟩ := hpaths k (AList.mem_keys.mp hk)
      refine ⟨x, ?_, hxk⟩
      have hsplit : transfer :: g.completedTransfers =
          (transfer :: g.completedTransfers).dropLast ++ [todelete] := by
        have hne' : transfer :: g.completedTransfers ≠ [] := List.cons_ne_nil _ _
        have hlast := List.getLast?_eq_getLast _ hne'
        rw [hl] at hlast
        have : todelete = (transfer :: g.completedTransfers).getLast hne' :=
          Option.some.inj hlast
        rw [this]
        exact (List.dropLast_append_getLast hne').symm
      rw [hsplit, List.mem_append, List.mem_singleton] at hx
      rcases hx with hx | hx
      · exact hx
      · exfalso
        apply hne
        rw [← hxk, hx]
  · exact hpaths

lemma ledgerRun_noStalePath (calls : List (MegaTransfer × Option String))
    (g : MegaCmdGlobalTransferListener) (hg : noStalePath g) :
    noStalePath (ledgerRun g calls) := by
  induction calls generalizing g with
  | nil => exact hg
  | cons c cs ih => exact ih (g.onTransferFinish c.1 c.2) (noStalePath_step g c.1 c.2 hg)

lemma onTransferFinish_evicts (g : MegaCmdGlobalTransferListener) (transfer : MegaTransfer)
    (nodepath : Option String) (oldest : MegaTransfer)
    (hfull : g.completedTransfers.length = MAXCOMPLETEDTRANSFERSBUFFER)
    (hlast : g.completedTransfers.getLast? = some oldest) :
    (g.onTransferFinish transfer nodepath).completedPathsByHandle.lookup oldest.nodeHandle
      = none ∧
    (g.onTransferFinish transfer nodepath).completedTransfers =
      transfer :: g.completedTransfers.dropLast := by
  have hne : g.completedTransfers ≠ [] := by
    intro h0
    rw [h0] at hlast
    cases hlast
  have hl : (transfer :: g.completedTransfers).getLast? = some oldest := by
    obtain ⟨x, xs, hx⟩ := List.exists_cons_of_ne_nil hne
    rw [hx] at hlast ⊢
    rw [List.getLast?_cons_cons]
    exact hlast
  have hgt : g.completedTransfers.length + 1 > MAXCOMPLETEDTRANSFERSBUFFER := by
    rw [hfull]
    exact Nat.lt_succ_self _
  unfold MegaCmdGlobalTransferListener.onTransferFinish
  simp only [List.length_cons, hl, if_pos hgt]
  exact ⟨AList.lookup_erase _ _, List.dropLast_cons_of_ne_nil hne⟩

/-- C10: the command `transfers` prints an active download of node 7 that the engine does
not resolve, and `printTransfer` reads `completedPathsByHandle[7]`, which inserts the key 7;
after the next `onTransferFinish` (a download of node 3) the path cache holds the keys 3 and
7 while the only snapshot in `completedTransfers` is the one of node 3, so the cache holds a
key without a snapshot. Over sequences of `onTransferFinish` calls alone, starting from the
empty ledger, every key of the cache is the node handle of a snapshot still in the ledger,
and an `onTransferFinish` on a full ledger drops the oldest snapshot and leaves no path for
its node handle. -/
theorem C10_printTransfer_leaves_a_stale_key :
    (ledgerEvents MegaCmdGlobalTransferListener.new scenarioPrintThenFinish
      ).completedPathsByHandle.keys = [3, 7] ∧
    (ledgerEvents MegaCmdGlobalTransferListener.new scenarioPrintThenFinish
      ).completedTransfers.map (fun x => x.nodeHandle) = [3] ∧
    ¬ noStalePath (ledgerEvents MegaCmdGlobalTransferListener.new scenarioPrintThenFinish) ∧
    (∀ calls : List (MegaTransfer × Option String),
      noStalePath (ledgerRun MegaCmdGlobalTransferListener.new calls)) ∧
    (∀ (g : MegaCmdGlobalTransferListener) (transfer oldest : MegaTransfer)
      (nodepath : Option String),
      g.completedTransfers.length = MAXCOMPLETEDTRANSFERSBUFFER →
      g.completedTransfers.getLast? = some oldest →
        (g.onTransferFinish transfer nodepath).completedPathsByHandle.lookup
          oldest.nodeHandle = none ∧
        (g.onTransferFinish transfer nodepath).completedTransfers =
          transfer :: g.completedTransfers.dropLast) := by
  have hkeys : (ledgerEvents MegaCmdGlobalTransferListener.new scenarioPrintThenFinish
      ).completedPathsByHandle.keys = [3, 7] := rfl
  have hsnap : (ledgerEvents MegaCmdGlobalTransferListener.new scenarioPrintThenFinish
      ).completedTransfers.map (fun x => x.nodeHandle) = [3] := rfl
  refine ⟨hkeys, hsnap, ?_, ?_, ?_⟩
  · intro h
    obtain ⟨x, hx, hx7⟩ := h 7 (by rw [hkeys]; decide)
    have hmem : x.nodeHandle ∈ (ledgerEvents MegaCmdGlobalTransferListener.new
        scenarioPrintThenFinish).completedTransfers.map (fun x => x.nodeHandle) :=
      List.mem_map_of_mem _ hx
    rw [hsnap, hx7] at hmem
    revert hmem
    decide
  · intro calls
    apply ledgerRun_noStalePath
    intro k hk
    simp [MegaCmdGlobalTransferListener.new] at hk
  · intro g transfer oldest nodepath hfull hlast
    exact onTransferFinish_evicts g transfer nodepath oldest hfull hlast

/-! ### Session invalidation -/

/-- C23: `MegaCmdMegaListener::onRequestFinish` changes the prompt to the `COMMAND` prompt
`MEGA CMD> ` and pushes `prompt:MEGA CMD> ` to the state listeners if the error is non-null
with code `API_ESID`, whatever the request type; with a null error or any other code it
returns the state unchanged; so the state changes if and only if the error is non-null with
code `API_ESID`. -/
theorem C23_session_invalidation_changes_prompt (s : PromptState) (requestType : Int)
    (e : Option MegaError) :
    prompts prompttype.COMMAND = "MEGA CMD> " ∧
    (∀ err : MegaError, e = some err → err.errorCode = API_ESID →
      MegaCmdMegaListener.onRequestFinish s requestType e =
        { dynamicprompt := "MEGA CMD> "
          stateLines := s.stateLines ++ ["prompt:MEGA CMD> "] }) ∧
    (e = none → MegaCmdMegaListener.onRequestFinish s requestType e = s) ∧
    (∀ err : MegaError, e = some err → err.errorCode ≠ API_ESID →
      MegaCmdMegaListener.onRequestFinish s requestType e = s) ∧
    (MegaCmdMegaListener.onRequestFinish s requestType e ≠ s ↔
      ∃ err : MegaError, e = some err ∧ err.errorCode = API_ESID) := by
  have hesid : ∀ err : MegaError, err.errorCode = API_ESID →
      MegaCmdMegaListener.onRequestFinish s requestType (some err) =
        { dynamicprompt := "MEGA CMD> "
          stateLines := s.stateLines ++ ["prompt:MEGA CMD> "] } := by
    intro err h
    simp only [MegaCmdMegaListener.onRequestFinish, h, if_true, changeprompt]
    rfl
  have hother : ∀ err : MegaError, err.errorCode ≠ API_ESID →
      MegaCmdMegaListener.onRequestFinish s requestType (some err) = s := by
    intro err h
    simp only [MegaCmdMegaListener.onRequestFinish, h, if_false]
  refine ⟨rfl, ?_, ?_, ?_, ?_⟩
  · intro err he h
    rw [he]
    exact hesid err h
  · intro he
    rw [he]
    rfl
  · intro err he h
    rw [he]
    exact hother err h
  · constructor
    · intro hne
      cases e with
      | none => exact absurd rfl hne
      | some err =>
        by_cases h : err.errorCode = API_ESID
        · exact ⟨err, rfl, h⟩
        · exact absurd (hother err h) hne
    · rintro ⟨err, rfl, h⟩
      rw [hesid err h]
      intro heq
      have hlen := congrArg (fun p => p.stateLines.length) heq
      simp at hlen

/-! ### Timed waits -/

lemma checkNoErrors_true_iff (error : Option MegaError) (outCode : Int) :
    (checkNoErrors error outCode).1 = true ↔
      ∃ err : MegaError, error = some err ∧ err.errorCode = API_OK := by
  cases error with
  | none => simp [checkNoErrors]
  | some err =>
    by_cases h : err.errorCode = API_OK
    · simp [checkNoErrors, h]
    · simp [checkNoErrors, h]

/-- C24: for every positive timeout, when `trywait` reports a time-out,
`actUponFetchNodes` returns `false` and `actUponCreateFolder` returns 1 (neither 0, the
success value, nor 2, the error value), and both leave the state untouched: the result is not
inspected, the exit code, `cwd` and the prompt are not updated. For every timeout, each
function returns its success value (`true`, 0) only if the wait completed with a non-null
error whose code is `API_OK`. -/
theorem C24_timeout_is_not_success (st : ExecuterState) (c : Completion) (timeout : Int)
    (cwdResolves : Bool) (rootHandle : Nat) (hpos : 0 < timeout) :
    (trywait c ≠ 0 →
      actUponFetchNodes st c timeout cwdResolves rootHandle = some (false, st) ∧
      actUponCreateFolder st c timeout = some (1, st)) ∧
    ((1 : Int) ≠ 0 ∧ (1 : Int) ≠ 2) ∧
    (∀ (t : Int) (st' : ExecuterState),
      actUponFetchNodes st c t cwdResolves rootHandle = some (true, st') →
        ∃ err : MegaError, c = some (some err) ∧ err.errorCode = API_OK) ∧
    (∀ (t : Int) (st' : ExecuterState),
      actUponCreateFolder st c t = some (0, st') →
        ∃ err : MegaError, c = some (some err) ∧ err.errorCode = API_OK) := by
  have hne1 : ¬ timeout = -1 := by omega
  have hne0 : ¬ timeout = 0 := by omega
  refine ⟨?_, ⟨by decide, by decide⟩, ?_, ?_⟩
  · intro htw
    constructor
    · simp only [actUponFetchNodes, hne1, if_false, htw, ne_eq, not_false_eq_true, if_true]
    · simp only [actUponCreateFolder, hne0, if_false, htw, ne_eq, not_false_eq_true, if_true]
  · intro t st' h
    cases c with
    | none =>
      simp only [actUponFetchNodes, trywait] at h
      split at h <;> simp at h
    | some error =>
      have hproceed : (checkNoErrors error st.outCode).1 = true := by
        simp only [actUponFetchNodes, trywait, ne_eq, not_true_eq_false, if_false] at h
        by_cases hc : (checkNoErrors error st.outCode).1 = true
        · exact hc
        · simp [hc] at h
      obtain ⟨err, he, hok⟩ := (checkNoErrors_true_iff error st.outCode).mp hproceed
      exact ⟨err, by rw [he], hok⟩
  · intro t st' h
    cases c with
    | none =>
      simp only [actUponCreateFolder, trywait] at h
      split at h <;> simp at h
    | some error =>
      have hproceed : (checkNoErrors error st.outCode).1 = true := by
        simp only [actUponCreateFolder, trywait, ne_eq, not_true_eq_false, if_false] at h
        by_cases hc : (checkNoErrors error st.outCode).1 = true
        · exact hc
        · simp [hc] at h
      obtain ⟨err, he, hok⟩ := (checkNoErrors_true_iff error st.outCode).mp hproceed
      exact ⟨err, by rw [he], hok⟩

/-- C24 (witness): with a timeout of 2000 ms and an operation that does not complete in
time, `actUponFetchNodes` returns `false` and `actUponCreateFolder` returns 1, the state
being left as it was. -/
theorem C24_timeout_is_not_success_witness :
    actUponFetchNodes
        { cwd := some 4, outCode := 0, errorInspected := false,
          transferResumptionEnabled := false, promptUpdates := [] }
        none 2000 true 1 =
      some (false,
        { cwd := some 4, outCode := 0, errorInspected := false,
          transferResumptionEnabled := false, promptUpdates := [] }) ∧
    actUponCreateFolder
        { cwd := some 4, outCode := 0, errorInspected := false,
          transferResumptionEnabled := false, promptUpdates := [] }
        none 2000 =
      some (1,
        { cwd := some 4, outCode := 0, errorInspected := false,
          transferResumptionEnabled := false, promptUpdates := [] }) :=
  (C24_timeout_is_not_success
    { cwd := some 4, outCode := 0, errorInspected := false,
      transferResumptionEnabled := false, promptUpdates := [] }
    none 2000 true 1 (by decide)).1 (by decide)

/-! ### Exit codes -/

/-- C25: `checkNoErrors` returns `true` exactly for a non-null error with code `API_OK`. For
every error it is called with, the error of a completed listener, which is not null: with
code `API_OK` it returns `true` and leaves the exit code unchanged; with any other code it
returns `false` and the exit code becomes exactly that code; and whenever it returns `false`
the exit code afterwards is not `MCMD_OK` = 0. -/
theorem C25_checkNoErrors_outcomes (err : MegaError) (outCode : Int) :
    (∀ error : Option MegaError, (checkNoErrors error outCode).1 = true ↔
      ∃ e : MegaError, error = some e ∧ e.errorCode = API_OK) ∧
    (err.errorCode = API_OK → checkNoErrors (some err) outCode = (true, outCode)) ∧
    (err.errorCode ≠ API_OK → checkNoErrors (some err) outCode = (false, err.errorCode)) ∧
    ((checkNoErrors (some err) outCode).1 = false →
      (checkNoErrors (some err) outCode).2 = err.errorCode ∧
      (checkNoErrors (some err) outCode).2 ≠ MCMD_OK) := by
  refine ⟨fun error => checkNoErrors_true_iff error outCode, ?_, ?_, ?_⟩
  · intro hok
    simp [checkNoErrors, hok]
  · intro hne
    simp [checkNoErrors, hne]
  · intro hfalse
    by_cases hok : err.errorCode = API_OK
    · simp [checkNoErrors, hok] at hfalse
    · have hval : checkNoErrors (some err) outCode = (false, err.errorCode) := by
        simp [checkNoErrors, hok]
      rw [hval]
      exact ⟨rfl, hok⟩

/-! ### Delete confirmation -/

/-- C26 (evaluation of the code): at the prompt `Are you sure to delete photos ?
(Yes/No/All/None): ` the answers `Yes` and `No`, spelled as the prompt offers them, are not
recognised: nothing is deleted or dropped and the question
`Please enter [y]es/[n]o/[a]ll/none: ` is written; `All` and `None`, spelled as offered, are
dispatched to `confirmDeleteAll` (every pending node deleted) and `discardDeleteAll` (every
pending node dropped), and `yes` and `no` to `confirmDelete` (front node deleted) and
`discardDelete` (front node dropped); `process_line` returns `false` at this prompt. -/
theorem C26_answers_as_offered_by_the_prompt (l : String) :
    processDeleteAnswer scenarioDelete "Yes" =
      { scenarioDelete with
        output := scenarioDelete.output ++ ["Please enter [y]es/[n]o/[a]ll/none: "] } ∧
    processDeleteAnswer scenarioDelete "No" =
      { scenarioDelete with
        output := scenarioDelete.output ++ ["Please enter [y]es/[n]o/[a]ll/none: "] } ∧
    processDeleteAnswer scenarioDelete "All" = confirmDeleteAll scenarioDelete ∧
    (confirmDeleteAll scenarioDelete).deleted = scenarioDelete.nodesToConfirmDelete ∧
    (confirmDeleteAll scenarioDelete).nodesToConfirmDelete = [] ∧
    processDeleteAnswer scenarioDelete "None" = discardDeleteAll scenarioDelete ∧
    (discardDeleteAll scenarioDelete).deleted = [] ∧
    (discardDeleteAll scenarioDelete).nodesToConfirmDelete = [] ∧
    processDeleteAnswer scenarioDelete "yes" = confirmDelete scenarioDelete ∧
    (confirmDelete scenarioDelete).deleted = [{ handle := 11, name := "photos" }] ∧
    (confirmDelete scenarioDelete).nodesToConfirmDelete = [{ handle := 12, name := "docs" }] ∧
    processDeleteAnswer scenarioDelete "no" = discardDelete scenarioDelete ∧
    (discardDelete scenarioDelete).deleted = [] ∧
    (discardDelete scenarioDelete).nodesToConfirmDelete = [{ handle := 12, name := "docs" }] ∧
    process_line prompttype.AREYOUSURETODELETE l = false := by
  refine ⟨by decide, by decide, by decide, by decide, by decide, by decide, by decide,
    by decide, by decide, by decide, by decide, by decide, by decide, by decide, rfl⟩

/-! ### Pending operation -/

lemma completeAll_of_completed (outcomes : List (Int × Nat)) (p : PendingOperation)
    (h : p.completed = true) : p.completeAll outcomes = p := by
  induction outcomes with
  | nil => rfl
  | cons o os ih =>
    simp only [PendingOperation.completeAll, List.foldl_cons] at ih ⊢
    have : p.complete o.1 o.2 = p := by simp [PendingOperation.complete, h]
    rw [this]
    exact ih

/-- C27: a pending operation is created with its completed signal unset. After the first
completion the signal is set and the result slot holds that completion's error code and
result; whatever further completions are delivered to the same operation, the signal has
gone from unset to set exactly once and the recorded outcome is still the first one. The
finish hook of `MegaCmdListener` itself emits at most a progress notification and holds no
outcome. -/
theorem C27_at_most_one_completion (error : Int) (result : Nat)
    (later : List (Int × Nat)) (clientID : Int) (request : Option (Bool × Int)) :
    PendingOperation.issue.completed = false ∧
    PendingOperation.issue.completeAll ((error, result) :: later) =
      { completed := true, error := some error, result := some result, transitions := 1 } ∧
    (MegaCmdListener.doOnRequestFinish clientID request).length ≤ 1 := by
  refine ⟨rfl, ?_, ?_⟩
  · have h1 : PendingOperation.issue.complete error result =
        { completed := true, error := some error, result := some result, transitions := 1 } :=
      rfl
    simp only [PendingOperation.completeAll, List.foldl_cons, h1]
    exact completeAll_of_completed later _ rfl
  · unfold MegaCmdListener.doOnRequestFinish
    cases request with
    | none => simp
    | some r =>
      obtain ⟨b, n⟩ := r
      cases b <;> simp

/-! ### Redraw suppression -/

lemma finalLineWritten_append (a b : List ListenerEffect) :
    finalLineWritten (a ++ b) = (finalLineWritten a || finalLineWritten b) := by
  induction a with
  | nil => simp [finalLineWritten]
  | cons x xs ih => cases x <;> simp [finalLineWritten, ih, Bool.or_assoc]

lemma forwarded_silent (b : Bool) (x : ListenerEffect)
    (hx : consoleWrites [x] = 0 ∧ finalLineWritten [x] = false ∧ notifications [x] = []) :
    consoleWrites (if b = true then [x] else []) = 0 ∧
    finalLineWritten (if b = true then [x] else []) = false ∧
    notifications (if b = true then [x] else []) = [] := by
  cases b
  · exact ⟨rfl, rfl, rfl⟩
  · exact hx

lemma onTransferUpdate_suppressed (l : MegaCmdTransferListener) (t : MegaTransfer)
    (hs : redrawSuppressed l t) :
    consoleWrites (l.onTransferUpdate (some t)).2 = 0 ∧
    finalLineWritten (l.onTransferUpdate (some t)).2 = false ∧
    (l.onTransferUpdate (some t)).1.alreadyFinished = l.alreadyFinished ∧
    (l.onTransferUpdate (some t)).1.clientID = l.clientID ∧
    (l.onTransferUpdate (some t)).1.hasListener = l.hasListener ∧
    ((l.alreadyFinished = true ∨
        (transferPercent t = l.percentDownloaded ∧ l.percentDownloaded ≠ 0)) →
      (l.onTransferUpdate (some t)).1.percentDownloaded = transferPercent t) ∧
    (¬ (l.alreadyFinished = true ∨
        (transferPercent t = l.percentDownloaded ∧ l.percentDownloaded ≠ 0)) →
      (l.onTransferUpdate (some t)).1.percentDownloaded =
        if transferPercent t < 0 then 0 else transferPercent t) := by
  have hf := forwarded_silent l.hasListener (ListenerEffect.forwardUpdate (some t))
    ⟨rfl, rfl, rfl⟩
  by_cases h1 : l.alreadyFinished = true ∨
      (transferPercent t = l.percentDownloaded ∧ l.percentDownloaded ≠ 0)
  · have hr : l.onTransferUpdate (some t) =
        ({ l with percentDownloaded := transferPercent t },
          if l.hasListener = true then [ListenerEffect.forwardUpdate (some t)] else []) := by
      simp only [MegaCmdTransferListener.onTransferUpdate, h1, if_true]
    rw [hr]
    exact ⟨hf.1, hf.2.1, rfl, rfl, rfl, fun _ => rfl, fun h => absurd h1 h⟩
  · have hrest : t.totalBytes < 0 ∨
        (t.transferredBytes : ℚ) < (1 / 1000 : ℚ) * (t.totalBytes : ℚ) := by
      rcases hs with h | h | h | h
      · exact absurd (Or.inl h) h1
      · exact absurd (Or.inr h) h1
      · exact Or.inl h
      · exact Or.inr h
    have hr : l.onTransferUpdate (some t) =
        (if transferPercent t < 0 then { l with percentDownloaded := 0 }
          else { l with percentDownloaded := transferPercent t },
          if l.hasListener = true then [ListenerEffect.forwardUpdate (some t)] else []) := by
      simp only [MegaCmdTransferListener.onTransferUpdate, h1, if_false]
      by_cases h2 : t.totalBytes < 0
      · simp only [h2, if_true]
      · have h3 := hrest.resolve_left h2
        simp only [h2, if_false, h3, if_true]
    rw [hr]
    refine ⟨hf.1, hf.2.1, ?_, ?_, ?_, fun h => absurd h h1, fun _ => ?_⟩
    · split <;> rfl
    · split <;> rfl
    · split <;> rfl
    · split <;> rfl

lemma onTransferUpdate_drawn (l : MegaCmdTransferListener) (t : MegaTransfer)
    (hs : ¬ redrawSuppressed l t) :
    consoleWrites (l.onTransferUpdate (some t)).2 = 1 ∧
    (finalLineWritten (l.onTransferUpdate (some t)).2 = true ↔
      (l.onTransferUpdate (some t)).1.percentDownloaded = 100) ∧
    (finalLineWritten (l.onTransferUpdate (some t)).2 = true →
      (l.onTransferUpdate (some t)).1.alreadyFinished = true) ∧
    ((l.onTransferUpdate (some t)).1.alreadyFinished = false →
      0 ≤ (l.onTransferUpdate (some t)).1.percentDownloaded) := by
  have hf := forwarded_silent l.hasListener (ListenerEffect.forwardUpdate (some t))
    ⟨rfl, rfl, rfl⟩
  have h1 : ¬ (l.alreadyFinished = true ∨
      (transferPercent t = l.percentDownloaded ∧ l.percentDownloaded ≠ 0)) := by
    intro h
    rcases h with h | h
    · exact hs (Or.inl h)
    · exact hs (Or.inr (Or.inl h))
  have h2 : ¬ t.totalBytes < 0 := fun h => hs (Or.inr (Or.inr (Or.inl h)))
  have h3 : ¬ (t.transferredBytes : ℚ) < (1 / 1000 : ℚ) * (t.totalBytes : ℚ) :=
    fun h => hs (Or.inr (Or.inr (Or.inr h)))
  unfold MegaCmdTransferListener.onTransferUpdate
  simp only [h1, h2, h3, if_false]
  repeat' split
  all_goals
    simp only [consoleWrites_append, finalLineWritten_append, hf.1, hf.2.1]
    simp_all [consoleWrites, finalLineWritten]

lemma transferStep_silent_events (l : MegaCmdTransferListener) (ev : TransferEvent)
    (hev : ∀ t : MegaTransfer, ev ≠ TransferEvent.update (some t)) :
    (transferStep l ev).1 = l ∧ consoleWrites (transferStep l ev).2 = 0 ∧
    finalLineWritten (transferStep l ev).2 = false := by
  cases ev with
  | start t =>
    have hf := forwarded_silent l.hasListener (ListenerEffect.forwardStart t) ⟨rfl, rfl, rfl⟩
    exact ⟨rfl, hf.1, hf.2.1⟩
  | update t =>
    cases t with
    | none =>
      have hf := forwarded_silent l.hasListener (ListenerEffect.forwardUpdate none)
        ⟨rfl, rfl, rfl⟩
      exact ⟨rfl, hf.1, hf.2.1⟩
    | some t => exact absurd rfl (hev t)
  | finish t e =>
    have hf := forwarded_silent l.hasListener (ListenerEffect.forwardFinish t e)
      ⟨rfl, rfl, rfl⟩
    refine ⟨rfl, ?_, ?_⟩
    · cases t with
      | none => exact hf.1
      | some t =>
        simp only [transferStep, MegaCmdTransferListener.doOnTransferFinish,
          consoleWrites_append, hf.1]
        rfl
    · cases t with
      | none => exact hf.2.1
      | some t =>
        simp only [transferStep, MegaCmdTransferListener.doOnTransferFinish,
          finalLineWritten_append, hf.2.1]
        rfl
  | temporaryError t e =>
    have hf := forwarded_silent l.hasListener (ListenerEffect.forwardTemporaryError t e)
      ⟨rfl, rfl, rfl⟩
    exact ⟨rfl, hf.1, hf.2.1⟩

lemma transferStep_after_completion (l : MegaCmdTransferListener) (ev : TransferEvent)
    (h : l.alreadyFinished = true) :
    (transferStep l ev).1.alreadyFinished = true ∧ consoleWrites (transferStep l ev).2 = 0 := by
  by_cases hev : ∃ t : MegaTransfer, ev = TransferEvent.update (some t)
  · obtain ⟨t, rfl⟩ := hev
    obtain ⟨h1, _, h3, _⟩ := onTransferUpdate_suppressed l t (Or.inl h)
    exact ⟨by rw [transferStep, h3, h], h1⟩
  · have hev' : ∀ t : MegaTransfer, ev ≠ TransferEvent.update (some t) :=
      fun t he => hev ⟨t, he⟩
    obtain ⟨h1, h2, _⟩ := transferStep_silent_events l ev hev'
    exact ⟨by rw [h1, h], h2⟩

lemma transferRun_after_completion (evs : List TransferEvent) (l : MegaCmdTransferListener)
    (h : l.alreadyFinished = true) :
    (transferRun l evs).1.alreadyFinished = true ∧ consoleWrites (transferRun l evs).2 = 0 := by
  induction evs generalizing l with
  | nil => exact ⟨h, rfl⟩
  | cons ev evs ih =>
    obtain ⟨h1, h2⟩ := transferStep_after_completion l ev h
    obtain ⟨h3, h4⟩ := ih (transferStep l ev).1 h1
    exact ⟨h3, by simp only [transferRun, consoleWrites_append, h2, h4]⟩

lemma transferStep_final_line (l : MegaCmdTransferListener) (ev : TransferEvent)
    (h : finalLineWritten (transferStep l ev).2 = true) :
    (transferStep l ev).1.alreadyFinished = true ∧
    (transferStep l ev).1.percentDownloaded = 100 := by
  by_cases hev : ∃ t : MegaTransfer, ev = TransferEvent.update (some t)
  · obtain ⟨t, rfl⟩ := hev
    by_cases hs : redrawSuppressed l t
    · have := (onTransferUpdate_suppressed l t hs).2.1
      simp only [transferStep] at h
      rw [this] at h
      cases h
    · obtain ⟨_, h2, h3, _⟩ := onTransferUpdate_drawn l t hs
      exact ⟨h3 h, h2.mp h⟩
  · have hev' : ∀ t : MegaTransfer, ev ≠ TransferEvent.update (some t) :=
      fun t he => hev ⟨t, he⟩
    have := (transferStep_silent_events l ev hev').2.2
    rw [this] at h
    cases h

/-- C21: a progress callback of `MegaCmdTransferListener::onTransferUpdate` writes nothing to
the console if the newly computed percentage equals the stored one and that value is not
zero, or if a completion line has already been rendered (`alreadyFinished`). A bar drawn at
100% is ended by a newline, and a callback that writes such a line sets `alreadyFinished`;
after it, whatever callbacks follow on that listener, none of them writes to the console. -/
theorem C21_redraw_suppression (l : MegaCmdTransferListener) (t : MegaTransfer)
    (ev : TransferEvent) (evs : List TransferEvent) :
    (transferPercent t = l.percentDownloaded ∧ l.percentDownloaded ≠ 0 →
      consoleWrites (l.onTransferUpdate (some t)).2 = 0) ∧
    (l.alreadyFinished = true → consoleWrites (l.onTransferUpdate (some t)).2 = 0) ∧
    (consoleWrites (l.onTransferUpdate (some t)).2 = 1 →
      (l.onTransferUpdate (some t)).1.percentDownloaded = 100 →
        finalLineWritten (l.onTransferUpdate (some t)).2 = true) ∧
    (finalLineWritten (transferStep l ev).2 = true →
      (transferStep l ev).1.percentDownloaded = 100 ∧
      (transferStep l ev).1.alreadyFinished = true ∧
      consoleWrites (transferRun (transferStep l ev).1 evs).2 = 0) := by
  refine ⟨?_, ?_, ?_, ?_⟩
  · intro h
    exact (onTransferUpdate_suppressed l t (Or.inr (Or.inl h))).1
  · intro h
    exact (onTransferUpdate_suppressed l t (Or.inl h)).1
  · intro hw hp
    by_cases hs : redrawSuppressed l t
    · rw [(onTransferUpdate_suppressed l t hs).1] at hw
      cases hw
    · exact (onTransferUpdate_drawn l t hs).2.1.mpr hp
  · intro h
    obtain ⟨h1, h2⟩ := transferStep_final_line l ev h
    exact ⟨h2, h1, (transferRun_after_completion evs _ h1).2⟩

/-! ### Transfers with an unknown total -/

/-- C22 (counterexample): a renderer that has drawn its completion line (1000 of 1000
bytes) receives a callback with 1000 transferred bytes and total -1: the stored percentage
afterwards is -100000. A fresh renderer that receives a callback with -5 transferred bytes
and total -10 stores 50. -/
theorem C22_negative_total_not_stored_as_zero :
    (((MegaCmdTransferListener.new false 7).onTransferUpdate
        (some { tag := 1, transferredBytes := 1000, totalBytes := 1000, nodeHandle := 0 })).1
      ).alreadyFinished = true ∧
    ((((MegaCmdTransferListener.new false 7).onTransferUpdate
        (some { tag := 1, transferredBytes := 1000, totalBytes := 1000, nodeHandle := 0 })).1
      ).onTransferUpdate
        (some { tag := 1, transferredBytes := 1000, totalBytes := -1, nodeHandle := 0 })
      ).1.percentDownloaded = -100000 ∧
    ((MegaCmdTransferListener.new false 7).onTransferUpdate
        (some { tag := 1, transferredBytes := -5, totalBytes := -10, nodeHandle := 0 })
      ).1.percentDownloaded = 50 := by
  refine ⟨?_, ?_, ?_⟩
  · norm_num [MegaCmdTransferListener.onTransferUpdate, MegaCmdTransferListener.new,
      transferPercent]
  · norm_num [MegaCmdTransferListener.onTransferUpdate, MegaCmdTransferListener.new,
      transferPercent]
  · norm_num [MegaCmdTransferListener.onTransferUpdate, MegaCmdTransferListener.new,
      transferPercent]

lemma rendererInvariant_step (l : MegaCmdTransferListener) (ev : TransferEvent)
    (h : rendererInvariant l) : rendererInvariant (transferStep l ev).1 := by
  by_cases hev : ∃ t : MegaTransfer, ev = TransferEvent.update (some t)
  · obtain ⟨t, rfl⟩ := hev
    intro hfin
    simp only [transferStep] at hfin ⊢
    by_cases hs : redrawSuppressed l t
    · obtain ⟨_, _, h3, _, _, h6, h7⟩ := onTransferUpdate_suppressed l t hs
      rw [h3] at hfin
      by_cases h1 : l.alreadyFinished = true ∨
          (transferPercent t = l.percentDownloaded ∧ l.percentDownloaded ≠ 0)
      · rw [h6 h1]
        rcases h1 with h1 | h1
        · rw [hfin] at h1
          cases h1
        · rw [h1.1]
          exact h hfin
      · rw [h7 h1]
        split
        · exact le_refl 0
        · rename_i hneg
          exact not_lt.mp hneg
    · exact (onTransferUpdate_drawn l t hs).2.2.2 hfin
  · have hev' : ∀ t : MegaTransfer, ev ≠ TransferEvent.update (some t) :=
      fun t he => hev ⟨t, he⟩
    rw [(transferStep_silent_events l ev hev').1]
    exact h

lemma rendererInvariant_run (evs : List TransferEvent) (l : MegaCmdTransferListener)
    (h : rendererInvariant l) : rendererInvariant (transferRun l evs).1 := by
  induction evs generalizing l with
  | nil => exact h
  | cons ev evs ih => exact ih (transferStep l ev).1 (rendererInvariant_step l ev h)

/-- C22 (amended): a progress callback whose transfer reports a negative total draws no bar,
whatever the state of the renderer and the reported transferred bytes; and if the renderer,
after any sequence of callbacks since its construction, has not yet rendered a completion
and the reported transferred bytes are not negative, the stored `percentDownloaded` is 0
afterwards. -/
theorem C22_negative_total_is_zero_percent (hasListener : Bool) (clientID : Int)
    (evs : List TransferEvent) (l : MegaCmdTransferListener) (t : MegaTransfer)
    (htotal : t.totalBytes < 0) :
    consoleWrites (l.onTransferUpdate (some t)).2 = 0 ∧
    ((transferRun (MegaCmdTransferListener.new hasListener clientID) evs).1.alreadyFinished
        = false →
      0 ≤ t.transferredBytes →
      consoleWrites ((transferRun (MegaCmdTransferListener.new hasListener clientID) evs
        ).1.onTransferUpdate (some t)).2 = 0 ∧
      ((transferRun (MegaCmdTransferListener.new hasListener clientID) evs
        ).1.onTransferUpdate (some t)).1.percentDownloaded = 0) := by
  have hsup : ∀ l' : MegaCmdTransferListener, redrawSuppressed l' t :=
    fun l' => Or.inr (Or.inr (Or.inl htotal))
  refine ⟨(onTransferUpdate_suppressed l t (hsup l)).1, ?_⟩
  intro hfin htr
  have hinv : rendererInvariant
      (transferRun (MegaCmdTransferListener.new hasListener clientID) evs).1 :=
    rendererInvariant_run evs _ (fun _ => le_refl 0)
  have hold := hinv hfin
  obtain ⟨h1, _, _, _, _, _, h7⟩ := onTransferUpdate_suppressed _ t (hsup
    (transferRun (MegaCmdTransferListener.new hasListener clientID) evs).1)
  refine ⟨h1, ?_⟩
  have hne : t.totalBytes ≠ 0 := by omega
  have htp : transferPercent t ≤ 0 := by
    unfold transferPercent
    rw [if_neg hne]
    have ht0 : (0 : ℚ) ≤ (t.transferredBytes : ℚ) := by exact_mod_cast htr
    have ht1 : ((t.totalBytes : Int) : ℚ) ≤ 0 := by exact_mod_cast (le_of_lt htotal)
    have := div_nonpos_iff.mpr (Or.inl ⟨ht0, ht1⟩)
    linarith
  have hnot : ¬ ((transferRun (MegaCmdTransferListener.new hasListener clientID) evs
        ).1.alreadyFinished = true ∨
      (transferPercent t =
          (transferRun (MegaCmdTransferListener.new hasListener clientID) evs
            ).1.percentDownloaded ∧
        (transferRun (MegaCmdTransferListener.new hasListener clientID) evs
          ).1.percentDownloaded ≠ 0)) := by
    rintro (hf | ⟨heq, hnz⟩)
    · rw [hfin] at hf
      cases hf
    · apply hnz
      rw [← heq] at hold ⊢
      exact le_antisymm htp hold
  rw [h7 hnot]
  split
  · rfl
  · rename_i hge
    exact le_antisymm htp (not_lt.mp hge)

/-- C22 (witness): a fresh renderer receives a first tick of 10 of 100 bytes and then a
callback with 10 transferred bytes and total -1: no bar, stored percentage 0. -/
theorem C22_negative_total_is_zero_percent_witness :
    consoleWrites ((transferRun (MegaCmdTransferListener.new false 7)
      [.update (some { tag := 1, transferredBytes := 10, totalBytes := 100, nodeHandle := 0 })]
      ).1.onTransferUpdate
        (some { tag := 1, transferredBytes := 10, totalBytes := -1, nodeHandle := 0 })).2 = 0 ∧
    ((transferRun (MegaCmdTransferListener.new false 7)
      [.update (some { tag := 1, transferredBytes := 10, totalBytes := 100, nodeHandle := 0 })]
      ).1.onTransferUpdate
        (some { tag := 1, transferredBytes := 10, totalBytes := -1, nodeHandle := 0 })
      ).1.percentDownloaded = 0 :=
  (C22_negative_total_is_zero_percent false 7
    [.update (some { tag := 1, transferredBytes := 10, totalBytes := 100, nodeHandle := 0 })]
    (MegaCmdTransferListener.new false 7)
    { tag := 1, transferredBytes := 10, totalBytes := -1, nodeHandle := 0 }
    (by decide)).2
    (by
      norm_num [transferRun, transferStep, MegaCmdTransferListener.onTransferUpdate,
        MegaCmdTransferListener.new, transferPercent])
    (by decide)

/-! ### The assertion of the aggregator -/

lemma onTransferUpdate_assertHeld (l : MegaCmdMultiTransferListener) (t : MegaTransfer)
    (h : (l.onTransferUpdate (some t)).listener.percentDownloaded ≤ 100) :
    (l.onTransferUpdate (some t)).assertHeld = true := by
  revert h
  unfold MegaCmdMultiTransferListener.onTransferUpdate
  simp only
  repeat' split
  all_goals
    intro h
    first
      | rfl
      | exact decide_eq_true h

/-- C29: for every sequence of events fed into a freshly constructed aggregator in which each
callback reports `0 <= transferred <= total` for its transfer, and every further callback
`onTransferUpdate` or `onTransferStart` that does so, the assertion
`percentDownloaded <= 100` of `onTransferUpdate` holds, and the percentage the callback
computes, and the one it stores, lie in `[0, 100]`. -/
theorem C29_assertion_holds_for_well_behaved_engine (clientID : Int) (evs : List MultiEvent)
    (t : MegaTransfer) (hev : ∀ ev ∈ evs, wellBehavedEvent ev) (ht : wellBehavedTransfer t) :
    ((multiRun (MegaCmdMultiTransferListener.new clientID) evs).onTransferUpdate
      (some t)).assertHeld = true ∧
    0 ≤ ((multiRun (MegaCmdMultiTransferListener.new clientID) evs).onTransferUpdate
      (some t)).listener.aggregatePercent ∧
    ((multiRun (MegaCmdMultiTransferListener.new clientID) evs).onTransferUpdate
      (some t)).listener.aggregatePercent ≤ 100 ∧
    0 ≤ ((multiRun (MegaCmdMultiTransferListener.new clientID) evs).onTransferUpdate
      (some t)).listener.percentDownloaded ∧
    ((multiRun (MegaCmdMultiTransferListener.new clientID) evs).onTransferUpdate
      (some t)).listener.percentDownloaded ≤ 100 ∧
    ((multiRun (MegaCmdMultiTransferListener.new clientID) evs).onTransferStart
      (some t)).assertHeld = true ∧
    0 ≤ ((multiRun (MegaCmdMultiTransferListener.new clientID) evs).onTransferStart
      (some t)).listener.percentDownloaded ∧
    ((multiRun (MegaCmdMultiTransferListener.new clientID) evs).onTransferStart
      (some t)).listener.percentDownloaded ≤ 100 := by
  have hinit : percentInvariant (MegaCmdMultiTransferListener.new clientID) := by
    refine ⟨⟨le_refl _, le_refl _, List.Forall₂.nil⟩, ?_, ?_⟩ <;>
      simp [MegaCmdMultiTransferListener.new]
  have hrun := percentInvariant_run evs _ hinit hev
  have hu := percentInvariant_update _ t hrun.1 ht
  have hagg := aggregatePercent_bounds _ hu.1
  have hs : percentInvariant
      ((multiRun (MegaCmdMultiTransferListener.new clientID) evs).onTransferStart
        (some t)).listener :=
    percentInvariant_step _ (.start (some t)) hrun (fun t' ht' => by cases ht'; exact ht)
  refine ⟨onTransferUpdate_assertHeld _ t hu.2.2, hagg.1, hagg.2, hu.2.1, hu.2.2, ?_,
    hs.2.1, hs.2.2⟩
  exact onTransferUpdate_assertHeld _ t hs.2.2

/-- C29 (witness): after the events of the example of three transfers, a tick of transfer 3
at 50 of 100 bytes passes the assertion. -/
theorem C29_assertion_holds_witness :
    ((multiRun (MegaCmdMultiTransferListener.new 7) scenarioAggregatorEvents).onTransferUpdate
      (some { tag := 3, transferredBytes := 50, totalBytes := 100, nodeHandle := 0 })
      ).assertHeld = true :=
  (C29_assertion_holds_for_well_behaved_engine 7 scenarioAggregatorEvents
    { tag := 3, transferredBytes := 50, totalBytes := 100, nodeHandle := 0 }
    (by
      intro ev hev
      simp only [scenarioAggregatorEvents, List.mem_cons, List.mem_singleton,
        List.not_mem_nil, or_false] at hev
      rcases hev with h | h | h | h | h <;> subst h
      · trivial
      · trivial
      · trivial
      · intro t ht
        cases ht
        exact ⟨by decide, by decide⟩
      · intro t ht
        cases ht
        exact ⟨by decide, by decide⟩)
    ⟨by decide, by decide⟩).1

/-! ### Conservation of the combined sums by a completion -/

lemma lastTotalsFrom_cons (m : TagMap) (ev : MultiEvent) (evs : List MultiEvent) :
    lastTotalsFrom m (ev :: evs) =
      lastTotalsFrom
        (match reportedTotal ev with
          | some (tag, total) => m.insert tag total
          | none => m) evs := rfl

lemma lastReportedFrom_cons (init : Option Int) (tag : Int) (ev : MultiEvent)
    (evs : List MultiEvent) :
    lastReportedFrom init tag (ev :: evs) =
      lastReportedFrom
        (match reportedTotal ev with
          | some (k, total) => if k = tag then some total else init
          | none => init) tag evs := rfl

lemma lastTotalsFrom_lookup (evs : List MultiEvent) (m : TagMap) (tag : Int) :
    (lastTotalsFrom m evs).lookup tag = lastReportedFrom (m.lookup tag) tag evs := by
  induction evs generalizing m with
  | nil => rfl
  | cons ev evs ih =>
    rw [lastTotalsFrom_cons, lastReportedFrom_cons, ih]
    cases hrep : reportedTotal ev with
    | none => rfl
    | some p =>
      obtain ⟨k, total⟩ := p
      simp only
      by_cases hk : k = tag
      · subst hk
        rw [if_pos rfl, AList.lookup_insert]
      · rw [if_neg hk, AList.lookup_insert_ne (fun e => hk e.symm)]

lemma totalsInvariant_report (l : MegaCmdMultiTransferListener) (m : TagMap) (fin : List Int)
    (t : MegaTransfer) (h : totalsInvariant l m fin) (hfin : t.tag ∉ fin) :
    totalsInvariant (l.onTransferUpdate (some t)).listener (m.insert t.tag t.totalBytes) fin := by
  obtain ⟨_, h2, _, h4, _⟩ := onTransferUpdate_listener l t
  obtain ⟨hsum, hlook⟩ := h
  constructor
  · have e1 := TagMap.total_erase l.ongoingtotalbytes t.tag
    have e2 := TagMap.total_erase m t.tag
    have e3 := hlook t.tag hfin
    simp only [MegaCmdMultiTransferListener.combinedTotal,
      MegaCmdMultiTransferListener.getOngoingTotalBytes] at hsum ⊢
    rw [h2, h4, TagMap.total_insert, TagMap.total_insert]
    rw [e3] at e1
    omega
  · intro tag htag
    rw [h2]
    by_cases hk : tag = t.tag
    · subst hk
      rw [AList.lookup_insert, AList.lookup_insert]
    · rw [AList.lookup_insert_ne hk, AList.lookup_insert_ne hk]
      exact hlook tag htag

lemma totalsInvariant_finish (l : MegaCmdMultiTransferListener) (m : TagMap) (fin : List Int)
    (t : MegaTransfer) (e : MegaError) (h : totalsInvariant l m fin) (hfin : t.tag ∉ fin) :
    totalsInvariant (l.doOnTransferFinish (some t) e) (m.insert t.tag t.totalBytes)
      (t.tag :: fin) := by
  obtain ⟨hsum, hlook⟩ := h
  constructor
  · have e1 := TagMap.total_erase l.ongoingtotalbytes t.tag
    have e2 := TagMap.total_erase m t.tag
    have e3 := hlook t.tag hfin
    simp only [MegaCmdMultiTransferListener.combinedTotal,
      MegaCmdMultiTransferListener.getOngoingTotalBytes] at hsum ⊢
    rw [TagMap.total_insert]
    show l.totalbytes + t.totalBytes + TagMap.total (l.ongoingtotalbytes.erase t.tag) = _
    rw [e3] at e1
    omega
  · intro tag htag
    have hk : tag ≠ t.tag := fun e => htag (e ▸ List.mem_cons_self _ _)
    have htag' : tag ∉ fin := fun hm => htag (List.mem_cons_of_mem _ hm)
    show (l.ongoingtotalbytes.erase t.tag).lookup tag = _
    rw [AList.lookup_erase_ne hk, AList.lookup_insert_ne hk]
    exact hlook tag htag'

lemma totalsInvariant_run (evs : List MultiEvent) (l : MegaCmdMultiTransferListener)
    (m : TagMap) (fin : List Int) (h : totalsInvariant l m fin)
    (hord : finishesLast fin evs = true) :
    (multiRun l evs).combinedTotal = TagMap.total (lastTotalsFrom m evs) := by
  induction evs generalizing l m fin with
  | nil => exact h.1
  | cons ev evs ih =>
    rw [lastTotalsFrom_cons]
    show (multiRun (multiStep l ev) evs).combinedTotal = _
    cases ev with
    | newTransfer => exact ih _ m fin h hord
    | start transfer =>
      cases transfer with
      | none => exact ih _ m fin h hord
      | some t =>
        simp only [finishesLast, Bool.and_eq_true] at hord
        refine ih _ _ fin ?_ hord.2
        have h0 : totalsInvariant
            { l with alreadyFinished := false
                     percentDownloaded :=
                       if l.totalbytes = 0 then 0
                       else ((MegaCmdMultiTransferListener.combinedTransferred
                         { l with alreadyFinished := false } : Int) : ℚ) / (l.totalbytes : ℚ) }
            m fin := h
        exact totalsInvariant_report _ m fin t h0 (by simpa using hord.1)
    | update transfer =>
      cases transfer with
      | none => exact ih _ m fin h hord
      | some t =>
        simp only [finishesLast, Bool.and_eq_true] at hord
        exact ih _ _ fin (totalsInvariant_report l m fin t h (by simpa using hord.1)) hord.2
    | finish transfer e =>
      cases transfer with
      | none => exact ih _ m fin h hord
      | some t =>
        simp only [finishesLast, Bool.and_eq_true] at hord
        exact ih _ _ (t.tag :: fin)
          (totalsInvariant_finish l m fin t e h (by simpa using hord.1)) hord.2

lemma finish_conserves (l : MegaCmdMultiTransferListener) (t : MegaTransfer) (e : MegaError)
    (h1 : l.ongoingtransferredbytes.lookup t.tag = some t.transferredBytes)
    (h2 : l.ongoingtotalbytes.lookup t.tag = some t.totalBytes) :
    (l.doOnTransferFinish (some t) e).combinedTransferred = l.combinedTransferred ∧
    (l.doOnTransferFinish (some t) e).combinedTotal = l.combinedTotal := by
  have e1 := TagMap.total_erase l.ongoingtransferredbytes t.tag
  have e2 := TagMap.total_erase l.ongoingtotalbytes t.tag
  rw [h1] at e1
  rw [h2] at e2
  simp only [Option.getD_some] at e1 e2
  constructor
  · show l.transferredbytes + t.transferredBytes +
      TagMap.total (l.ongoingtransferredbytes.erase t.tag) =
        l.transferredbytes + TagMap.total l.ongoingtransferredbytes
    omega
  · show l.totalbytes + t.totalBytes + TagMap.total (l.ongoingtotalbytes.erase t.tag) =
        l.totalbytes + TagMap.total l.ongoingtotalbytes
    omega

/-- C30: if the in-flight maps bind the tag of a finishing transfer to the transferred and
total bytes its `doOnTransferFinish` reports (as they do right after an `onTransferUpdate`
reporting the same counters), the combined transferred bytes and the combined total bytes
are the same before and after the finish; and for every event sequence fed into a freshly
constructed aggregator in which every tag finishes at most once and receives no start or
update callback after its finish, the combined total is the sum, over the distinct tags, of
the total bytes reported by the latest callback of that tag. -/
theorem C30_finish_conserves_combined_sums (l : MegaCmdMultiTransferListener)
    (t : MegaTransfer) (e : MegaError) (clientID : Int) (evs : List MultiEvent)
    (hsameTransferred : l.ongoingtransferredbytes.lookup t.tag = some t.transferredBytes)
    (hsameTotal : l.ongoingtotalbytes.lookup t.tag = some t.totalBytes)
    (hord : finishesLast [] evs = true) :
    (l.doOnTransferFinish (some t) e).combinedTransferred = l.combinedTransferred ∧
    (l.doOnTransferFinish (some t) e).combinedTotal = l.combinedTotal ∧
    ((l.onTransferUpdate (some t)).listener.doOnTransferFinish (some t) e).combinedTransferred =
      (l.onTransferUpdate (some t)).listener.combinedTransferred ∧
    ((l.onTransferUpdate (some t)).listener.doOnTransferFinish (some t) e).combinedTotal =
      (l.onTransferUpdate (some t)).listener.combinedTotal ∧
    (multiRun (MegaCmdMultiTransferListener.new clientID) evs).combinedTotal =
      TagMap.total (lastTotals evs) ∧
    (lastTotals evs).keys.Nodup ∧
    ∀ tag : Int, (lastTotals evs).lookup tag = lastReportedFrom none tag evs := by
  obtain ⟨u1, u2, _⟩ := onTransferUpdate_listener l t
  have hu := finish_conserves (l.onTransferUpdate (some t)).listener t e
    (by rw [u1, AList.lookup_insert]) (by rw [u2, AList.lookup_insert])
  have hc := finish_conserves l t e hsameTransferred hsameTotal
  refine ⟨hc.1, hc.2, hu.1, hu.2, ?_, (lastTotals evs).nodupKeys, ?_⟩
  · exact totalsInvariant_run evs _ ∅ [] ⟨rfl, fun _ _ => rfl⟩ hord
  · intro tag
    exact lastTotalsFrom_lookup evs ∅ tag

/-- C30 (witness): in the example of three transfers, the completion of transfer 2 at the
100 of 200 bytes of its latest tick leaves the combined sums unchanged; and after the events
of two transfers (transfer 1 finished at 100 bytes, transfer 2 in flight with total 200) the
combined total is the sum of the last reported totals. -/
theorem C30_finish_conserves_combined_sums_witness :
    (scenarioAggregator.doOnTransferFinish
      (some { tag := 2, transferredBytes := 100, totalBytes := 200, nodeHandle := 0 })
      { errorCode := 0, value := 0 }).combinedTotal = scenarioAggregator.combinedTotal ∧
    (multiRun (MegaCmdMultiTransferListener.new 7) scenarioTwoTransfers).combinedTotal =
      TagMap.total (lastTotals scenarioTwoTransfers) ∧
    TagMap.total (lastTotals scenarioTwoTransfers) = 300 :=
  ⟨(C30_finish_conserves_combined_sums scenarioAggregator
      { tag := 2, transferredBytes := 100, totalBytes := 200, nodeHandle := 0 }
      { errorCode := 0, value := 0 } 7 scenarioTwoTransfers rfl rfl (by decide)).2.1,
   (C30_finish_conserves_combined_sums scenarioAggregator
      { tag := 2, transferredBytes := 100, totalBytes := 200, nodeHandle := 0 }
      { errorCode := 0, value := 0 } 7 scenarioTwoTransfers rfl rfl (by decide)).2.2.2.2.1,
   by decide⟩

/-! ### Text of the progress bar -/

lemma formatFixed2_100 : formatFixed2 100 = "100.00" := by
  have h : Int.floor ((100 : ℚ) * 100 + 1 / 2) = 10000 := by
    rw [Int.floor_eq_iff]
    norm_num
  simp only [formatFixed2, h]
  decide

lemma progressSuffix_full :
    progressSuffix 100 1048576 1048576 = "||(1/1 MB: 100.00 %) " := by
  simp only [progressSuffix, formatFixed2_100]
  decide

lemma glyphCount_full : glyphCount 80 21 100 = 45 := by
  have h : Int.floor ((((((80 : Nat) : Int) - 15 - ((21 : Nat) : Int)) % 2 ^ 64 : Int) : ℚ)
      * 100 / 100) = 44 := by
    rw [Int.floor_eq_iff]
    norm_num
  simp only [glyphCount, h]
  norm_num
  rfl

lemma glyphGap_eq (cols n : Nat) (hfit : 15 + n ≤ cols) (hcols : cols < 2 ^ 32) :
    (((cols : Int) - 15 - (n : Int)) % 2 ^ 64 : Int) = ((cols - 15 - n : Nat) : Int) := by
  have h : ((cols : Int) - 15 - (n : Int)) = ((cols - 15 - n : Nat) : Int) := by omega
  rw [h]
  apply Int.emod_eq_of_lt
  · omega
  · have : (cols - 15 - n : Nat) < 2 ^ 32 := by omega
    have h64 : ((2 : Int) ^ 32) < 2 ^ 64 := by norm_num
    have : ((cols - 15 - n : Nat) : Int) < 2 ^ 32 := by exact_mod_cast this
    omega

lemma glyphCount_at_100 (cols n : Nat) (hfit : 15 + n ≤ cols) (hcols : cols < 2 ^ 32) :
    glyphCount cols n 100 = (cols - 15 - n) + 1 := by
  unfold glyphCount
  simp only [glyphGap_eq cols n hfit hcols]
  have hb : (((cols - 15 - n : Nat) : Int) : ℚ) * 100 / 100 = (((cols - 15 - n : Nat) : Int) : ℚ) := by
    field_simp
  rw [hb, Int.floor_intCast]
  have hnn : ¬ ((((cols - 15 - n : Nat) : Int) : ℚ) < 0) := by
    push_neg
    exact_mod_cast Int.natCast_nonneg _
  rw [if_neg hnn, Int.toNat_natCast]

lemma glyphCount_below_100 (cols n : Nat) (p : ℚ) (hfit : 15 + n < cols) (hcols : cols < 2 ^ 32)
    (h0 : 0 ≤ p) (h1 : p < 100) :
    1 ≤ glyphCount cols n p ∧ glyphCount cols n p ≤ cols - 15 - n := by
  unfold glyphCount
  simp only [glyphGap_eq cols n (le_of_lt hfit) hcols]
  have hg : (0 : ℚ) < (((cols - 15 - n : Nat) : Int) : ℚ) := by
    have : 0 < (cols - 15 - n : Nat) := by omega
    exact_mod_cast this
  have hb0 : (0 : ℚ) ≤ (((cols - 15 - n : Nat) : Int) : ℚ) * p / 100 := by positivity
  have hb1 : (((cols - 15 - n : Nat) : Int) : ℚ) * p / 100 < (((cols - 15 - n : Nat) : Int) : ℚ) := by
    rw [div_lt_iff₀ (by norm_num : (0 : ℚ) < 100)]
    nlinarith
  rw [if_neg (not_lt.mpr hb0)]
  have hf0 : 0 ≤ Int.floor ((((cols - 15 - n : Nat) : Int) : ℚ) * p / 100) := Int.floor_nonneg.mpr hb0
  have hf1 : Int.floor ((((cols - 15 - n : Nat) : Int) : ℚ) * p / 100) < ((cols - 15 - n : Nat) : Int) :=
    Int.floor_lt.mpr hb1
  omega

set_option maxRecDepth 8000 in
lemma barLineWith_full :
    barLineWith 80 "||(1/1 MB: 100.00 %) ".toList 45 =
      some ("TRANSFERRING ||".toList ++ List.replicate 45 '#' ++
        "|(1/1 MB: 100.00 %) ".toList ++ [Char.ofNat 0]) := by
  decide

lemma storeAt_eq_some (buf r : List Char) (pos : Nat) (c : Char) (h : storeAt buf pos c = some r) :
    pos < buf.length ∧ r = buf.set pos c := by
  unfold storeAt at h
  split at h
  · rename_i hlt
    exact ⟨hlt, (Option.some.inj h).symm⟩
  · cases h

lemma storeGlyphs_before (n : Nat) (buf r : List Char) (pos : Nat)
    (h : storeGlyphs buf pos n = some r) (i : Nat) (hi : i < pos) : r[i]? = buf[i]? := by
  induction n generalizing buf pos with
  | zero =>
    simp only [storeGlyphs] at h
    rw [Option.some.inj h]
  | succ n ih =>
    simp only [storeGlyphs, Option.bind_eq_some] at h
    obtain ⟨b, hb, hr⟩ := h
    obtain ⟨_, rfl⟩ := storeAt_eq_some _ _ _ _ hb
    rw [ih _ _ hr (by omega), List.getElem?_set_ne (by omega)]

lemma storeGlyphs_inside (n : Nat) (buf r : List Char) (pos : Nat)
    (h : storeGlyphs buf pos n = some r) (i : Nat) (h0 : pos ≤ i) (h1 : i < pos + n) :
    r[i]? = some '#' := by
  induction n generalizing buf pos with
  | zero => omega
  | succ n ih =>
    simp only [storeGlyphs, Option.bind_eq_some] at h
    obtain ⟨b, hb, hr⟩ := h
    obtain ⟨hlt, rfl⟩ := storeAt_eq_some _ _ _ _ hb
    by_cases hi : i = pos
    · subst hi
      rw [storeGlyphs_before n _ _ _ hr i (by omega), List.getElem?_set_eq_of_lt _ hlt]
    · exact ih _ _ hr (by omega) (by omega)

lemma barLine_overrun (cols : Nat) (transferred total : Int) (line : List Char)
    (hfit : 15 + (progressSuffix 100 transferred total).length ≤ cols) (hcols : cols < 2 ^ 32)
    (h : barLine cols 100 transferred total = some line) :
    line.get? (cols - (progressSuffix 100 transferred total).length) = some '#' := by
  rw [List.get?_eq_getElem?]
  unfold barLine at h
  rw [glyphCount_at_100 cols _ hfit hcols] at h
  unfold barLineWith at h
  simp only [Option.bind_eq_some] at h
  obtain ⟨_, _, _, _, h3⟩ := h
  split at h3
  · cases h3
  · split at h3
    · cases h3
    · simp only [Option.bind_eq_some] at h3
      obtain ⟨_, _, hg⟩ := h3
      have hlen : (progressSuffix 100 transferred total).toList.length =
          (progressSuffix 100 transferred total).length := rfl
      apply storeGlyphs_inside _ _ _ _ hg
      · omega
      · omega

lemma storeGlyphs_after (n : Nat) (buf r : List Char) (pos : Nat)
    (h : storeGlyphs buf pos n = some r) (i : Nat) (hi : pos + n ≤ i) : r[i]? = buf[i]? := by
  induction n generalizing buf pos with
  | zero =>
    simp only [storeGlyphs] at h
    rw [Option.some.inj h]
  | succ n ih =>
    simp only [storeGlyphs, Option.bind_eq_some] at h
    obtain ⟨b, hb, hr⟩ := h
    obtain ⟨_, rfl⟩ := storeAt_eq_some _ _ _ _ hb
    rw [ih _ _ hr (by omega), List.getElem?_set_ne (by omega)]

lemma sprintfAt_inside (buf r s : List Char) (pos : Nat) (h : sprintfAt buf pos s = some r)
    (i : Nat) (hi : i < s.length) : r[pos + i]? = s[i]? := by
  unfold sprintfAt at h
  split at h
  · rename_i hle
    have hr := (Option.some.inj h).symm
    subst hr
    have htake : (List.take pos buf).length = pos := by
      rw [List.length_take]
      omega
    rw [List.append_assoc, List.append_assoc, List.getElem?_append_right (by omega), htake,
      Nat.add_sub_cancel_left, List.getElem?_append_left hi]
  · cases h

lemma barLine_suffix_intact (cols : Nat) (p : ℚ) (transferred total : Int) (line : List Char)
    (hfit : 15 + (progressSuffix p transferred total).length < cols) (hcols : cols < 2 ^ 32)
    (h0 : 0 ≤ p) (h1 : p < 100) (h : barLine cols p transferred total = some line)
    (i : Nat) (hi : i < (progressSuffix p transferred total).length) :
    line.get? (cols - (progressSuffix p transferred total).length + i) =
      (progressSuffix p transferred total).toList.get? i := by
  rw [List.get?_eq_getElem?, List.get?_eq_getElem?]
  have hcount := glyphCount_below_100 cols _ p hfit hcols h0 h1
  unfold barLine barLineWith at h
  simp only [Option.bind_eq_some] at h
  obtain ⟨_, _, _, _, h3⟩ := h
  split at h3
  · cases h3
  · split at h3
    · cases h3
    · simp only [Option.bind_eq_some] at h3
      obtain ⟨b3, hs, hg⟩ := h3
      have hlen : (progressSuffix p transferred total).toList.length =
          (progressSuffix p transferred total).length := rfl
      rw [storeGlyphs_after _ _ _ _ hg _ (by omega)]
      rw [hlen] at hs
      exact sprintfAt_inside _ _ _ _ hs i (by omega)


/-- C28: on a terminal of 80 columns, the callback that reports 1048576 of 1048576 bytes to
a fresh renderer writes the prefix, 45 glyphs and the suffix without its first bar: the
suffix `||(1/1 MB: 100.00 %) ` has 21 characters and leaves 44 cells between prefix and
suffix, and the last glyph is stored in the first cell of the suffix. At a percentage of 100
the loop runs once more than there are cells between prefix and suffix, for every width, so
the cell where the suffix begins holds a glyph; for a percentage in `[0, 100)` and at least
one cell between prefix and suffix, the glyphs fit and the suffix is written intact. -/
theorem C28_glyphs_overwrite_the_suffix_at_100_percent :
    consoleLines 80 ((MegaCmdTransferListener.new false 7).onTransferUpdate
      (some { tag := 1, transferredBytes := 1048576, totalBytes := 1048576, nodeHandle := 0 })
      ).2 =
      [some ("TRANSFERRING ||".toList ++ List.replicate 45 '#' ++
        "|(1/1 MB: 100.00 %) ".toList ++ [Char.ofNat 0])] ∧
    progressSuffix 100 1048576 1048576 = "||(1/1 MB: 100.00 %) " ∧
    15 + (progressSuffix 100 1048576 1048576).length ≤ 80 ∧
    glyphCount 80 (progressSuffix 100 1048576 1048576).length 100 = 45 ∧
    (∀ (cols n : Nat), 15 + n ≤ cols → cols < 2 ^ 32 →
      glyphCount cols n 100 = (cols - 15 - n) + 1) ∧
    (∀ (cols : Nat) (transferred total : Int) (line : List Char),
      15 + (progressSuffix 100 transferred total).length ≤ cols → cols < 2 ^ 32 →
      barLine cols 100 transferred total = some line →
        line.get? (cols - (progressSuffix 100 transferred total).length) = some '#') ∧
    (∀ (cols : Nat) (p : ℚ) (transferred total : Int) (line : List Char),
      15 + (progressSuffix p transferred total).length < cols → cols < 2 ^ 32 →
      0 ≤ p → p < 100 → barLine cols p transferred total = some line →
        glyphCount cols (progressSuffix p transferred total).length p ≤
          cols - 15 - (progressSuffix p transferred total).length ∧
        ∀ i : Nat, i < (progressSuffix p transferred total).length →
          line.get? (cols - (progressSuffix p transferred total).length + i) =
            (progressSuffix p transferred total).toList.get? i) := by
  have heff : ((MegaCmdTransferListener.new false 7).onTransferUpdate
      (some { tag := 1, transferredBytes := 1048576, totalBytes := 1048576, nodeHandle := 0 })
      ).2 =
      [.console 100 1048576 1048576 true,
       .notify (informTransferUpdate
        { tag := 1, transferredBytes := 1048576, totalBytes := 1048576, nodeHandle := 0 } 7)] := by
    norm_num [MegaCmdTransferListener.onTransferUpdate, MegaCmdTransferListener.new,
      transferPercent]
  have hlen : (progressSuffix 100 1048576 1048576).length = 21 := by
    rw [progressSuffix_full]
    rfl
  have hbar : barLine 80 100 1048576 1048576 =
      some ("TRANSFERRING ||".toList ++ List.replicate 45 '#' ++
        "|(1/1 MB: 100.00 %) ".toList ++ [Char.ofNat 0]) := by
    unfold barLine
    rw [hlen, glyphCount_full, progressSuffix_full]
    exact barLineWith_full
  refine ⟨?_, progressSuffix_full, ?_, ?_, glyphCount_at_100, barLine_overrun, ?_⟩
  · rw [heff]
    simp only [consoleLines, hbar]
  · rw [hlen]
    decide
  · rw [hlen]
    exact glyphCount_full
  · intro cols p transferred total line hfit hcols h0 h1 h
    exact ⟨(glyphCount_below_100 cols _ p hfit hcols h0 h1).2,
      barLine_suffix_intact cols p transferred total line hfit hcols h0 h1 h⟩

end MegaCmd
